import Mathlib

/-!
# The gossip info store (`gossip/info.go`, `gossip/infostore.go`)

A shallow embedding of the info store of the gossip package and the
properties proved about it.

Modelling conventions.

* `int64` values are integers; the one place where the source does `int64`
  arithmetic (`lastTime + 1`, `SeqGen++`) wraps with `wrapInt64`. `uint32`
  values are naturals and `Hops++` wraps with `wrapUint32`.
* `*Info` is an address (`Ptr`) into a heap of `Info` objects (`Heap`): the
  stores keep pointers, and `AddInfo` and `Combine` write through them, so two
  stores that hold the same pointer see each other's writes.
* `InfoMap` and `GroupMap` are Go maps: association lists without duplicate
  keys. A Go `range` visits the entries in an unspecified order; the model
  visits them in list order, and every list order is a value of the type.
* `*InfoStore` and `*Group` are held by value: a call on a group returns the
  group as it leaves it, and the store puts it back under its prefix.
* `time.Now().UnixNano()` is an argument (`clock`, `now`).
* `group.go` is not among the sources: its operations are the fields of
  `GroupOps`.
-/

namespace Gossip

/-! ## Machine integers -/

/-- Two's-complement wrap-around of an `int64` result. -/
def wrapInt64 (x : Int) : Int :=
  (x + 9223372036854775808) % 18446744073709551616 - 9223372036854775808

/-- Wrap-around of a `uint32` result. -/
def wrapUint32 (n : Nat) : Nat := n % 4294967296

/-- The largest `int64`. -/
def maxInt64 : Int := 9223372036854775807

/-- The smallest `int64`. -/
def minInt64 : Int := -9223372036854775808

/-- The largest `uint32`. -/
def maxUint32 : Nat := 4294967295

/-! ## `info.go` -/

/-- The `Info` struct as `infostore.go` uses it (`NewInfo` builds
`Info{key, val, now, now + ttl, is.SeqGen, node, 0}`). `Val` is a `Value`, an
interface with the single method `Less`; the store never calls it, and the
payload is an integer here. -/
structure Info where
  Key : String
  Val : Int
  Timestamp : Int
  TTLStamp : Int
  Seq : Int
  Node : String
  Hops : Nat
deriving DecidableEq

/-- Index of the last occurrence of `c`, as `strings.LastIndex` gives it
(`none` for Go's `-1`). -/
def lastIndex (c : Char) : List Char → Option Nat
  | [] => none
  | x :: xs =>
    match lastIndex c xs with
    | some i => some (i + 1)
    | none => if x = c then some 0 else none

/-- The text preceding the last period within the given key. -/
def infoPrefix (key : String) : String :=
  match lastIndex '.' key.data with
  | some index => String.mk (key.data.take index)
  | none => ""

/-- A `*Info`: the address of an `Info` object. -/
abbrev Ptr := Nat

/-- The `Info` objects of the process, by address. -/
abbrev Heap := Ptr → Info

/-- The assignment `info.Hops = v`. -/
def setHops (h : Heap) (info : Ptr) (v : Nat) : Heap :=
  Function.update h info { h info with Hops := v }

/-- The assignment `info.Seq = v`. -/
def setSeq (h : Heap) (info : Ptr) (v : Int) : Heap :=
  Function.update h info { h info with Seq := v }

/-- The type `infoMap`: a map of keys to `Info` object pointers. -/
abbrev InfoMap := AList (fun _ : String => Ptr)

/-- The values of a map in the order a `range` over it visits them. -/
def mapValues {β : Type} (m : AList (fun _ : String => β)) : List β :=
  m.entries.map (fun e => e.2)

/-! ## `infostore.go` -/

/-- Modelled from the spec: the `Group` type of `group.go`, which is not
among the sources; these are the fields `infostore.go` reads. -/
structure Group where
  Prefix : String
  Limit : Int
  TypeOf : Int
  Infos : InfoMap

/-- The type `GroupMap`: a map from key prefix to group. -/
abbrev GroupMap := AList (fun _ : String => Group)

/-- The errors the store returns. -/
inductive Error where
  | groupExists (pre : String)
  | noDeltas (seq : Int)
  | group (code : Nat)
deriving DecidableEq

/-- Modelled from the spec: the operations of the Group collaborator
(`group.go` is not among the sources). `NewGroup` is the constructor, which
fails on invalid parameters; `AddInfo` applies the group's admission policy
and reports whether the Info was admitted; `GetInfo` looks a key up (`now` is
the clock reading, should it check the TTL). Each returns the group as the
call leaves it; they read the `Info` objects and write none. -/
structure GroupOps where
  NewGroup : String → Int → Int → Except Error Group
  AddInfo : Heap → Group → Ptr → Group × Bool
  GetInfo : Heap → Int → Group → String → Group × Option Ptr

/-- Modelled from the spec: the Filter of `filter.go`, which is not among the
sources, as an exact multiset of keys: the list of the keys it represents, in
any order. -/
structure Filter where
  keys : List String

/-- Modelled from the spec: `AddKey` inserts the key. -/
def Filter.AddKey (f : Filter) (key : String) : Filter := ⟨key :: f.keys⟩

/-- Modelled from the spec: `RemoveKey` deletes one occurrence of the key. -/
def Filter.RemoveKey (f : Filter) (key : String) : Filter := ⟨f.keys.erase key⟩

/-- Modelled from the spec: `ApproximateInsertions` is the number of keys
represented, a `uint32`. -/
def Filter.ApproximateInsertions (f : Filter) : Nat := wrapUint32 f.keys.length

/-- The constant `FilterBits`. (`FilterMaxFP = 0.025`, a float, is a tuning
parameter of the absent filter and is left out.) -/
def FilterBits : Nat := 4

/-- The struct `InfoStore`. -/
structure InfoStore where
  Infos : InfoMap
  Groups : GroupMap
  MaxSeq : Int
  SeqGen : Int

/-- One call of `MonotonicUnixNano` with `lastTime` as the package variable and
`clock` as the reading of `time.Now().UnixNano()`: the new `lastTime` and the
value returned. -/
def MonotonicUnixNano (lastTime clock : Int) : Int × Int :=
  let now := clock
  let now := if now = lastTime then wrapInt64 (lastTime + 1) else now
  (now, now)

/-- Successive calls of `MonotonicUnixNano`, one per clock reading: the values
returned, in call order. -/
def monotonicCalls (lastTime : Int) : List Int → List Int
  | [] => []
  | clock :: rest =>
    (MonotonicUnixNano lastTime clock).2 ::
      monotonicCalls (MonotonicUnixNano lastTime clock).1 rest

/-- The constructor `NewInfoStore`. -/
def NewInfoStore : InfoStore := ⟨∅, ∅, 0, 0⟩

namespace InfoStore

/-- The group the key belongs to, if its prefix is registered. -/
def belongsToGroup (is : InfoStore) (key : String) : Option Group :=
  is.Groups.lookup (infoPrefix key)

/-- The method `InfoCount`: the count of infos stored in groups and the
non-group infos map, in `uint32` arithmetic. -/
def InfoCount (is : InfoStore) : Nat :=
  (mapValues is.Groups).foldl
    (fun count group => wrapUint32 (count + wrapUint32 (mapValues group.Infos).length))
    (wrapUint32 (mapValues is.Infos).length)

/-- The method `NewInfo`, with `lastTime` the package variable of
`MonotonicUnixNano`, `clock` the reading of `time.Now().UnixNano()` in it, and
`info` the address of the object that `&Info{...}` allocates, which is the
pointer returned: the new `lastTime`, the heap and the store as the call
leaves them. `ttl` is a `time.Duration`, an `int64`. -/
def NewInfo (lastTime clock : Int) (h : Heap) (is : InfoStore) (key : String) (val : Int)
    (ttl : Int) (info : Ptr) : Int × Heap × InfoStore :=
  let is1 : InfoStore := { is with SeqGen := wrapInt64 (is.SeqGen + 1) }
  let now := (MonotonicUnixNano lastTime clock).2
  let node := "localhost"
  ((MonotonicUnixNano lastTime clock).1,
    Function.update h info ⟨key, val, now, wrapInt64 (now + ttl), is1.SeqGen, node, 0⟩, is1)

/-- The method `GetInfo`, with `now` the clock reading of the TTL check: the
store as the call leaves it and the pointer returned (`none` for `nil`). -/
def GetInfo (G : GroupOps) (h : Heap) (now : Int) (is : InfoStore) (key : String) :
    InfoStore × Option Ptr :=
  match is.belongsToGroup key with
  | some group =>
    ({ is with Groups := is.Groups.insert (infoPrefix key) (G.GetInfo h now group key).1 },
      (G.GetInfo h now group key).2)
  | none =>
    match is.Infos.lookup key with
    | some info =>
      if (h info).TTLStamp ≤ now then ({ is with Infos := is.Infos.erase key }, none)
      else (is, some info)
    | none => (is, none)

/-- The method `RegisterGroup`. -/
def RegisterGroup (is : InfoStore) (group : Group) : InfoStore × Option Error :=
  match is.Groups.lookup group.Prefix with
  | some _ => (is, some (Error.groupExists group.Prefix))
  | none => ({ is with Groups := is.Groups.insert group.Prefix group }, none)

/-- The method `AddInfo`: the heap and the store as the call leaves them, and
the boolean returned. -/
def AddInfo (G : GroupOps) (h : Heap) (is : InfoStore) (info : Ptr) :
    Heap × InfoStore × Bool :=
  match is.belongsToGroup (h info).Key with
  | some group =>
    if (G.AddInfo h group info).2 then
      (h, { is with
              Groups := is.Groups.insert (infoPrefix (h info).Key) (G.AddInfo h group info).1
              MaxSeq := if (h info).Seq > is.MaxSeq then (h info).Seq else is.MaxSeq }, true)
    else
      (h, { is with
              Groups := is.Groups.insert (infoPrefix (h info).Key) (G.AddInfo h group info).1 },
        false)
  | none =>
    match is.Infos.lookup (h info).Key with
    | some existingInfo =>
      if (h info).Timestamp ≤ (h existingInfo).Timestamp then (h, is, false)
      else
        let h1 := if (h existingInfo).Hops < (h info).Hops
          then setHops h info (h existingInfo).Hops else h
        (h1, { is with
                 Infos := is.Infos.insert (h1 info).Key info
                 MaxSeq := if (h1 info).Seq > is.MaxSeq then (h1 info).Seq else is.MaxSeq }, true)
    | none =>
      (h, { is with
              Infos := is.Infos.insert (h info).Key info
              MaxSeq := if (h info).Seq > is.MaxSeq then (h info).Seq else is.MaxSeq }, true)

end InfoStore

/-- A `range` loop whose body may return an error: the body runs on each
element in turn until one returns an error or the elements run out. -/
def visitEach {α σ : Type} (f : α → σ → σ × Option Error) : List α → σ → σ × Option Error
  | [], st => (st, none)
  | a :: rest, st =>
    match f a st with
    | (st1, some err) => (st1, some err)
    | (st1, none) => visitEach f rest st1

/-- The body of the loop over the groups in `visitInfos`: `visitGroup` on the
group, then `visitInfo` on each of its infos. A visitor that is `nil` is
`none`. -/
def visitGroupInfos {σ : Type} (visitGroup : Option (Group → σ → σ × Option Error))
    (visitInfo : Option (Ptr → σ → σ × Option Error)) (group : Group) (st : σ) :
    σ × Option Error :=
  match (match visitGroup with
         | some f => f group st
         | none => (st, none)) with
  | (st1, some err) => (st1, some err)
  | (st1, none) =>
    match visitInfo with
    | some f => visitEach f (mapValues group.Infos) st1
    | none => (st1, none)

namespace InfoStore

/-- The method `visitInfos`: all groups, after each group its infos, and
finally the non-group infos. The visitors are closures over the caller's
variables; `σ` is the state they read and write, returned as the visit left
it together with the first error. -/
def visitInfos {σ : Type} (is : InfoStore) (visitGroup : Option (Group → σ → σ × Option Error))
    (visitInfo : Option (Ptr → σ → σ × Option Error)) (st : σ) : σ × Option Error :=
  match visitEach (visitGroupInfos visitGroup visitInfo) (mapValues is.Groups) st with
  | (st1, some err) => (st1, some err)
  | (st1, none) =>
    match visitInfo with
    | some f => visitEach f (mapValues is.Infos) st1
    | none => (st1, none)

/-- The group visitor of `Combine`, on the receiver `is`. -/
def combineGroup (G : GroupOps) (group : Group) (st : Heap × InfoStore) :
    (Heap × InfoStore) × Option Error :=
  match st.2.Groups.lookup group.Prefix with
  | some _ => (st, none)
  | none =>
    match G.NewGroup group.Prefix group.Limit group.TypeOf with
    | Except.error err => (st, some err)
    | Except.ok groupCopy => ((st.1, (st.2.RegisterGroup groupCopy).1), none)

/-- The statements of the info visitor of `Combine` that precede its call of
`AddInfo`: `is.SeqGen++; info.Seq = is.SeqGen; info.Hops++`. -/
def combineStamp (info : Ptr) (st : Heap × InfoStore) : Heap × InfoStore :=
  let is1 : InfoStore := { st.2 with SeqGen := wrapInt64 (st.2.SeqGen + 1) }
  let h1 := setSeq st.1 info is1.SeqGen
  let h2 := setHops h1 info (wrapUint32 ((h1 info).Hops + 1))
  (h2, is1)

/-- The info visitor of `Combine`, on the receiver `is`. -/
def combineInfo (G : GroupOps) (info : Ptr) (st : Heap × InfoStore) :
    (Heap × InfoStore) × Option Error :=
  let st1 := combineStamp info st
  (((st1.2.AddInfo G st1.1 info).1, (st1.2.AddInfo G st1.1 info).2.1), none)

/-- The method `Combine`: the heap and the receiver as the call leaves them,
and the error returned. -/
def Combine (G : GroupOps) (h : Heap) (is delta : InfoStore) :
    (Heap × InfoStore) × Option Error :=
  delta.visitInfos (some (combineGroup G)) (some (combineInfo G)) (h, is)

/-- The group visitor of `Delta`, on the store `delta` under construction. -/
def deltaGroup (G : GroupOps) (group : Group) (st : Heap × InfoStore) :
    (Heap × InfoStore) × Option Error :=
  match G.NewGroup group.Prefix group.Limit group.TypeOf with
  | Except.error err => (st, some err)
  | Except.ok deltaGroup => ((st.1, (st.2.RegisterGroup deltaGroup).1), none)

/-- The info visitor of `Delta`, on the store `delta` under construction. -/
def deltaInfo (G : GroupOps) (seq : Int) (info : Ptr) (st : Heap × InfoStore) :
    (Heap × InfoStore) × Option Error :=
  if (st.1 info).Seq > seq then
    (((st.2.AddInfo G st.1 info).1, (st.2.AddInfo G st.1 info).2.1), none)
  else (st, none)

/-- The method `Delta`: the heap as the call leaves it, the store returned
(`none` for `nil`) and the error returned. -/
def Delta (G : GroupOps) (h : Heap) (is : InfoStore) (seq : Int) :
    Heap × Option InfoStore × Option Error :=
  if seq ≥ is.MaxSeq then (h, none, some (Error.noDeltas seq))
  else
    let delta : InfoStore := { NewInfoStore with SeqGen := is.SeqGen }
    let r := is.visitInfos (some (deltaGroup G)) (some (deltaInfo G seq)) (h, delta)
    (r.1.1, some r.1.2, r.2)

/-- The info visitor of `BuildFilter`, on the filter under construction. -/
def buildFilterInfo (h : Heap) (maxHops : Nat) (info : Ptr) (f : Filter) :
    Filter × Option Error :=
  (if (h info).Hops ≤ maxHops then f.AddKey (h info).Key else f, none)

/-- The method `BuildFilter`, with `NewFilter` the constructor of the Filter
collaborator: the filter returned (`none` for `nil`) and the error. -/
def BuildFilter (NewFilter : Nat → Nat → Except Error Filter) (h : Heap) (is : InfoStore)
    (maxHops : Nat) : Option Filter × Option Error :=
  match NewFilter is.InfoCount FilterBits with
  | Except.error err => (none, some err)
  | Except.ok f =>
    (some (is.visitInfos none (some (buildFilterInfo h maxHops)) f).1,
      (is.visitInfos none (some (buildFilterInfo h maxHops)) f).2)

/-- The info visitor of `DiffFilter`, on the caller's filter. -/
def diffFilterInfo (h : Heap) (maxHops : Nat) (info : Ptr) (f : Filter) :
    Filter × Option Error :=
  (if (h info).Hops ≤ maxHops then f.RemoveKey (h info).Key else f, none)

/-- The method `DiffFilter`: the caller's filter as the call leaves it, the
count returned and the error. -/
def DiffFilter (h : Heap) (is : InfoStore) (f : Filter) (maxHops : Nat) :
    Filter × Nat × Option Error :=
  ((is.visitInfos none (some (diffFilterInfo h maxHops)) f).1,
    (is.visitInfos none (some (diffFilterInfo h maxHops)) f).1.ApproximateInsertions,
    (is.visitInfos none (some (diffFilterInfo h maxHops)) f).2)

/-- A sequence of `AddInfo` calls on one store, one per pointer. -/
def addInfos (G : GroupOps) (h : Heap) (is : InfoStore) : List Ptr → Heap × InfoStore
  | [] => (h, is)
  | info :: rest => addInfos G (is.AddInfo G h info).1 (is.AddInfo G h info).2.1 rest

end InfoStore

/-! ## Notions the properties are stated with -/

/-- Two `Info` values agree on every field but `Hops`. -/
def sameButHops (a b : Info) : Prop :=
  a.Key = b.Key ∧ a.Val = b.Val ∧ a.Timestamp = b.Timestamp ∧ a.TTLStamp = b.TTLStamp ∧
    a.Seq = b.Seq ∧ a.Node = b.Node

/-- Two `Info` values agree on every field but `Seq` and `Hops`. -/
def sameButSeqHops (a b : Info) : Prop :=
  a.Key = b.Key ∧ a.Val = b.Val ∧ a.Timestamp = b.Timestamp ∧ a.TTLStamp = b.TTLStamp ∧
    a.Node = b.Node

/-- The `Hops` of the Info held under `key` in `Infos`, if there is one. -/
def storedHops (h : Heap) (is : InfoStore) (key : String) : Option Nat :=
  (is.Infos.lookup key).map (fun p => (h p).Hops)

/-- The pointers a store holds, in the order `visitInfos` visits them: the
infos of each group, then the non-group infos. -/
def heldPtrs (is : InfoStore) : List Ptr :=
  (mapValues is.Groups).flatMap (fun g => mapValues g.Infos) ++ mapValues is.Infos

/-- Every Info of the map is held under its own `Key`. -/
def WellKeyed (h : Heap) (m : InfoMap) : Prop :=
  ∀ k p, m.lookup k = some p → (h p).Key = k

/-- The pointers among `ps` whose Info has key `k`. -/
def offeredFor (h : Heap) (k : String) (ps : List Ptr) : List Ptr :=
  ps.filter (fun p => (h p).Key = k)

/-- The Infos that compete for key `k` when `ps` are offered to a store: the
incumbent, if there is one, then the offered Infos of that key in call
order. -/
def candidatesFor (h : Heap) (is : InfoStore) (k : String) (ps : List Ptr) : List Ptr :=
  (is.Infos.lookup k).toList ++ offeredFor h k ps

/-- The pointers among `ps` that `AddInfo` accepted (returned `true` for) when
`ps` were offered in turn. -/
def acceptedBy (G : GroupOps) (h : Heap) (is : InfoStore) : List Ptr → List Ptr
  | [] => []
  | info :: rest =>
    (if (is.AddInfo G h info).2.2 then [info] else []) ++
      acceptedBy G (is.AddInfo G h info).1 (is.AddInfo G h info).2.1 rest

/-- The pointer `p` is the first entry of `l` whose Info has the greatest
`Timestamp`: every entry before it is strictly older, none after it is
newer. -/
def IsFirstNewest (h : Heap) (l : List Ptr) (p : Ptr) : Prop :=
  ∃ before after, l = before ++ p :: after ∧
    (∀ q ∈ before, (h q).Timestamp < (h p).Timestamp) ∧
    (∀ q ∈ after, (h q).Timestamp ≤ (h p).Timestamp)

/-- The Infos that were stored under key `k` when `ps` are offered to a store:
the incumbent, if there is one, then the offered Infos of that key that
`AddInfo` accepted, in call order. -/
def storedFor (G : GroupOps) (h : Heap) (is : InfoStore) (k : String) (ps : List Ptr) :
    List Ptr :=
  (is.Infos.lookup k).toList ++ offeredFor h k (acceptedBy G h is ps)

/-- Invariant I3 of a store over a heap: `MaxSeq` is at least the Seq of every
Info the store holds, in `Infos` or inside a registered group. -/
def MaxSeqBounds (h : Heap) (is : InfoStore) : Prop :=
  ∀ p ∈ heldPtrs is, (h p).Seq ≤ is.MaxSeq

/-- What the store relies on from the Group collaborator: a new group holds
no Info; `AddInfo` brings no Info into the group but the one offered, and that
one only when it reports it admitted; `GetInfo` brings none in. -/
structure GroupOps.Admits (G : GroupOps) : Prop where
  newGroup : ∀ pre limit typeOf g, G.NewGroup pre limit typeOf = Except.ok g →
    mapValues g.Infos = []
  addInfo : ∀ h g info p, p ∈ mapValues (G.AddInfo h g info).1.Infos →
    p ∈ mapValues g.Infos ∨ (p = info ∧ (G.AddInfo h g info).2 = true)
  getInfo : ∀ h now g key p, p ∈ mapValues (G.GetInfo h now g key).1.Infos →
    p ∈ mapValues g.Infos

/-- The heap and store states reached from `NewInfoStore()` by `AddInfo`, by
`RegisterGroup` of a group that holds no Info, by `GetInfo`, and by `Combine`
(as receiver) of a delta that holds each of its Info objects once and none
that the receiver holds. -/
inductive Reachable (G : GroupOps) : Heap → InfoStore → Prop
  | newInfoStore (h : Heap) : Reachable G h NewInfoStore
  | addInfo {h : Heap} {is : InfoStore} (info : Ptr) :
      Reachable G h is → Reachable G (is.AddInfo G h info).1 (is.AddInfo G h info).2.1
  | registerGroup {h : Heap} {is : InfoStore} (group : Group) :
      mapValues group.Infos = [] → Reachable G h is → Reachable G h (is.RegisterGroup group).1
  | getInfo {h : Heap} {is : InfoStore} (now : Int) (key : String) :
      Reachable G h is → Reachable G h (is.GetInfo G h now key).1
  | combine {h : Heap} {is : InfoStore} (delta : InfoStore) :
      (heldPtrs delta).Nodup → (∀ p ∈ heldPtrs delta, p ∉ heldPtrs is) →
      Reachable G h is → Reachable G (is.Combine G h delta).1.1 (is.Combine G h delta).1.2

/-- The heap and store states reached from `NewInfoStore()` by the calls of
`Reachable` while the rest of the program runs: in between, anything else may
write the heap (`write`), except the Info objects the store holds. -/
inductive ReachableAmong (G : GroupOps) : Heap → InfoStore → Prop
  | newInfoStore (h : Heap) : ReachableAmong G h NewInfoStore
  | addInfo {h : Heap} {is : InfoStore} (info : Ptr) :
      ReachableAmong G h is → ReachableAmong G (is.AddInfo G h info).1 (is.AddInfo G h info).2.1
  | registerGroup {h : Heap} {is : InfoStore} (group : Group) :
      mapValues group.Infos = [] → ReachableAmong G h is →
      ReachableAmong G h (is.RegisterGroup group).1
  | getInfo {h : Heap} {is : InfoStore} (now : Int) (key : String) :
      ReachableAmong G h is → ReachableAmong G h (is.GetInfo G h now key).1
  | combine {h : Heap} {is : InfoStore} (delta : InfoStore) :
      (heldPtrs delta).Nodup → (∀ p ∈ heldPtrs delta, p ∉ heldPtrs is) →
      ReachableAmong G h is →
      ReachableAmong G (is.Combine G h delta).1.1 (is.Combine G h delta).1.2
  | write {h : Heap} {is : InfoStore} (h1 : Heap) :
      (∀ p ∈ heldPtrs is, h1 p = h p) → ReachableAmong G h is → ReachableAmong G h1 is

/-- The state of a visit that still has the Infos `l` to combine: I3 holds,
`l` names each Info object once, and the receiver holds none of them. -/
def Pending (l : List Ptr) (st : Heap × InfoStore) : Prop :=
  MaxSeqBounds st.1 st.2 ∧ l.Nodup ∧ ∀ p ∈ l, p ∉ heldPtrs st.2

/-! ## Concrete inputs -/

/-- A Group collaborator that admits nothing. -/
def noGroupOps : GroupOps :=
  ⟨fun p l t => Except.ok ⟨p, l, t, ∅⟩, fun _ g _ => (g, false), fun _ _ g _ => (g, none)⟩

/-- Three Infos of key `k`: (hops 3, ts 1), (hops 1, ts 2), (hops 5, ts 3). -/
def heapHops : Heap := fun p =>
  if p = 0 then ⟨"k", 0, 1, 100, 1, "localhost", 3⟩
  else if p = 1 then ⟨"k", 0, 2, 100, 2, "localhost", 1⟩
  else ⟨"k", 0, 3, 100, 3, "localhost", 5⟩

/-- Three Infos of key `k` with timestamps 5, 3 and 7. -/
def heapWriters : Heap := fun p =>
  if p = 0 then ⟨"k", 10, 5, 100, 1, "localhost", 0⟩
  else if p = 1 then ⟨"k", 11, 3, 100, 2, "localhost", 0⟩
  else ⟨"k", 12, 7, 100, 3, "localhost", 0⟩

/-- Two Infos of key `k`: (hops 1, ts 5) and (hops 0, ts 3). -/
def heapShortest : Heap := fun p =>
  if p = 0 then ⟨"k", 10, 5, 100, 1, "localhost", 1⟩
  else ⟨"k", 11, 3, 100, 2, "localhost", 0⟩

/-- Two Infos of key `k`: (ts 1, seq 10) and (ts 2, seq 3). -/
def heapSeqs : Heap := fun p =>
  if p = 0 then ⟨"k", 10, 1, 100, 10, "localhost", 0⟩
  else ⟨"k", 11, 2, 100, 3, "localhost", 0⟩

/-- Three Infos of distinct keys with Seq 1, 2 and 3. -/
def heapThree : Heap := fun p =>
  if p = 0 then ⟨"a", 10, 1, 100, 1, "localhost", 0⟩
  else if p = 1 then ⟨"b", 11, 2, 100, 2, "localhost", 4⟩
  else ⟨"c", 12, 3, 100, 3, "localhost", 7⟩

/-- The store that holds the three Infos of `heapThree`. -/
def storeThree : InfoStore :=
  (InfoStore.addInfos noGroupOps heapThree NewInfoStore [0, 1, 2]).2

/-- One Info whose hop counter is at the largest `uint32`. -/
def heapFar : Heap := fun _ => ⟨"k", 10, 1, 100, 1, "localhost", 4294967295⟩

/-- The store that holds the Info of `heapFar`. -/
def storeFar : InfoStore := (NewInfoStore.AddInfo noGroupOps heapFar 0).2.1

/-- An empty store whose sequence generator is at the largest `int64`. -/
def storeLast : InfoStore := { NewInfoStore with SeqGen := 9223372036854775807 }

/-- A Group collaborator that admits an Info while the group is below its
limit, under the Info's key. -/
def capGroupOps : GroupOps where
  NewGroup pre limit typeOf :=
    if limit ≤ 0 then Except.error (Error.group 0) else Except.ok ⟨pre, limit, typeOf, ∅⟩
  AddInfo h g info :=
    if (g.Infos.entries.length : Int) < g.Limit then
      ({ g with Infos := g.Infos.insert (h info).Key info }, true)
    else (g, false)
  GetInfo _ _ g key := (g, g.Infos.lookup key)

/-- One Info of key `a` with Seq 0, and Infos of key `node.status` with
Seq 5. -/
def heapAlias : Heap := fun p =>
  if p = 0 then ⟨"a", 10, 1, 100, 0, "localhost", 0⟩
  else ⟨"node.status", 11, 2, 100, 5, "localhost", 0⟩

/-- The store that holds the Info of key `a` of `heapAlias`. -/
def storeAlias : InfoStore := (NewInfoStore.AddInfo noGroupOps heapAlias 0).2.1

/-- The store `storeAlias.Delta(-1)` returns. -/
def deltaAlias : InfoStore :=
  ((storeAlias.Delta noGroupOps heapAlias (-1)).2.1).getD NewInfoStore

/-- A group of prefix `node` that already holds the Info of key
`node.status`. -/
def groupSeeded : Group := ⟨"node", 10, 0, AList.singleton "node.status" 1⟩

/-- An empty group of prefix `node`. -/
def groupNode : Group := ⟨"node", 2, 0, ∅⟩

/-- Two Infos of key `k`: (hops 5, ts 9) and (hops 0, ts 1). -/
def heapCross : Heap := fun p =>
  if p = 0 then ⟨"k", 10, 9, 100, 1, "localhost", 5⟩
  else ⟨"k", 11, 1, 100, 2, "localhost", 0⟩

/-- A store that holds the first Info of `heapCross` under the map key `x` and
the second under its own key `k`. -/
def storeCross : InfoStore := ⟨(AList.singleton "k" 1).insert "x" 0, ∅, 2, 2⟩

/-- A store with the empty group `node` registered. -/
def storeNode : InfoStore := (NewInfoStore.RegisterGroup groupNode).1

/-- The store `storeThree.Delta(0)` returns. -/
def deltaThree : InfoStore :=
  ((storeThree.Delta noGroupOps heapThree 0).2.1).getD NewInfoStore

/-- An empty store whose sequence generator stands at 40. -/
def storeForty : InfoStore := { NewInfoStore with SeqGen := 40 }

/-- The store that holds the Info of key `k` and timestamp 7 of
`heapWriters`. -/
def storeNewer : InfoStore := (NewInfoStore.AddInfo noGroupOps heapWriters 2).2.1

/-- The calls `info := is.NewInfo(key, val, ttl)`, `is.AddInfo(info)` and
`is.GetInfo(key)` in a row, with clock reading `c1` in `NewInfo` and `c2` in
`GetInfo`: what `AddInfo` returned, the store at the end, and what `GetInfo`
returned. -/
def addNewThenGet (G : GroupOps) (lastTime c1 c2 : Int) (h : Heap) (is : InfoStore)
    (key : String) (val ttl : Int) (info : Ptr) : Bool × InfoStore × Option Ptr :=
  (((is.NewInfo lastTime c1 h key val ttl info).2.2.AddInfo G
      (is.NewInfo lastTime c1 h key val ttl info).2.1 info).2.2,
    (((is.NewInfo lastTime c1 h key val ttl info).2.2.AddInfo G
        (is.NewInfo lastTime c1 h key val ttl info).2.1 info).2.1.GetInfo G
      ((is.NewInfo lastTime c1 h key val ttl info).2.2.AddInfo G
        (is.NewInfo lastTime c1 h key val ttl info).2.1 info).1 c2 key))

/-- The keys of the Infos a store holds whose `Hops` is at most `maxHops`, in
visiting order. -/
def keysWithin (h : Heap) (is : InfoStore) (maxHops : Nat) : List String :=
  ((heldPtrs is).filter (fun p => (h p).Hops ≤ maxHops)).map (fun p => (h p).Key)

/-- A Filter constructor that accepts every size. -/
def newFilterAny : Nat → Nat → Except Error Filter := fun _ _ => Except.ok ⟨[]⟩

/-- The filter `storeThree.BuildFilter(3)` returns. -/
def filterThree : Filter :=
  ((storeThree.BuildFilter newFilterAny heapThree 3).1).getD ⟨[]⟩

/-- Invariant I2 of a store: no key of the ungrouped map has a registered
prefix, and every key inside a registered group has the prefix the group is
registered under. -/
def Exclusive (is : InfoStore) : Prop :=
  (∀ k, k ∈ is.Infos → infoPrefix k ∉ is.Groups) ∧
  (∀ pre g, is.Groups.lookup pre = some g → ∀ k, k ∈ g.Infos → infoPrefix k = pre)

/-- What I2 relies on from the Group collaborator: a new group carries the
prefix it was built with and no key; `AddInfo` files no key into the group
but the key of the Info offered; `GetInfo` files none. -/
structure GroupOps.Files (G : GroupOps) : Prop where
  newGroup : ∀ pre limit typeOf g, G.NewGroup pre limit typeOf = Except.ok g →
    g.Prefix = pre ∧ ∀ k, k ∉ g.Infos
  addInfo : ∀ h g info k, k ∈ (G.AddInfo h g info).1.Infos → k ∈ g.Infos ∨ k = (h info).Key
  getInfo : ∀ h now g key k, k ∈ (G.GetInfo h now g key).1.Infos → k ∈ g.Infos

/-- The stores reached from `NewInfoStore()` by `AddInfo`, by `GetInfo`, by
`RegisterGroup` of a group whose own keys have its prefix while no key of the
ungrouped map has it, and by `Combine` (as receiver) of a delta whose grouped
Infos have their group's prefix and whose groups, where new to the receiver,
have a prefix that no key of the receiver's ungrouped map has. -/
inductive ReachableInOrder (G : GroupOps) : InfoStore → Prop
  | newInfoStore : ReachableInOrder G NewInfoStore
  | addInfo {is : InfoStore} (h : Heap) (info : Ptr) :
      ReachableInOrder G is → ReachableInOrder G (is.AddInfo G h info).2.1
  | getInfo {is : InfoStore} (h : Heap) (now : Int) (key : String) :
      ReachableInOrder G is → ReachableInOrder G (is.GetInfo G h now key).1
  | registerGroup {is : InfoStore} (group : Group) :
      (∀ k, k ∈ group.Infos → infoPrefix k = group.Prefix) →
      (∀ k, k ∈ is.Infos → infoPrefix k ≠ group.Prefix) →
      ReachableInOrder G is → ReachableInOrder G (is.RegisterGroup group).1
  | combine {is : InfoStore} (h : Heap) (delta : InfoStore) :
      (∀ g ∈ mapValues delta.Groups, ∀ p ∈ mapValues g.Infos,
        infoPrefix (h p).Key = g.Prefix) →
      (∀ g ∈ mapValues delta.Groups, g.Prefix ∉ is.Groups →
        ∀ k, k ∈ is.Infos → infoPrefix k ≠ g.Prefix) →
      ReachableInOrder G is → ReachableInOrder G (is.Combine G h delta).1.2

/-- The store after the Info of key `node.status` was added, the group `node`
registered, and the Info added again. -/
def storeLate : InfoStore :=
  (((NewInfoStore.AddInfo capGroupOps heapAlias 1).2.1.RegisterGroup groupNode).1.AddInfo
    capGroupOps heapAlias 1).2.1

/-- The statement kept through the loop of `Combine` over the groups of the
delta: I2 holds, the ungrouped map is the one the call started with, the
prefixes registered at the start still are, and no Info changed its key. -/
def GroupPhase (h : Heap) (is : InfoStore) (st : Heap × InfoStore) : Prop :=
  Exclusive st.2 ∧ st.2.Infos = is.Infos ∧ (∀ pre, pre ∈ is.Groups → pre ∈ st.2.Groups) ∧
    ∀ p, (st.1 p).Key = (h p).Key


/-- The store after the Info of key `node.status` was added and the group
`node` registered. -/
def storeEarly : InfoStore :=
  ((NewInfoStore.AddInfo noGroupOps heapAlias 1).2.1.RegisterGroup groupNode).1

/-- The store after the group `node` was registered, the Info of key
`node.status` added, and the Info of key `a` added. -/
def storeOrdered : InfoStore :=
  (((NewInfoStore.RegisterGroup groupNode).1.AddInfo capGroupOps heapAlias 1).2.1.AddInfo
    capGroupOps heapAlias 0).2.1

/-- The bound of a store's sequence numbers by its generator: `SeqGen` is not
negative, `MaxSeq` is at most `SeqGen`, and so is the Seq of every Info the
store created (`c`) or holds. -/
def Issued (h : Heap) (is : InfoStore) (c : List Ptr) : Prop :=
  0 ≤ is.SeqGen ∧ is.MaxSeq ≤ is.SeqGen ∧ (∀ p ∈ c, (h p).Seq ≤ is.SeqGen) ∧
    ∀ p ∈ heldPtrs is, (h p).Seq ≤ is.SeqGen

/-- The state of a `Combine` that still has the Infos `l` to stamp: the bound
holds and the generator has room for them below `b`, an `int64`. -/
def Budget (b : Int) (c l : List Ptr) (st : Heap × InfoStore) : Prop :=
  Issued st.1 st.2 c ∧ st.2.SeqGen + l.length ≤ b ∧ b ≤ maxInt64

/-- The runs of one store from `NewInfoStore()`: `NewInfo` (which allocates an
Info object the store neither created nor holds), `AddInfo` of an Info the
store created, `RegisterGroup` of a group that holds no Info, `GetInfo`, and
`Combine` of any delta; in between, anything else in the program may write the
heap (`write`), except the Info objects this store created or holds. With the
state go the Infos the store created and the number of sequence numbers asked
of the generator: one per `NewInfo`, one per Info of a combined delta. -/
inductive ReachableOwn (G : GroupOps) : Heap → InfoStore → List Ptr → Nat → Prop
  | newInfoStore (h : Heap) : ReachableOwn G h NewInfoStore [] 0
  | newInfo {h : Heap} {is : InfoStore} {c : List Ptr} {n : Nat} (lastTime clock : Int)
      (key : String) (val ttl : Int) (info : Ptr) :
      info ∉ c → info ∉ heldPtrs is → ReachableOwn G h is c n →
      ReachableOwn G (is.NewInfo lastTime clock h key val ttl info).2.1
        (is.NewInfo lastTime clock h key val ttl info).2.2 (info :: c) (n + 1)
  | addInfo {h : Heap} {is : InfoStore} {c : List Ptr} {n : Nat} (info : Ptr) :
      info ∈ c → ReachableOwn G h is c n →
      ReachableOwn G (is.AddInfo G h info).1 (is.AddInfo G h info).2.1 c n
  | registerGroup {h : Heap} {is : InfoStore} {c : List Ptr} {n : Nat} (group : Group) :
      mapValues group.Infos = [] → ReachableOwn G h is c n →
      ReachableOwn G h (is.RegisterGroup group).1 c n
  | getInfo {h : Heap} {is : InfoStore} {c : List Ptr} {n : Nat} (now : Int) (key : String) :
      ReachableOwn G h is c n → ReachableOwn G h (is.GetInfo G h now key).1 c n
  | combine {h : Heap} {is : InfoStore} {c : List Ptr} {n : Nat} (delta : InfoStore) :
      ReachableOwn G h is c n →
      ReachableOwn G (is.Combine G h delta).1.1 (is.Combine G h delta).1.2 c
        (n + (heldPtrs delta).length)
  | write {h : Heap} {is : InfoStore} {c : List Ptr} {n : Nat} (h1 : Heap) :
      (∀ p ∈ c, h1 p = h p) → (∀ p ∈ heldPtrs is, h1 p = h p) →
      ReachableOwn G h is c n → ReachableOwn G h1 is c n

/-- The statement kept through the visit of `Delta` on the store `is` over
the heap `h`: the delta has the source's `SeqGen`, the bound holds for it, and
no Info changed its Seq. -/
def DeltaIssued (h : Heap) (is : InfoStore) (st : Heap × InfoStore) : Prop :=
  st.2.SeqGen = is.SeqGen ∧ Issued st.1 st.2 [] ∧ ∀ q, (st.1 q).Seq = (h q).Seq


/-- The state after `n` calls of `NewInfo` on a new store, with key `k`, value
0 and ttl 0: the call number `i + 1` reads the clock at `i + 1` and allocates the
Info object `i`. -/
def createRun : Nat → Int × Heap × InfoStore
  | 0 => (0, fun _ => ⟨"", 0, 0, 0, 0, "", 0⟩, NewInfoStore)
  | n + 1 =>
    (createRun n).2.2.NewInfo (createRun n).1 (n + 1) (createRun n).2.1 "k" 0 0 n

/-- The Info objects that `createRun n` allocated, the latest first. -/
def createdBy : Nat → List Ptr
  | 0 => []
  | n + 1 => n :: createdBy n

/-- The state after `n + 1` calls of `NewInfo`, `AddInfo` of the Info created
last, and one more call of `NewInfo`. -/
def wrapRun (n : Nat) : Int × Heap × InfoStore :=
  ((createRun (n + 1)).2.2.AddInfo noGroupOps (createRun (n + 1)).2.1 n).2.1.NewInfo
    (createRun (n + 1)).1 0
    ((createRun (n + 1)).2.2.AddInfo noGroupOps (createRun (n + 1)).2.1 n).1 "k" 0 0 (n + 1)

/-- The state after a new store created an Info of key `a` (clock 5, ttl
100), added it, created an Info of key `b` (clock 6, ttl 100) and added it; the
Info objects are 0 and 1. -/
def ownTwo : Int × Heap × InfoStore :=
  let s1 := NewInfoStore.NewInfo 0 5 (fun _ => ⟨"", 0, 0, 0, 0, "", 0⟩) "a" 10 100 0
  let s2 := s1.2.2.AddInfo capGroupOps s1.2.1 0
  let s3 := s2.2.1.NewInfo s1.1 6 s2.1 "b" 11 100 1
  let s4 := s3.2.2.AddInfo capGroupOps s3.2.1 1
  (s3.1, s4.1, s4.2.1)

/-- The statement kept while `Combine` visits Infos of other keys than `k`:
the ungrouped map holds `v` under `k`, the prefix of `k` is not registered, the
Info objects `ps` are as in the heap `h0`, and no Info changed its key. -/
def Kept (k : String) (v : Option Ptr) (ps : List Ptr) (h0 : Heap) (st : Heap × InfoStore) :
    Prop :=
  st.2.Infos.lookup k = v ∧ infoPrefix k ∉ st.2.Groups ∧ (∀ q ∈ ps, st.1 q = h0 q) ∧
    ∀ q, (st.1 q).Key = (h0 q).Key

/-- A new store that creates an Info with `NewInfo` (clock reading `clock`,
ttl 100, Info object `info`) and adds it with `AddInfo`: the new `lastTime`,
the heap and the store. -/
def createAndAdd (lastTime clock : Int) (h : Heap) (key : String) (val : Int) (info : Ptr) :
    Int × Heap × InfoStore :=
  let s := NewInfoStore.NewInfo lastTime clock h key val 100 info
  (s.1, (s.2.2.AddInfo noGroupOps s.2.1 info).1, (s.2.2.AddInfo noGroupOps s.2.1 info).2.1)

/-- The calls `d, _ := b.Delta(0); a.Combine(d); a.GetInfo(key)` in a row,
with clock reading `now` in `GetInfo`: the heap at the end and the pointer
`GetInfo` returned. -/
def roundTrip (G : GroupOps) (h : Heap) (a b : InfoStore) (now : Int) (key : String) :
    Heap × Option Ptr :=
  let d := ((b.Delta G h 0).2.1).getD NewInfoStore
  let r := a.Combine G (b.Delta G h 0).1 d
  (r.1.1, (r.1.2.GetInfo G r.1.1 now key).2)

/-- Store B creates and adds key `a` (value 10) at clock 5; then store A
creates and adds key `a` (value 99) at clock 9. -/
def tripNewer : (Int × Heap × InfoStore) × (Int × Heap × InfoStore) :=
  let b := createAndAdd 0 5 (fun _ => ⟨"", 0, 0, 0, 0, "", 0⟩) "a" 10 0
  (createAndAdd b.1 9 b.2.1 "a" 99 1, b)

/-- Store A creates and adds key `a` (value 99) at clock 1; then store B
creates and adds key `a` (value 10) at clock 5. -/
def tripOlder : (Int × Heap × InfoStore) × (Int × Heap × InfoStore) :=
  let a := createAndAdd 0 1 (fun _ => ⟨"", 0, 0, 0, 0, "", 0⟩) "a" 99 1
  (a, createAndAdd a.1 5 a.2.1 "a" 10 0)

/-- The heap and store states reached from `NewInfoStore()` without a group:
by `AddInfo`, by `GetInfo`, and by `Combine` (as receiver) of a delta that has
no groups, while the rest of the program runs: in between, anything else may
write the heap (`write`), except the `Key` of an Info object the store holds
(no statement of the package writes the `Key` of an Info). -/
inductive ReachableUngrouped (G : GroupOps) : Heap → InfoStore → Prop
  | newInfoStore (h : Heap) : ReachableUngrouped G h NewInfoStore
  | addInfo {h : Heap} {is : InfoStore} (info : Ptr) :
      ReachableUngrouped G h is →
      ReachableUngrouped G (is.AddInfo G h info).1 (is.AddInfo G h info).2.1
  | getInfo {h : Heap} {is : InfoStore} (now : Int) (key : String) :
      ReachableUngrouped G h is → ReachableUngrouped G h (is.GetInfo G h now key).1
  | combine {h : Heap} {is : InfoStore} (delta : InfoStore) :
      delta.Groups = ∅ → ReachableUngrouped G h is →
      ReachableUngrouped G (is.Combine G h delta).1.1 (is.Combine G h delta).1.2
  | write {h : Heap} {is : InfoStore} (h1 : Heap) :
      (∀ p ∈ heldPtrs is, (h1 p).Key = (h p).Key) → ReachableUngrouped G h is →
      ReachableUngrouped G h1 is

/-! ## Theorems -/

/-- C1 fails on the code: with the clock standing at 5 for three calls in a
row (a non-decreasing sequence of readings), `MonotonicUnixNano` returns 5,
then 6, then 5 again, so the returned values are not strictly increasing. -/
theorem MonotonicUnixNano_not_increasing :
    List.Pairwise (fun a b : Int => a ≤ b) [5, 5, 5] ∧
    monotonicCalls 0 [5, 5, 5] = [5, 6, 5] ∧
    ¬ List.Pairwise (fun a b : Int => a < b) (monotonicCalls 0 [5, 5, 5]) := by
  decide

/-! ### One call of `AddInfo` on a key without a group -/

theorem lookup_groups_none {is : InfoStore} {key : String} (hg : infoPrefix key ∉ is.Groups) :
    is.belongsToGroup key = none := by
  unfold InfoStore.belongsToGroup
  exact AList.lookup_eq_none.mpr hg

theorem setHops_self (h : Heap) (p : Ptr) (v : Nat) :
    setHops h p v p = { h p with Hops := v } := by
  simp [setHops]

theorem setHops_other (h : Heap) (p q : Ptr) (v : Nat) (hq : q ≠ p) :
    setHops h p v q = h q := by
  simp [setHops, Function.update_noteq hq]

theorem AddInfo_absent (G : GroupOps) (h : Heap) (is : InfoStore) (info : Ptr)
    (hg : is.belongsToGroup (h info).Key = none)
    (hn : is.Infos.lookup (h info).Key = none) :
    is.AddInfo G h info =
      (h, { is with
              Infos := is.Infos.insert (h info).Key info
              MaxSeq := if (h info).Seq > is.MaxSeq then (h info).Seq else is.MaxSeq }, true) := by
  simp [InfoStore.AddInfo, hg, hn]

theorem AddInfo_older (G : GroupOps) (h : Heap) (is : InfoStore) (info e : Ptr)
    (hg : is.belongsToGroup (h info).Key = none)
    (he : is.Infos.lookup (h info).Key = some e)
    (ht : (h info).Timestamp ≤ (h e).Timestamp) :
    is.AddInfo G h info = (h, is, false) := by
  simp [InfoStore.AddInfo, hg, he, ht]

theorem AddInfo_newer (G : GroupOps) (h : Heap) (is : InfoStore) (info e : Ptr)
    (hg : is.belongsToGroup (h info).Key = none)
    (he : is.Infos.lookup (h info).Key = some e)
    (ht : (h e).Timestamp < (h info).Timestamp) :
    is.AddInfo G h info =
      (setHops h info (min (h e).Hops (h info).Hops),
        { is with
            Infos := is.Infos.insert (h info).Key info
            MaxSeq := if (h info).Seq > is.MaxSeq then (h info).Seq else is.MaxSeq }, true) := by
  have ht' : ¬ (h info).Timestamp ≤ (h e).Timestamp := not_le.mpr ht
  simp only [InfoStore.AddInfo, hg, he, ht', if_false]
  by_cases hh : (h e).Hops < (h info).Hops
  · simp [hh, setHops, min_eq_left (le_of_lt hh)]
  · have hm : min (h e).Hops (h info).Hops = (h info).Hops := min_eq_right (not_lt.mp hh)
    have hs : setHops h info (h info).Hops = h := by
      funext q
      by_cases hq : q = info
      · subst hq; simp [setHops]
      · simp [setHops, Function.update_noteq hq]
    simp [hh, hm, hs]

/-- The effect of one `AddInfo` call on a key without a group. -/
theorem AddInfo_ungrouped (G : GroupOps) (h : Heap) (is : InfoStore) (info : Ptr)
    (hg : infoPrefix (h info).Key ∉ is.Groups) :
    ((is.AddInfo G h info).2.2 = true ↔
        ((h info).Key ∉ is.Infos ∨
          ∃ e, is.Infos.lookup (h info).Key = some e ∧ (h e).Timestamp < (h info).Timestamp)) ∧
    ((is.AddInfo G h info).2.2 = true →
        (is.AddInfo G h info).2.1.Infos.lookup (h info).Key = some info ∧
        (∀ k, k ≠ (h info).Key →
          (is.AddInfo G h info).2.1.Infos.lookup k = is.Infos.lookup k) ∧
        sameButHops ((is.AddInfo G h info).1 info) (h info)) ∧
    ((is.AddInfo G h info).2.2 = false →
        (is.AddInfo G h info).2.1 = is ∧ (is.AddInfo G h info).1 = h) := by
  have hg' := lookup_groups_none hg
  cases hl : is.Infos.lookup (h info).Key with
  | none =>
    have hne : (h info).Key ∉ is.Infos := AList.lookup_eq_none.mp hl
    rw [AddInfo_absent G h is info hg' hl]
    refine ⟨by simp [hne], fun _ => ⟨AList.lookup_insert _, fun k hk => ?_, ?_⟩, by simp⟩
    · exact AList.lookup_insert_ne hk
    · simp [sameButHops]
  | some e =>
    have hmem : (h info).Key ∈ is.Infos := by
      rw [← AList.lookup_isSome, hl]; rfl
    by_cases ht : (h info).Timestamp ≤ (h e).Timestamp
    · rw [AddInfo_older G h is info e hg' hl ht]
      refine ⟨?_, by simp, by simp⟩
      simp only [Bool.false_eq_true, false_iff, not_or, not_not]
      exact ⟨hmem, fun ⟨e', he', hlt⟩ => by
        cases Option.some.inj he'
        exact absurd hlt (not_lt.mpr ht)⟩
    · have hlt : (h e).Timestamp < (h info).Timestamp := not_le.mp ht
      rw [AddInfo_newer G h is info e hg' hl hlt]
      refine ⟨?_, fun _ => ⟨AList.lookup_insert _, fun k hk => ?_, ?_⟩, by simp⟩
      · simp only [true_iff]
        exact Or.inr ⟨e, rfl, hlt⟩
      · exact AList.lookup_insert_ne hk
      · simp [setHops_self, sameButHops]

/-- C3: for an Info whose key prefix is not a registered group, `AddInfo`
returns true exactly when the key is absent from `Infos` or the Info's
`Timestamp` is strictly greater than the incumbent's; then `Infos[key]` is the
pointer offered (the object unchanged but for `Hops`) and every other key is
unchanged; when it returns false the store and the heap are unchanged. -/
theorem AddInfo_true_iff_stored (G : GroupOps) (h : Heap) (is : InfoStore) (info : Ptr)
    (hg : infoPrefix (h info).Key ∉ is.Groups) :
    ((is.AddInfo G h info).2.2 = true ↔
        ((h info).Key ∉ is.Infos ∨
          ∃ e, is.Infos.lookup (h info).Key = some e ∧ (h e).Timestamp < (h info).Timestamp)) ∧
    ((is.AddInfo G h info).2.2 = true →
        (is.AddInfo G h info).2.1.Infos.lookup (h info).Key = some info ∧
        (∀ k, k ≠ (h info).Key →
          (is.AddInfo G h info).2.1.Infos.lookup k = is.Infos.lookup k) ∧
        sameButHops ((is.AddInfo G h info).1 info) (h info)) ∧
    ((is.AddInfo G h info).2.2 = false →
        (is.AddInfo G h info).2.1 = is ∧ (is.AddInfo G h info).1 = h) :=
  AddInfo_ungrouped G h is info hg

/-- The second of two Infos of one key, the newer one, replaces the first. -/
theorem AddInfo_true_iff_stored_witness :
    infoPrefix (heapHops 1).Key ∉ (NewInfoStore.AddInfo noGroupOps heapHops 0).2.1.Groups ∧
    ((NewInfoStore.AddInfo noGroupOps heapHops 0).2.1.AddInfo noGroupOps heapHops 1).2.2 = true ∧
    ((NewInfoStore.AddInfo noGroupOps heapHops 0).2.1.AddInfo noGroupOps heapHops 1).2.1.Infos.lookup
      (heapHops 1).Key = some 1 :=
  ⟨by decide, by decide,
    ((AddInfo_true_iff_stored noGroupOps heapHops
      (NewInfoStore.AddInfo noGroupOps heapHops 0).2.1 1 (by decide)).2.1 (by decide)).1⟩

theorem sameButHops_refl (a : Info) : sameButHops a a := by
  simp [sameButHops]

theorem sameButHops_trans {a b c : Info} (hab : sameButHops a b) (hbc : sameButHops b c) :
    sameButHops a c := by
  unfold sameButHops at *
  obtain ⟨h1, h2, h3, h4, h5, h6⟩ := hab
  obtain ⟨g1, g2, g3, g4, g5, g6⟩ := hbc
  exact ⟨h1.trans g1, h2.trans g2, h3.trans g3, h4.trans g4, h5.trans g5, h6.trans g6⟩

/-- `AddInfo` writes one field of one object: the `Hops` of the Info offered,
which it can only lower. -/
theorem AddInfo_heap (G : GroupOps) (h : Heap) (is : InfoStore) (info q : Ptr) :
    sameButHops ((is.AddInfo G h info).1 q) (h q) ∧
    ((is.AddInfo G h info).1 q).Hops ≤ (h q).Hops ∧
    (q ≠ info → (is.AddInfo G h info).1 q = h q) := by
  unfold InfoStore.AddInfo
  cases is.belongsToGroup (h info).Key with
  | some group =>
    by_cases hb : (G.AddInfo h group info).2 = true
    · simp [hb, sameButHops_refl]
    · simp [hb, sameButHops_refl]
  | none =>
    cases is.Infos.lookup (h info).Key with
    | none => simp [sameButHops_refl]
    | some e =>
      by_cases ht : (h info).Timestamp ≤ (h e).Timestamp
      · simp [ht, sameButHops_refl]
      · by_cases hh : (h e).Hops < (h info).Hops
        · simp only [ht, hh, if_true, if_false]
          by_cases hq : q = info
          · subst hq
            simp [setHops_self, sameButHops, le_of_lt hh]
          · simp [setHops_other _ _ _ _ hq, sameButHops_refl, hq]
        · simp [ht, hh, sameButHops_refl]

theorem AddInfo_groups_empty (G : GroupOps) (h : Heap) (is : InfoStore) (info : Ptr)
    (hg : is.Groups = ∅) : (is.AddInfo G h info).2.1.Groups = ∅ := by
  have hb : is.belongsToGroup (h info).Key = none := by
    simp [InfoStore.belongsToGroup, hg]
  unfold InfoStore.AddInfo
  rw [hb]
  cases is.Infos.lookup (h info).Key with
  | none => simpa using hg
  | some e =>
    by_cases ht : (h info).Timestamp ≤ (h e).Timestamp
    · simpa [ht] using hg
    · simpa [ht] using hg

theorem AddInfo_groups_empty_indep (G G' : GroupOps) (h : Heap) (is : InfoStore) (info : Ptr)
    (hg : is.Groups = ∅) : is.AddInfo G h info = is.AddInfo G' h info := by
  have hb : is.belongsToGroup (h info).Key = none := by
    simp [InfoStore.belongsToGroup, hg]
  unfold InfoStore.AddInfo
  rw [hb]

theorem addInfos_groups_empty_indep (G G' : GroupOps) (ps : List Ptr) :
    ∀ (h : Heap) (is : InfoStore), is.Groups = ∅ →
      InfoStore.addInfos G h is ps = InfoStore.addInfos G' h is ps := by
  induction ps with
  | nil => intro h is _; rfl
  | cons a rest ih =>
    intro h is hg
    simp only [InfoStore.addInfos]
    rw [AddInfo_groups_empty_indep G G' h is a hg]
    exact ih _ _ (AddInfo_groups_empty G' h is a hg)

theorem not_mem_groups_of_empty {is : InfoStore} (hg : is.Groups = ∅) (key : String) :
    infoPrefix key ∉ is.Groups := by
  rw [hg]; exact AList.not_mem_empty _

/-- C4: for an Info whose key prefix is not a registered group, when `AddInfo`
replaces an incumbent with a newer Info the `Hops` stored under the key
afterwards is the minimum of the incumbent's and the new Info's; when the key
was absent it is the new Info's. For (hops 3, ts 1), (hops 1, ts 2),
(hops 5, ts 3) the stored `Hops` is 1 after the second and after the third
insertion. -/
theorem AddInfo_hops_minimum (G : GroupOps) (h : Heap) (is : InfoStore) (info : Ptr)
    (hg : infoPrefix (h info).Key ∉ is.Groups) :
    (∀ e, is.Infos.lookup (h info).Key = some e → (h e).Timestamp < (h info).Timestamp →
      storedHops (is.AddInfo G h info).1 (is.AddInfo G h info).2.1 (h info).Key =
        some (min (h e).Hops (h info).Hops)) ∧
    ((h info).Key ∉ is.Infos →
      storedHops (is.AddInfo G h info).1 (is.AddInfo G h info).2.1 (h info).Key =
        some (h info).Hops) ∧
    storedHops (InfoStore.addInfos G heapHops NewInfoStore [0, 1]).1
      (InfoStore.addInfos G heapHops NewInfoStore [0, 1]).2 "k" = some 1 ∧
    storedHops (InfoStore.addInfos G heapHops NewInfoStore [0, 1, 2]).1
      (InfoStore.addInfos G heapHops NewInfoStore [0, 1, 2]).2 "k" = some 1 := by
  have hg' := lookup_groups_none hg
  refine ⟨fun e he ht => ?_, fun hn => ?_, ?_, ?_⟩
  · rw [AddInfo_newer G h is info e hg' he ht]
    simp [storedHops, setHops_self]
  · rw [AddInfo_absent G h is info hg' (AList.lookup_eq_none.mpr hn)]
    simp [storedHops]
  · rw [addInfos_groups_empty_indep G noGroupOps _ _ _ rfl]
    decide
  · rw [addInfos_groups_empty_indep G noGroupOps _ _ _ rfl]
    decide

/-- The second of the three Infos replaces the first: stored hops min 3 1. -/
theorem AddInfo_hops_minimum_witness :
    infoPrefix (heapHops 1).Key ∉ (NewInfoStore.AddInfo noGroupOps heapHops 0).2.1.Groups ∧
    storedHops ((NewInfoStore.AddInfo noGroupOps heapHops 0).2.1.AddInfo noGroupOps heapHops 1).1
      ((NewInfoStore.AddInfo noGroupOps heapHops 0).2.1.AddInfo noGroupOps heapHops 1).2.1
      (heapHops 1).Key = some (min (heapHops 0).Hops (heapHops 1).Hops) :=
  ⟨by decide,
    (AddInfo_hops_minimum noGroupOps heapHops (NewInfoStore.AddInfo noGroupOps heapHops 0).2.1 1
      (by decide)).1 0 (by decide) (by decide)⟩

/-! ### Sequences of `AddInfo` calls on a store without groups -/

theorem offeredFor_congr (h h1 : Heap) (k : String) (ps : List Ptr)
    (hk : ∀ q, (h1 q).Key = (h q).Key) : offeredFor h1 k ps = offeredFor h k ps := by
  unfold offeredFor
  congr 1
  funext p
  rw [hk p]

theorem isFirstNewest_congr {h h1 : Heap} {l : List Ptr} {p : Ptr}
    (ht : ∀ q, (h1 q).Timestamp = (h q).Timestamp) (hp : IsFirstNewest h1 l p) :
    IsFirstNewest h l p := by
  obtain ⟨b, a, hl, hb, ha⟩ := hp
  refine ⟨b, a, hl, fun q hq => ?_, fun q hq => ?_⟩
  · rw [← ht q, ← ht p]; exact hb q hq
  · rw [← ht q, ← ht p]; exact ha q hq

theorem isFirstNewest_skip_older {h : Heap} {e a p : Ptr} {r : List Ptr}
    (hle : (h a).Timestamp ≤ (h e).Timestamp) (hp : IsFirstNewest h (e :: r) p) :
    IsFirstNewest h (e :: a :: r) p := by
  obtain ⟨b, af, hl, hb, ha⟩ := hp
  cases b with
  | nil =>
    simp only [List.nil_append, List.cons.injEq] at hl
    obtain ⟨hep, hr⟩ := hl
    refine ⟨[], a :: af, by simp [hep, hr], by simp, fun q hq => ?_⟩
    rcases List.mem_cons.mp hq with hq | hq
    · rw [hq, ← hep]; exact hle
    · exact ha q hq
  | cons x b' =>
    simp only [List.cons_append, List.cons.injEq] at hl
    obtain ⟨hex, hr⟩ := hl
    have hep : (h e).Timestamp < (h p).Timestamp := by
      rw [hex]; exact hb x (List.mem_cons_self _ _)
    refine ⟨e :: a :: b', af, by simp [hr], fun q hq => ?_, ha⟩
    rcases List.mem_cons.mp hq with hq | hq
    · rw [hq]; exact hep
    · rcases List.mem_cons.mp hq with hq | hq
      · rw [hq]; exact lt_of_le_of_lt hle hep
      · exact hb q (List.mem_cons_of_mem _ hq)

theorem isFirstNewest_replace {h : Heap} {e a p : Ptr} {r : List Ptr}
    (hlt : (h e).Timestamp < (h a).Timestamp) (hp : IsFirstNewest h (a :: r) p) :
    IsFirstNewest h (e :: a :: r) p := by
  obtain ⟨b, af, hl, hb, ha⟩ := hp
  cases b with
  | nil =>
    simp only [List.nil_append, List.cons.injEq] at hl
    obtain ⟨hap, hr⟩ := hl
    refine ⟨[e], af, by simp [hap, hr], fun q hq => ?_, ha⟩
    rcases List.mem_cons.mp hq with hq | hq
    · rw [hq, ← hap]; exact hlt
    · simp at hq
  | cons x b' =>
    simp only [List.cons_append, List.cons.injEq] at hl
    obtain ⟨hax, hr⟩ := hl
    have hap : (h a).Timestamp < (h p).Timestamp := by
      rw [hax]; exact hb x (List.mem_cons_self _ _)
    refine ⟨e :: a :: b', af, by simp [hr], fun q hq => ?_, ha⟩
    rcases List.mem_cons.mp hq with hq | hq
    · rw [hq]; exact lt_trans hlt hap
    · rcases List.mem_cons.mp hq with hq | hq
      · rw [hq]; exact hap
      · exact hb q (List.mem_cons_of_mem _ hq)

/-- How one `AddInfo` call changes the competitors for a key: either the list
stays as it is, or the offered Info, which follows the incumbent in the list,
is dropped (rejected) or takes the incumbent's place (accepted). -/
theorem candidatesFor_step (G : GroupOps) (h : Heap) (is : InfoStore) (a : Ptr)
    (rest : List Ptr) (k : String) (hg : is.Groups = ∅) :
    candidatesFor (is.AddInfo G h a).1 (is.AddInfo G h a).2.1 k rest =
        candidatesFor h is k (a :: rest) ∨
    (∃ e r, candidatesFor h is k (a :: rest) = e :: a :: r ∧
      (h a).Timestamp ≤ (h e).Timestamp ∧
      candidatesFor (is.AddInfo G h a).1 (is.AddInfo G h a).2.1 k rest = e :: r) ∨
    (∃ e r, candidatesFor h is k (a :: rest) = e :: a :: r ∧
      (h e).Timestamp < (h a).Timestamp ∧
      candidatesFor (is.AddInfo G h a).1 (is.AddInfo G h a).2.1 k rest = a :: r) := by
  have hb : is.belongsToGroup (h a).Key = none :=
    lookup_groups_none (not_mem_groups_of_empty hg _)
  have hoff : offeredFor (is.AddInfo G h a).1 k rest = offeredFor h k rest :=
    offeredFor_congr _ _ _ _ (fun q => (AddInfo_heap G h is a q).1.1)
  unfold candidatesFor
  rw [hoff]
  by_cases hk : (h a).Key = k
  · have hcons : offeredFor h k (a :: rest) = a :: offeredFor h k rest := by
      simp [offeredFor, hk]
    rw [hcons]
    subst hk
    cases hl : is.Infos.lookup (h a).Key with
    | none =>
      left
      rw [AddInfo_absent G h is a hb hl]
      simp [AList.lookup_insert]
    | some e =>
      by_cases ht : (h a).Timestamp ≤ (h e).Timestamp
      · right; left
        rw [AddInfo_older G h is a e hb hl ht]
        exact ⟨e, offeredFor h (h a).Key rest, by simp, ht, by simp [hl]⟩
      · right; right
        have hlt : (h e).Timestamp < (h a).Timestamp := not_le.mp ht
        rw [AddInfo_newer G h is a e hb hl hlt]
        exact ⟨e, offeredFor h (h a).Key rest, by simp, hlt, by simp [AList.lookup_insert]⟩
  · left
    have hcons : offeredFor h k (a :: rest) = offeredFor h k rest := by
      simp [offeredFor, hk]
    rw [hcons]
    have hkeep : (is.AddInfo G h a).2.1.Infos.lookup k = is.Infos.lookup k := by
      by_cases hr : (is.AddInfo G h a).2.2 = true
      · exact ((AddInfo_ungrouped G h is a (not_mem_groups_of_empty hg _)).2.1 hr).2.1 k
          (fun hkk => hk hkk.symm)
      · have hr' : (is.AddInfo G h a).2.2 = false := by simpa using hr
        rw [((AddInfo_ungrouped G h is a (not_mem_groups_of_empty hg _)).2.2 hr').1]
    rw [hkeep]

theorem addInfos_heap (G : GroupOps) (ps : List Ptr) :
    ∀ (h : Heap) (is : InfoStore) (q : Ptr),
      sameButHops ((InfoStore.addInfos G h is ps).1 q) (h q) ∧
      ((InfoStore.addInfos G h is ps).1 q).Hops ≤ (h q).Hops := by
  induction ps with
  | nil => intro h is q; exact ⟨sameButHops_refl _, le_refl _⟩
  | cons a rest ih =>
    intro h is q
    simp only [InfoStore.addInfos]
    have h1 := ih (is.AddInfo G h a).1 (is.AddInfo G h a).2.1 q
    have h2 := AddInfo_heap G h is a q
    exact ⟨sameButHops_trans h1.1 h2.1, le_trans h1.2 h2.2.1⟩

theorem addInfos_groups_empty (G : GroupOps) (ps : List Ptr) :
    ∀ (h : Heap) (is : InfoStore), is.Groups = ∅ →
      (InfoStore.addInfos G h is ps).2.Groups = ∅ := by
  induction ps with
  | nil => intro h is hg; exact hg
  | cons a rest ih =>
    intro h is hg
    simp only [InfoStore.addInfos]
    exact ih _ _ (AddInfo_groups_empty G h is a hg)

theorem addInfos_newest (G : GroupOps) (k : String) (ps : List Ptr) :
    ∀ (h : Heap) (is : InfoStore), is.Groups = ∅ →
      ((InfoStore.addInfos G h is ps).2.Infos.lookup k = none ↔ candidatesFor h is k ps = []) ∧
      (∀ p, (InfoStore.addInfos G h is ps).2.Infos.lookup k = some p →
        IsFirstNewest h (candidatesFor h is k ps) p) := by
  induction ps with
  | nil =>
    intro h is _
    simp only [InfoStore.addInfos, candidatesFor, offeredFor, List.filter_nil, List.append_nil]
    constructor
    · cases is.Infos.lookup k <;> simp
    · intro p hp
      rw [hp]
      exact ⟨[], [], rfl, by simp, by simp⟩
  | cons a rest ih =>
    intro h is hg
    simp only [InfoStore.addInfos]
    have hih := ih (is.AddInfo G h a).1 (is.AddInfo G h a).2.1 (AddInfo_groups_empty G h is a hg)
    have hts : ∀ q, ((is.AddInfo G h a).1 q).Timestamp = (h q).Timestamp :=
      fun q => (AddInfo_heap G h is a q).1.2.2.1
    rcases candidatesFor_step G h is a rest k hg with hc | ⟨e, r, hc, hle, hc1⟩ | ⟨e, r, hc, hlt, hc1⟩
    · rw [hc] at hih
      exact ⟨hih.1, fun p hp => isFirstNewest_congr hts (hih.2 p hp)⟩
    · rw [hc1] at hih
      rw [hc]
      refine ⟨?_, fun p hp => isFirstNewest_skip_older hle (isFirstNewest_congr hts (hih.2 p hp))⟩
      rw [hih.1]; simp
    · rw [hc1] at hih
      rw [hc]
      refine ⟨?_, fun p hp => isFirstNewest_replace hlt (isFirstNewest_congr hts (hih.2 p hp))⟩
      rw [hih.1]; simp

/-- C2 (last-writer-wins): on a store with no registered groups, after any
sequence of `AddInfo` calls a key is held exactly when some Info competed for
it (the incumbent the store started with, or an Info offered for the key), and
the Info held is the competitor with the greatest `Timestamp`, the first of
them in call order when several share it; the calls write no field of any Info
but `Hops`. In particular (k, ts 5) then (k, ts 3) leaves the ts 5 Info, and
(k, ts 5) then (k, ts 7) leaves the ts 7 Info. -/
theorem addInfos_last_writer_wins (G : GroupOps) (h : Heap) (is : InfoStore) (ps : List Ptr)
    (k : String) (hg : is.Groups = ∅) :
    ((InfoStore.addInfos G h is ps).2.Infos.lookup k = none ↔ candidatesFor h is k ps = []) ∧
    (∀ p, (InfoStore.addInfos G h is ps).2.Infos.lookup k = some p →
      IsFirstNewest h (candidatesFor h is k ps) p) ∧
    (∀ q, sameButHops ((InfoStore.addInfos G h is ps).1 q) (h q)) ∧
    (InfoStore.addInfos G heapWriters NewInfoStore [0, 1]).2.Infos.lookup "k" = some 0 ∧
    (InfoStore.addInfos G heapWriters NewInfoStore [0, 2]).2.Infos.lookup "k" = some 2 := by
  refine ⟨(addInfos_newest G k ps h is hg).1, (addInfos_newest G k ps h is hg).2,
    fun q => (addInfos_heap G ps h is q).1, ?_, ?_⟩
  · rw [addInfos_groups_empty_indep G noGroupOps _ _ _ rfl]
    decide
  · rw [addInfos_groups_empty_indep G noGroupOps _ _ _ rfl]
    decide

/-- Offering ts 5, ts 3, ts 7 to the empty store leaves the ts 7 Info, the
third offered. -/
theorem addInfos_last_writer_wins_witness :
    NewInfoStore.Groups = ∅ ∧
    (InfoStore.addInfos noGroupOps heapWriters NewInfoStore [0, 1, 2]).2.Infos.lookup "k" = some 2 ∧
    IsFirstNewest heapWriters (candidatesFor heapWriters NewInfoStore "k" [0, 1, 2]) 2 :=
  ⟨rfl, by decide,
    (addInfos_last_writer_wins noGroupOps heapWriters NewInfoStore [0, 1, 2] "k" rfl).2.1 2
      (by decide)⟩

theorem wellKeyed_AddInfo (G : GroupOps) (h : Heap) (is : InfoStore) (a : Ptr)
    (hg : is.Groups = ∅) (hw : WellKeyed h is.Infos) :
    WellKeyed (is.AddInfo G h a).1 (is.AddInfo G h a).2.1.Infos := by
  intro k p hp
  have hkey : ∀ q, ((is.AddInfo G h a).1 q).Key = (h q).Key :=
    fun q => (AddInfo_heap G h is a q).1.1
  have hsp := AddInfo_ungrouped G h is a (not_mem_groups_of_empty hg _)
  rw [hkey]
  by_cases hr : (is.AddInfo G h a).2.2 = true
  · by_cases hk : k = (h a).Key
    · rw [hk, (hsp.2.1 hr).1] at hp
      cases Option.some.inj hp
      exact hk.symm
    · rw [(hsp.2.1 hr).2.1 k hk] at hp
      exact hw k p hp
  · have hr' : (is.AddInfo G h a).2.2 = false := by simpa using hr
    rw [(hsp.2.2 hr').1] at hp
    exact hw k p hp

theorem storedFor_key (G : GroupOps) (h : Heap) (is : InfoStore) (k : String) (ps : List Ptr)
    (hw : WellKeyed h is.Infos) : ∀ q ∈ storedFor G h is k ps, (h q).Key = k := by
  intro q hq
  unfold storedFor at hq
  rcases List.mem_append.mp hq with hq | hq
  · cases hl : is.Infos.lookup k with
    | none => rw [hl] at hq; simp at hq
    | some e =>
      rw [hl] at hq
      simp only [Option.toList_some, List.mem_singleton] at hq
      rw [hq]; exact hw k e hl
  · unfold offeredFor at hq
    simpa using (List.mem_filter.mp hq).2

/-- How one `AddInfo` call changes the Infos stored for a key: either the list
and the `Hops` of its Infos stay as they are, or the offered Info replaces the
incumbent and takes the smaller of the two `Hops`. -/
theorem storedFor_step (G : GroupOps) (h : Heap) (is : InfoStore) (a : Ptr)
    (rest : List Ptr) (k : String) (hg : is.Groups = ∅) (hw : WellKeyed h is.Infos) :
    (storedFor G (is.AddInfo G h a).1 (is.AddInfo G h a).2.1 k rest =
        storedFor G h is k (a :: rest) ∧
      ∀ q ∈ storedFor G h is k (a :: rest), (is.AddInfo G h a).1 q = h q) ∨
    (∃ e r, storedFor G h is k (a :: rest) = e :: a :: r ∧
      storedFor G (is.AddInfo G h a).1 (is.AddInfo G h a).2.1 k rest = a :: r ∧
      ((is.AddInfo G h a).1 a).Hops = min (h e).Hops (h a).Hops) := by
  have hb : is.belongsToGroup (h a).Key = none :=
    lookup_groups_none (not_mem_groups_of_empty hg _)
  have hoff : ∀ l, offeredFor (is.AddInfo G h a).1 k l = offeredFor h k l :=
    fun l => offeredFor_congr _ _ _ _ (fun q => (AddInfo_heap G h is a q).1.1)
  have hacc : acceptedBy G h is (a :: rest) =
      (if (is.AddInfo G h a).2.2 then [a] else []) ++
        acceptedBy G (is.AddInfo G h a).1 (is.AddInfo G h a).2.1 rest := rfl
  have happ : ∀ l1 l2, offeredFor h k (l1 ++ l2) = offeredFor h k l1 ++ offeredFor h k l2 := by
    intro l1 l2; simp [offeredFor]
  by_cases hk : (h a).Key = k
  · cases hl : is.Infos.lookup (h a).Key with
    | none =>
      left
      have hS : storedFor G (is.AddInfo G h a).1 (is.AddInfo G h a).2.1 k rest =
          storedFor G h is k (a :: rest) := by
        unfold storedFor
        rw [hoff, hacc, happ]
        rw [AddInfo_absent G h is a hb hl]
        subst hk
        simp [hl, offeredFor, AList.lookup_insert]
      refine ⟨hS, fun q _ => ?_⟩
      rw [AddInfo_absent G h is a hb hl]
    | some e =>
      by_cases ht : (h a).Timestamp ≤ (h e).Timestamp
      · left
        have hS : storedFor G (is.AddInfo G h a).1 (is.AddInfo G h a).2.1 k rest =
            storedFor G h is k (a :: rest) := by
          unfold storedFor
          rw [hoff, hacc, happ]
          rw [AddInfo_older G h is a e hb hl ht]
          simp [offeredFor]
        refine ⟨hS, fun q _ => ?_⟩
        rw [AddInfo_older G h is a e hb hl ht]
      · right
        have hlt : (h e).Timestamp < (h a).Timestamp := not_le.mp ht
        refine ⟨e, offeredFor h k (acceptedBy G (is.AddInfo G h a).1 (is.AddInfo G h a).2.1 rest),
          ?_, ?_, ?_⟩
        · unfold storedFor
          rw [hacc, happ]
          subst hk
          rw [AddInfo_newer G h is a e hb hl hlt]
          simp [hl, offeredFor]
        · unfold storedFor
          rw [hoff]
          subst hk
          rw [AddInfo_newer G h is a e hb hl hlt]
          simp [AList.lookup_insert]
        · rw [AddInfo_newer G h is a e hb hl hlt]
          simp [setHops_self]
  · left
    have hsp := AddInfo_ungrouped G h is a (not_mem_groups_of_empty hg _)
    have hkeep : (is.AddInfo G h a).2.1.Infos.lookup k = is.Infos.lookup k := by
      by_cases hr : (is.AddInfo G h a).2.2 = true
      · exact (hsp.2.1 hr).2.1 k (fun hkk => hk hkk.symm)
      · have hr' : (is.AddInfo G h a).2.2 = false := by simpa using hr
        rw [(hsp.2.2 hr').1]
    have hS : storedFor G (is.AddInfo G h a).1 (is.AddInfo G h a).2.1 k rest =
        storedFor G h is k (a :: rest) := by
      unfold storedFor
      rw [hoff, hacc, happ, hkeep]
      have : offeredFor h k (if (is.AddInfo G h a).2.2 = true then [a] else []) = [] := by
        by_cases hr : (is.AddInfo G h a).2.2 = true <;> simp [hr, offeredFor, hk]
      rw [this, List.nil_append]
    refine ⟨hS, fun q hq => ?_⟩
    have hqk := storedFor_key G h is k (a :: rest) hw q hq
    exact (AddInfo_heap G h is a q).2.2 (fun hqa => hk (hqa ▸ hqk))

theorem addInfos_stored_hops (G : GroupOps) (k : String) (ps : List Ptr) :
    ∀ (h : Heap) (is : InfoStore), is.Groups = ∅ → WellKeyed h is.Infos →
      ∀ p, (InfoStore.addInfos G h is ps).2.Infos.lookup k = some p →
        (∃ q ∈ storedFor G h is k ps,
          ((InfoStore.addInfos G h is ps).1 p).Hops = (h q).Hops) ∧
        (∀ q ∈ storedFor G h is k ps,
          ((InfoStore.addInfos G h is ps).1 p).Hops ≤ (h q).Hops) := by
  induction ps with
  | nil =>
    intro h is _ _ p hp
    have hp' : is.Infos.lookup k = some p := hp
    have hS : storedFor G h is k [] = [p] := by
      simp [storedFor, acceptedBy, offeredFor, hp']
    rw [hS]
    simp [InfoStore.addInfos]
  | cons a rest ih =>
    intro h is hg hw p hp
    simp only [InfoStore.addInfos] at hp ⊢
    have hih := ih (is.AddInfo G h a).1 (is.AddInfo G h a).2.1 (AddInfo_groups_empty G h is a hg)
      (wellKeyed_AddInfo G h is a hg hw) p hp
    rcases storedFor_step G h is a rest k hg hw with ⟨hS, hsame⟩ | ⟨e, r, hS, hS1, hmin⟩
    · rw [hS] at hih
      obtain ⟨⟨q, hq, hqe⟩, hall⟩ := hih
      refine ⟨⟨q, hq, ?_⟩, fun q' hq' => ?_⟩
      · rw [hqe, hsame q hq]
      · rw [← hsame q' hq']; exact hall q' hq'
    · rw [hS1] at hih
      rw [hS]
      obtain ⟨⟨q, hq, hqe⟩, hall⟩ := hih
      have ha := hall a (List.mem_cons_self _ _)
      rw [hmin] at ha
      constructor
      · by_cases hqa : q = a
        · rw [hqa, hmin] at hqe
          rcases min_choice (h e).Hops (h a).Hops with hm | hm
          · exact ⟨e, List.mem_cons_self _ _, by rw [hqe, hm]⟩
          · exact ⟨a, List.mem_cons_of_mem _ (List.mem_cons_self _ _), by rw [hqe, hm]⟩
        · have hqr : q ∈ r := by
            rcases List.mem_cons.mp hq with hq | hq
            · exact absurd hq hqa
            · exact hq
          refine ⟨q, List.mem_cons_of_mem _ (List.mem_cons_of_mem _ hqr), ?_⟩
          rw [hqe, (AddInfo_heap G h is a q).2.2 hqa]
      · intro q' hq'
        rcases List.mem_cons.mp hq' with hq' | hq'
        · rw [hq']; exact le_trans ha (min_le_left _ _)
        · rcases List.mem_cons.mp hq' with hq' | hq'
          · rw [hq']; exact le_trans ha (min_le_right _ _)
          · exact le_trans (hall q' (List.mem_cons_of_mem _ hq')) (AddInfo_heap G h is a q').2.1

/-- C5 as stated fails: after (hops 1, ts 5) and then (hops 0, ts 3) are
offered for key `k`, the older second Info is rejected and the stored `Hops`
is 1, while the smallest `Hops` offered for `k` is 0. It also fails on a store
that holds an Info under a map key that is not the Info's `Key`: offering that
Info again lowers its `Hops` from 5 to 0, the incumbent's under its own key,
so the `Hops` held under the map key `x` is 0 though the one Info that ever
competed for `x` had 5. -/
theorem addInfos_hops_not_minimum_of_offered :
    storedHops (InfoStore.addInfos noGroupOps heapShortest NewInfoStore [0, 1]).1
      (InfoStore.addInfos noGroupOps heapShortest NewInfoStore [0, 1]).2 "k" = some 1 ∧
    1 ∈ offeredFor heapShortest "k" [0, 1] ∧ (heapShortest 1).Hops = 0 ∧
    storedHops (InfoStore.addInfos noGroupOps heapCross storeCross [0]).1
      (InfoStore.addInfos noGroupOps heapCross storeCross [0]).2 "x" = some 0 ∧
    candidatesFor heapCross storeCross "x" [0] = [0] ∧ (heapCross 0).Hops = 5 := by
  decide

/-- C5 (amended): on a store with no registered groups in which every Info is
held under its own key, after any sequence of `AddInfo` calls the `Hops` of
the Info held under key `k` is the smallest `Hops` among the Infos that were
stored under `k`: the incumbent the store started with and the offered Infos
of that key that `AddInfo` accepted. It is one of their `Hops` and at most
each of them. -/
theorem addInfos_hops_minimum_of_stored (G : GroupOps) (h : Heap) (is : InfoStore)
    (ps : List Ptr) (k : String) (hg : is.Groups = ∅) (hw : WellKeyed h is.Infos) (p : Ptr)
    (hp : (InfoStore.addInfos G h is ps).2.Infos.lookup k = some p) :
    (∃ q ∈ storedFor G h is k ps, ((InfoStore.addInfos G h is ps).1 p).Hops = (h q).Hops) ∧
    (∀ q ∈ storedFor G h is k ps, ((InfoStore.addInfos G h is ps).1 p).Hops ≤ (h q).Hops) :=
  addInfos_stored_hops G k ps h is hg hw p hp

theorem wellKeyed_empty (h : Heap) : WellKeyed h NewInfoStore.Infos := by
  intro k p hp
  simp [NewInfoStore] at hp

/-- The three Infos (hops 3, ts 1), (hops 1, ts 2), (hops 5, ts 3) are all
accepted; the third is held, with `Hops` 1. -/
theorem addInfos_hops_minimum_of_stored_witness :
    NewInfoStore.Groups = ∅ ∧ WellKeyed heapHops NewInfoStore.Infos ∧
    (InfoStore.addInfos noGroupOps heapHops NewInfoStore [0, 1, 2]).2.Infos.lookup "k" = some 2 ∧
    storedFor noGroupOps heapHops NewInfoStore "k" [0, 1, 2] = [0, 1, 2] ∧
    ∀ q ∈ storedFor noGroupOps heapHops NewInfoStore "k" [0, 1, 2],
      ((InfoStore.addInfos noGroupOps heapHops NewInfoStore [0, 1, 2]).1 2).Hops ≤
        (heapHops q).Hops :=
  ⟨rfl, wellKeyed_empty heapHops, by decide, by decide,
    (addInfos_hops_minimum_of_stored noGroupOps heapHops NewInfoStore [0, 1, 2] "k" rfl
      (wellKeyed_empty heapHops) 2 (by decide)).2⟩

/-! ### `MaxSeq` -/

theorem mem_mapValues_iff {β : Type} (m : AList (fun _ : String => β)) (b : β) :
    b ∈ mapValues m ↔ ∃ k, m.lookup k = some b := by
  unfold mapValues
  constructor
  · intro hb
    obtain ⟨e, he, heb⟩ := List.mem_map.mp hb
    refine ⟨e.1, ?_⟩
    have : (Sigma.mk e.1 b : Sigma (fun _ : String => β)) ∈ m.entries := by
      rw [← heb]; exact he
    exact AList.mem_lookup_iff.mpr this
  · rintro ⟨k, hk⟩
    exact List.mem_map.mpr ⟨⟨k, b⟩, AList.mem_lookup_iff.mp hk, rfl⟩

/-- What `AddInfo` does to `MaxSeq`, on either branch: raised to the Seq of an
accepted Info when that is greater, untouched otherwise. -/
theorem AddInfo_maxSeq (G : GroupOps) (h : Heap) (is : InfoStore) (info : Ptr) :
    (is.AddInfo G h info).2.1.MaxSeq =
      if (is.AddInfo G h info).2.2 = true then
        (if (h info).Seq > is.MaxSeq then (h info).Seq else is.MaxSeq)
      else is.MaxSeq := by
  unfold InfoStore.AddInfo
  cases is.belongsToGroup (h info).Key with
  | some group =>
    by_cases hb : (G.AddInfo h group info).2 = true
    · simp [hb]
    · simp [hb]
  | none =>
    cases is.Infos.lookup (h info).Key with
    | none => simp
    | some e =>
      by_cases ht : (h info).Timestamp ≤ (h e).Timestamp
      · simp [ht]
      · by_cases hh : (h e).Hops < (h info).Hops
        · simp [ht, hh, setHops_self]
        · simp [ht, hh]

theorem AddInfo_maxSeq_le (G : GroupOps) (h : Heap) (is : InfoStore) (info : Ptr) :
    is.MaxSeq ≤ (is.AddInfo G h info).2.1.MaxSeq := by
  rw [AddInfo_maxSeq]
  split_ifs <;> omega

theorem acceptedBy_seq (G : GroupOps) (ps : List Ptr) :
    ∀ (h : Heap) (is : InfoStore),
      is.MaxSeq ≤ (InfoStore.addInfos G h is ps).2.MaxSeq ∧
      (∀ p ∈ acceptedBy G h is ps, (h p).Seq ≤ (InfoStore.addInfos G h is ps).2.MaxSeq) ∧
      ((InfoStore.addInfos G h is ps).2.MaxSeq = is.MaxSeq ∨
        ∃ p ∈ acceptedBy G h is ps, (h p).Seq = (InfoStore.addInfos G h is ps).2.MaxSeq) := by
  induction ps with
  | nil => intro h is; simp [InfoStore.addInfos, acceptedBy]
  | cons a rest ih =>
    intro h is
    have hseq : ∀ q, ((is.AddInfo G h a).1 q).Seq = (h q).Seq :=
      fun q => (AddInfo_heap G h is a q).1.2.2.2.2.1
    obtain ⟨h1, h2, h3⟩ := ih (is.AddInfo G h a).1 (is.AddInfo G h a).2.1
    have hm := AddInfo_maxSeq G h is a
    have hle := AddInfo_maxSeq_le G h is a
    simp only [InfoStore.addInfos, acceptedBy]
    refine ⟨le_trans hle h1, fun p hp => ?_, ?_⟩
    · rcases List.mem_append.mp hp with hp | hp
      · by_cases hr : (is.AddInfo G h a).2.2 = true
        · simp only [hr, if_true, List.mem_singleton] at hp
          rw [hr] at hm
          simp only [if_true] at hm
          rw [hp]
          refine le_trans ?_ h1
          rw [hm]; split_ifs <;> omega
        · simp [hr] at hp
      · rw [← hseq p]; exact h2 p hp
    · rcases h3 with h3 | ⟨p, hp, hpe⟩
      · by_cases hr : (is.AddInfo G h a).2.2 = true
        · rw [hr] at hm
          simp only [if_true] at hm
          by_cases hs : (h a).Seq > is.MaxSeq
          · right
            refine ⟨a, List.mem_append_left _ (by simp [hr]), ?_⟩
            rw [h3, hm, if_pos hs]
          · left
            rw [h3, hm, if_neg hs]
        · left
          rw [h3, hm, if_neg hr]
      · right
        exact ⟨p, List.mem_append_right _ hp, by rw [← hseq p]; exact hpe⟩

theorem AddInfo_infos_mem (G : GroupOps) (h : Heap) (is : InfoStore) (a p : Ptr)
    (hp : p ∈ mapValues (is.AddInfo G h a).2.1.Infos) :
    p ∈ mapValues is.Infos ∨ (p = a ∧ (is.AddInfo G h a).2.2 = true) := by
  unfold InfoStore.AddInfo at hp ⊢
  cases hb : is.belongsToGroup (h a).Key with
  | some group =>
    rw [hb] at hp
    by_cases hr : (G.AddInfo h group a).2 = true
    · simp only [hr, if_true] at hp; exact Or.inl hp
    · simp only [hr] at hp; exact Or.inl hp
  | none =>
    rw [hb] at hp
    have hins : ∀ key, p ∈ mapValues (is.Infos.insert key a) → p ∈ mapValues is.Infos ∨ p = a := by
      intro key hm
      obtain ⟨k, hk⟩ := (mem_mapValues_iff _ _).mp hm
      by_cases hkk : k = key
      · rw [hkk, AList.lookup_insert] at hk
        exact Or.inr (Option.some.inj hk).symm
      · rw [AList.lookup_insert_ne hkk] at hk
        exact Or.inl ((mem_mapValues_iff _ _).mpr ⟨k, hk⟩)
    cases hl : is.Infos.lookup (h a).Key with
    | none =>
      rw [hl] at hp
      rcases hins _ hp with hp | hp
      · exact Or.inl hp
      · exact Or.inr ⟨hp, by simp⟩
    | some e =>
      rw [hl] at hp
      by_cases ht : (h a).Timestamp ≤ (h e).Timestamp
      · simp only [ht, if_true] at hp; exact Or.inl hp
      · simp only [ht, if_false] at hp
        rcases hins _ hp with hp | hp
        · exact Or.inl hp
        · exact Or.inr ⟨hp, by simp [ht]⟩

theorem addInfos_infos_mem (G : GroupOps) (ps : List Ptr) :
    ∀ (h : Heap) (is : InfoStore) (p : Ptr),
      p ∈ mapValues (InfoStore.addInfos G h is ps).2.Infos →
      p ∈ mapValues is.Infos ∨ p ∈ acceptedBy G h is ps := by
  induction ps with
  | nil => intro h is p hp; exact Or.inl hp
  | cons a rest ih =>
    intro h is p hp
    simp only [InfoStore.addInfos] at hp
    simp only [acceptedBy]
    rcases ih _ _ p hp with hp | hp
    · rcases AddInfo_infos_mem G h is a p hp with hp | ⟨hpa, hr⟩
      · exact Or.inl hp
      · exact Or.inr (List.mem_append_left _ (by simp [hr, hpa]))
    · exact Or.inr (List.mem_append_right _ hp)

theorem heldPtrs_of_groups_empty {is : InfoStore} (hg : is.Groups = ∅) :
    heldPtrs is = mapValues is.Infos := by
  simp [heldPtrs, hg, mapValues]

/-- C7 as stated fails: after (ts 1, seq 10) and then the newer (ts 2, seq 3)
are added under one key, the store holds one Info, of Seq 3, and `MaxSeq` is
10, the Seq of the superseded Info: no Info in the store attains it. -/
theorem MaxSeq_not_attained :
    heldPtrs (InfoStore.addInfos noGroupOps heapSeqs NewInfoStore [0, 1]).2 = [1] ∧
    (InfoStore.addInfos noGroupOps heapSeqs NewInfoStore [0, 1]).2.MaxSeq = 10 ∧
    ∀ p ∈ heldPtrs (InfoStore.addInfos noGroupOps heapSeqs NewInfoStore [0, 1]).2,
      ((InfoStore.addInfos noGroupOps heapSeqs NewInfoStore [0, 1]).1 p).Seq = 3 := by
  decide

/-- C7 (amended): in every store reached from `NewInfoStore()` by a sequence of
`AddInfo` calls, `MaxSeq` is the highest Seq among the Infos that `AddInfo`
has accepted so far, or 0 when none of them is positive: it is at least 0 and
at least the Seq of each accepted Info, and it is 0 or the Seq of one of them.
It is at least the Seq of every Info currently held. -/
theorem MaxSeq_highest_accepted (G : GroupOps) (h : Heap) (ps : List Ptr) :
    0 ≤ (InfoStore.addInfos G h NewInfoStore ps).2.MaxSeq ∧
    (∀ p ∈ acceptedBy G h NewInfoStore ps,
      (h p).Seq ≤ (InfoStore.addInfos G h NewInfoStore ps).2.MaxSeq) ∧
    ((InfoStore.addInfos G h NewInfoStore ps).2.MaxSeq = 0 ∨
      ∃ p ∈ acceptedBy G h NewInfoStore ps,
        (h p).Seq = (InfoStore.addInfos G h NewInfoStore ps).2.MaxSeq) ∧
    (∀ p ∈ heldPtrs (InfoStore.addInfos G h NewInfoStore ps).2,
      ((InfoStore.addInfos G h NewInfoStore ps).1 p).Seq ≤
        (InfoStore.addInfos G h NewInfoStore ps).2.MaxSeq) := by
  obtain ⟨h1, h2, h3⟩ := acceptedBy_seq G ps h NewInfoStore
  refine ⟨h1, h2, h3, fun p hp => ?_⟩
  rw [heldPtrs_of_groups_empty (addInfos_groups_empty G ps h NewInfoStore rfl)] at hp
  rw [(addInfos_heap G ps h NewInfoStore p).1.2.2.2.2.1]
  rcases addInfos_infos_mem G ps h NewInfoStore p hp with hp | hp
  · simp [NewInfoStore, mapValues] at hp
  · exact h2 p hp

/-! ### `Delta` -/

theorem mapValues_empty {β : Type} : mapValues (∅ : AList (fun _ : String => β)) = [] := rfl

theorem visitInfos_groups_empty {σ : Type} (is : InfoStore)
    (visitGroup : Option (Group → σ → σ × Option Error)) (f : Ptr → σ → σ × Option Error)
    (st : σ) (hg : is.Groups = ∅) :
    is.visitInfos visitGroup (some f) st = visitEach f (mapValues is.Infos) st := by
  unfold InfoStore.visitInfos
  rw [hg, mapValues_empty]
  simp [visitEach]

theorem visitEach_deltaInfo_error (G : GroupOps) (seq : Int) (ps : List Ptr) :
    ∀ st, (visitEach (InfoStore.deltaInfo G seq) ps st).2 = none := by
  induction ps with
  | nil => intro st; rfl
  | cons a rest ih =>
    intro st
    have hn : (InfoStore.deltaInfo G seq a st).2 = none := by
      unfold InfoStore.deltaInfo; split_ifs <;> rfl
    have hst : InfoStore.deltaInfo G seq a st = ((InfoStore.deltaInfo G seq a st).1, none) := by
      rw [← hn]
    simp only [visitEach]
    rw [hst]
    exact ih _

theorem Delta_no_deltas (G : GroupOps) (h : Heap) (is : InfoStore) (seq : Int)
    (hs : seq ≥ is.MaxSeq) : is.Delta G h seq = (h, none, some (Error.noDeltas seq)) := by
  simp [InfoStore.Delta, hs]

theorem Delta_store (G : GroupOps) (h : Heap) (is : InfoStore) (seq : Int)
    (hs : seq < is.MaxSeq) : ∃ d, (is.Delta G h seq).2.1 = some d := by
  have hs' : ¬ seq ≥ is.MaxSeq := not_le.mpr hs
  simp [InfoStore.Delta, hs']

theorem Delta_groups_empty (G : GroupOps) (h : Heap) (is : InfoStore) (seq : Int)
    (hg : is.Groups = ∅) (hs : seq < is.MaxSeq) :
    is.Delta G h seq =
      ((visitEach (InfoStore.deltaInfo G seq) (mapValues is.Infos)
          (h, { NewInfoStore with SeqGen := is.SeqGen })).1.1,
        some (visitEach (InfoStore.deltaInfo G seq) (mapValues is.Infos)
          (h, { NewInfoStore with SeqGen := is.SeqGen })).1.2, none) := by
  have hs' : ¬ seq ≥ is.MaxSeq := not_le.mpr hs
  simp only [InfoStore.Delta, hs', if_false]
  rw [visitInfos_groups_empty _ _ _ _ hg, visitEach_deltaInfo_error]

/-- C8: `Delta(seq)` returns no store and the no-deltas error when
`seq >= MaxSeq`, for every store; it returns a store exactly when
`seq < MaxSeq`; and on a store with no registered groups it returns a store
and no error when `seq < MaxSeq`. -/
theorem Delta_fails_iff (G : GroupOps) (h : Heap) (is : InfoStore) (seq : Int) :
    (seq ≥ is.MaxSeq → is.Delta G h seq = (h, none, some (Error.noDeltas seq))) ∧
    ((is.Delta G h seq).2.1 = none ↔ seq ≥ is.MaxSeq) ∧
    (is.Groups = ∅ →
      ((is.Delta G h seq).2.2 ≠ none ↔ seq ≥ is.MaxSeq) ∧
      (seq < is.MaxSeq →
        (∃ d, (is.Delta G h seq).2.1 = some d) ∧ (is.Delta G h seq).2.2 = none)) := by
  refine ⟨Delta_no_deltas G h is seq, ⟨fun hn => ?_, fun hs => ?_⟩, fun hg => ⟨⟨fun hn => ?_,
    fun hs => ?_⟩, fun hs => ⟨Delta_store G h is seq hs, ?_⟩⟩⟩
  · by_contra hc
    obtain ⟨d, hd⟩ := Delta_store G h is seq (not_le.mp hc)
    rw [hd] at hn
    exact Option.noConfusion hn
  · rw [Delta_no_deltas G h is seq hs]
  · by_contra hc
    rw [Delta_groups_empty G h is seq hg (not_le.mp hc)] at hn
    exact hn rfl
  · rw [Delta_no_deltas G h is seq hs]
    simp
  · rw [Delta_groups_empty G h is seq hg hs]

/-- On the store of three Infos with `MaxSeq` 3, `Delta(2)` returns a store
and no error, and `Delta(3)` fails. -/
theorem Delta_fails_iff_witness :
    storeThree.Groups = ∅ ∧ (2 : Int) < storeThree.MaxSeq ∧
    ((∃ d, (storeThree.Delta noGroupOps heapThree 2).2.1 = some d) ∧
      (storeThree.Delta noGroupOps heapThree 2).2.2 = none) ∧
    storeThree.Delta noGroupOps heapThree 3 = (heapThree, none, some (Error.noDeltas 3)) :=
  ⟨rfl, by decide,
    ((Delta_fails_iff noGroupOps heapThree storeThree 2).2.2 rfl).2 (by decide),
    (Delta_fails_iff noGroupOps heapThree storeThree 3).1 (by decide)⟩

theorem mapValues_keys_of_wellKeyed (h : Heap) (m : InfoMap) (hw : WellKeyed h m) :
    (mapValues m).map (fun p => (h p).Key) = m.keys := by
  unfold mapValues AList.keys List.keys
  rw [List.map_map]
  apply List.map_congr_left
  intro e he
  have : m.lookup e.1 = some e.2 := AList.mem_lookup_iff.mpr (by cases e; exact he)
  exact hw e.1 e.2 this

theorem lookup_iff_mem_of_wellKeyed (h : Heap) (m : InfoMap) (hw : WellKeyed h m) (k : String)
    (p : Ptr) : m.lookup k = some p ↔ p ∈ mapValues m ∧ (h p).Key = k := by
  constructor
  · intro hl
    exact ⟨(mem_mapValues_iff m p).mpr ⟨k, hl⟩, hw k p hl⟩
  · rintro ⟨hm, hk⟩
    obtain ⟨k', hk'⟩ := (mem_mapValues_iff m p).mp hm
    rw [← hk, hw k' p hk'] at *
    exact hk'

theorem keys_nodup_of_wellKeyed (h : Heap) (m : InfoMap) (hw : WellKeyed h m) :
    ((mapValues m).map (fun p => (h p).Key)).Nodup := by
  rw [mapValues_keys_of_wellKeyed h m hw]
  exact AList.keys_nodup _

/-- The loop of `Delta` over Infos of pairwise distinct keys, none of them held
by the store under construction: the heap is not written, and the store gains
exactly the visited Infos whose Seq exceeds the watermark, each under its own
key. -/
theorem visitEach_deltaInfo (G : GroupOps) (seq : Int) (h : Heap) (ps : List Ptr) :
    ∀ d : InfoStore, d.Groups = ∅ → (ps.map (fun p => (h p).Key)).Nodup →
      (∀ p ∈ ps, (h p).Key ∉ d.Infos) →
      (visitEach (InfoStore.deltaInfo G seq) ps (h, d)).1.1 = h ∧
      (visitEach (InfoStore.deltaInfo G seq) ps (h, d)).1.2.Groups = ∅ ∧
      (visitEach (InfoStore.deltaInfo G seq) ps (h, d)).1.2.SeqGen = d.SeqGen ∧
      ∀ k p, (visitEach (InfoStore.deltaInfo G seq) ps (h, d)).1.2.Infos.lookup k = some p ↔
        (d.Infos.lookup k = some p ∨ (p ∈ ps ∧ (h p).Key = k ∧ seq < (h p).Seq)) := by
  induction ps with
  | nil => intro d hg _ _; simp [visitEach, hg]
  | cons a rest ih =>
    intro d hg hnd hnot
    have hnd' := List.nodup_cons.mp hnd
    by_cases hs : (h a).Seq > seq
    · have hb : d.belongsToGroup (h a).Key = none :=
        lookup_groups_none (not_mem_groups_of_empty hg _)
      have hl : d.Infos.lookup (h a).Key = none :=
        AList.lookup_eq_none.mpr (hnot a (List.mem_cons_self _ _))
      have hstep : InfoStore.deltaInfo G seq a (h, d) =
          ((h, { d with
                   Infos := d.Infos.insert (h a).Key a
                   MaxSeq := if (h a).Seq > d.MaxSeq then (h a).Seq else d.MaxSeq }), none) := by
        simp only [InfoStore.deltaInfo, hs, if_true]
        rw [AddInfo_absent G h d a hb hl]
      simp only [visitEach, hstep]
      have hnot' : ∀ p ∈ rest, (h p).Key ∉
          ({ d with
               Infos := d.Infos.insert (h a).Key a
               MaxSeq := if (h a).Seq > d.MaxSeq then (h a).Seq else d.MaxSeq } :
            InfoStore).Infos := by
        intro p hp hmem
        rcases (AList.mem_insert _).mp hmem with hk | hk
        · exact hnd'.1 (List.mem_map.mpr ⟨p, hp, hk⟩)
        · exact hnot p (List.mem_cons_of_mem _ hp) hk
      obtain ⟨h1, h2, h3, h4⟩ := ih
        { d with
            Infos := d.Infos.insert (h a).Key a
            MaxSeq := if (h a).Seq > d.MaxSeq then (h a).Seq else d.MaxSeq } hg hnd'.2 hnot'
      refine ⟨h1, h2, h3, fun k p => ?_⟩
      rw [h4 k p]
      constructor
      · rintro (hl' | ⟨hp, hk, hsq⟩)
        · by_cases hka : k = (h a).Key
          · rw [hka, AList.lookup_insert] at hl'
            cases Option.some.inj hl'
            exact Or.inr ⟨List.mem_cons_self _ _, hka.symm, hs⟩
          · rw [AList.lookup_insert_ne hka] at hl'
            exact Or.inl hl'
        · exact Or.inr ⟨List.mem_cons_of_mem _ hp, hk, hsq⟩
      · rintro (hl' | ⟨hp, hk, hsq⟩)
        · left
          have hka : k ≠ (h a).Key := by
            intro hka
            rw [hka, hl] at hl'
            exact Option.noConfusion hl'
          rw [AList.lookup_insert_ne hka]
          exact hl'
        · rcases List.mem_cons.mp hp with hp | hp
          · left
            rw [hp] at hk ⊢
            rw [← hk]
            exact AList.lookup_insert _
          · exact Or.inr ⟨hp, hk, hsq⟩
    · have hstep : InfoStore.deltaInfo G seq a (h, d) = ((h, d), none) := by
        simp [InfoStore.deltaInfo, hs]
      simp only [visitEach, hstep]
      obtain ⟨h1, h2, h3, h4⟩ := ih d hg hnd'.2
        (fun p hp => hnot p (List.mem_cons_of_mem _ hp))
      refine ⟨h1, h2, h3, fun k p => ?_⟩
      rw [h4 k p]
      constructor
      · rintro (hl' | ⟨hp, hk, hsq⟩)
        · exact Or.inl hl'
        · exact Or.inr ⟨List.mem_cons_of_mem _ hp, hk, hsq⟩
      · rintro (hl' | ⟨hp, hk, hsq⟩)
        · exact Or.inl hl'
        · rcases List.mem_cons.mp hp with hp | hp
          · rw [hp] at hsq
            exact absurd hsq hs
          · exact Or.inr ⟨hp, hk, hsq⟩

theorem Delta_contents (G : GroupOps) (h : Heap) (is : InfoStore) (seq : Int)
    (hg : is.Groups = ∅) (hnd : ((mapValues is.Infos).map (fun p => (h p).Key)).Nodup)
    (hseq : seq < is.MaxSeq) :
    ∃ d, is.Delta G h seq = (h, some d, none) ∧
      (∀ k p, d.Infos.lookup k = some p ↔
        (p ∈ mapValues is.Infos ∧ (h p).Key = k ∧ seq < (h p).Seq)) ∧
      d.Groups = ∅ ∧ d.SeqGen = is.SeqGen := by
  obtain ⟨h1, h2, h3, h4⟩ := visitEach_deltaInfo G seq h (mapValues is.Infos)
    { NewInfoStore with SeqGen := is.SeqGen } rfl hnd (fun p _ => AList.not_mem_empty _)
  refine ⟨_, ?_, fun k p => ?_, h2, h3⟩
  · rw [Delta_groups_empty G h is seq hg hseq, h1]
  · rw [h4 k p]
    constructor
    · rintro (hl | hr)
      · simp [NewInfoStore] at hl
      · exact hr
    · intro hr
      exact Or.inr hr

/-- On a store with no registered groups whose Infos have pairwise distinct
`Key`s and whose `MaxSeq` is at least every held Seq, `Delta(seq)` for
`seq < MaxSeq` holds exactly the source's Infos whose Seq exceeds `seq`. -/
theorem Delta_newer_of_distinct_keys (G : GroupOps) (h : Heap) (is : InfoStore) (seq : Int)
    (hg : is.Groups = ∅) (hnd : ((mapValues is.Infos).map (fun p => (h p).Key)).Nodup)
    (hmax : ∀ p ∈ heldPtrs is, (h p).Seq ≤ is.MaxSeq) (hseq : seq < is.MaxSeq) :
    ∃ d, is.Delta G h seq = (h, some d, none) ∧
      (∀ k p, d.Infos.lookup k = some p ↔
        (p ∈ mapValues is.Infos ∧ (h p).Key = k ∧ seq < (h p).Seq)) ∧
      d.Groups = ∅ ∧ d.SeqGen = is.SeqGen ∧
      (seq = is.MaxSeq - 1 →
        ∀ k p, d.Infos.lookup k = some p ↔
          (p ∈ mapValues is.Infos ∧ (h p).Key = k ∧ (h p).Seq = is.MaxSeq)) := by
  obtain ⟨d, hd, hl, hdg, hds⟩ := Delta_contents G h is seq hg hnd hseq
  refine ⟨d, hd, hl, hdg, hds, fun hs k p => ?_⟩
  rw [hl k p]
  constructor
  · rintro ⟨hp, hk, hlt⟩
    refine ⟨hp, hk, ?_⟩
    have hle : (h p).Seq ≤ is.MaxSeq := by
      apply hmax
      rw [heldPtrs_of_groups_empty hg]
      exact hp
    omega
  · rintro ⟨hp, hk, he⟩
    exact ⟨hp, hk, by omega⟩

theorem wellKeyed_addInfos (G : GroupOps) (ps : List Ptr) :
    ∀ (h : Heap) (is : InfoStore), is.Groups = ∅ → WellKeyed h is.Infos →
      WellKeyed (InfoStore.addInfos G h is ps).1 (InfoStore.addInfos G h is ps).2.Infos := by
  induction ps with
  | nil => intro h is _ hw; exact hw
  | cons a rest ih =>
    intro h is hg hw
    simp only [InfoStore.addInfos]
    exact ih _ _ (AddInfo_groups_empty G h is a hg) (wellKeyed_AddInfo G h is a hg hw)

/-! ### `Combine` -/

theorem setSeq_self (h : Heap) (p : Ptr) (v : Int) :
    setSeq h p v p = { h p with Seq := v } := by
  simp [setSeq]

theorem setSeq_other (h : Heap) (p q : Ptr) (v : Int) (hq : q ≠ p) :
    setSeq h p v q = h q := by
  simp [setSeq, Function.update_noteq hq]

theorem wrapInt64_of_range (x : Int) (hlo : minInt64 ≤ x) (hhi : x ≤ maxInt64) :
    wrapInt64 x = x := by
  unfold wrapInt64
  unfold minInt64 at hlo
  unfold maxInt64 at hhi
  omega

theorem wrapUint32_of_le (n : Nat) (hn : n ≤ maxUint32) : wrapUint32 n = n := by
  unfold wrapUint32
  unfold maxUint32 at hn
  omega

theorem AddInfo_seqGen (G : GroupOps) (h : Heap) (is : InfoStore) (info : Ptr) :
    (is.AddInfo G h info).2.1.SeqGen = is.SeqGen := by
  unfold InfoStore.AddInfo
  cases is.belongsToGroup (h info).Key with
  | some group =>
    by_cases hb : (G.AddInfo h group info).2 = true
    · simp [hb]
    · simp [hb]
  | none =>
    cases is.Infos.lookup (h info).Key with
    | none => simp
    | some e =>
      by_cases ht : (h info).Timestamp ≤ (h e).Timestamp
      · simp [ht]
      · simp [ht]

theorem combineStamp_self (p : Ptr) (st : Heap × InfoStore) :
    ((InfoStore.combineStamp p st).1 p).Seq = wrapInt64 (st.2.SeqGen + 1) ∧
    ((InfoStore.combineStamp p st).1 p).Hops = wrapUint32 ((st.1 p).Hops + 1) ∧
    sameButSeqHops ((InfoStore.combineStamp p st).1 p) (st.1 p) ∧
    (InfoStore.combineStamp p st).2.SeqGen = wrapInt64 (st.2.SeqGen + 1) := by
  simp [InfoStore.combineStamp, setHops_self, setSeq_self, sameButSeqHops]

theorem combineStamp_other (p q : Ptr) (st : Heap × InfoStore) (hq : q ≠ p) :
    (InfoStore.combineStamp p st).1 q = st.1 q := by
  simp [InfoStore.combineStamp, setHops_other _ _ _ _ hq, setSeq_other _ _ _ _ hq]

theorem combineInfo_error (G : GroupOps) (p : Ptr) (st : Heap × InfoStore) :
    (InfoStore.combineInfo G p st).2 = none := rfl

theorem combineInfo_seqGen (G : GroupOps) (p : Ptr) (st : Heap × InfoStore) :
    (InfoStore.combineInfo G p st).1.2.SeqGen = wrapInt64 (st.2.SeqGen + 1) := by
  simp only [InfoStore.combineInfo]
  rw [AddInfo_seqGen]
  exact (combineStamp_self p st).2.2.2

theorem combineInfo_other (G : GroupOps) (p q : Ptr) (st : Heap × InfoStore) (hq : q ≠ p) :
    (InfoStore.combineInfo G p st).1.1 q = st.1 q := by
  simp only [InfoStore.combineInfo]
  rw [(AddInfo_heap G _ _ p q).2.2 hq]
  exact combineStamp_other p q st hq

theorem combineInfo_seq (G : GroupOps) (p : Ptr) (st : Heap × InfoStore) :
    ((InfoStore.combineInfo G p st).1.1 p).Seq = ((InfoStore.combineStamp p st).1 p).Seq := by
  simp only [InfoStore.combineInfo]
  exact (AddInfo_heap G _ _ p p).1.2.2.2.2.1

theorem visitEach_cons_of_no_error {α σ : Type} (f : α → σ → σ × Option Error)
    (hf : ∀ a st, (f a st).2 = none) (a : α) (rest : List α) (st : σ) :
    visitEach f (a :: rest) st = visitEach f rest (f a st).1 := by
  have hst : f a st = ((f a st).1, none) := by rw [← hf a st]
  simp only [visitEach]
  rw [hst]

theorem visitEach_no_error {α σ : Type} (f : α → σ → σ × Option Error)
    (hf : ∀ a st, (f a st).2 = none) (l : List α) :
    ∀ st, (visitEach f l st).2 = none := by
  induction l with
  | nil => intro st; rfl
  | cons a rest ih =>
    intro st
    rw [visitEach_cons_of_no_error f hf]
    exact ih _

theorem visitEach_append_of_no_error {α σ : Type} (f : α → σ → σ × Option Error)
    (hf : ∀ a st, (f a st).2 = none) (l1 l2 : List α) :
    ∀ st, visitEach f (l1 ++ l2) st = visitEach f l2 (visitEach f l1 st).1 := by
  induction l1 with
  | nil => intro st; rfl
  | cons a rest ih =>
    intro st
    rw [List.cons_append, visitEach_cons_of_no_error f hf, visitEach_cons_of_no_error f hf]
    exact ih _

/-- The loop of `Combine` over `ps`: the generator advances by one per visit,
and no Info outside `ps` is written. -/
theorem visitEach_combineInfo (G : GroupOps) (ps : List Ptr) :
    ∀ st : Heap × InfoStore, minInt64 ≤ st.2.SeqGen → st.2.SeqGen + ps.length ≤ maxInt64 →
      (visitEach (InfoStore.combineInfo G) ps st).1.2.SeqGen = st.2.SeqGen + ps.length ∧
      ∀ q, q ∉ ps → (visitEach (InfoStore.combineInfo G) ps st).1.1 q = st.1 q := by
  induction ps with
  | nil => intro st _ _; simp [visitEach]
  | cons a rest ih =>
    intro st hlo hhi
    rw [visitEach_cons_of_no_error _ (combineInfo_error G)]
    simp only [List.length_cons, Nat.cast_add, Nat.cast_one] at hhi ⊢
    have hsg : (InfoStore.combineInfo G a st).1.2.SeqGen = st.2.SeqGen + 1 := by
      rw [combineInfo_seqGen]
      exact wrapInt64_of_range _ (by omega) (by omega)
    obtain ⟨h1, h2⟩ := ih (InfoStore.combineInfo G a st).1 (by rw [hsg]; omega)
      (by rw [hsg]; omega)
    refine ⟨by rw [h1, hsg]; omega, fun q hq => ?_⟩
    rw [h2 q (fun hm => hq (List.mem_cons_of_mem _ hm))]
    exact combineInfo_other G a q st (fun hqa => hq (hqa ▸ List.mem_cons_self _ _))

theorem Combine_groups_empty (G : GroupOps) (h : Heap) (is delta : InfoStore)
    (hg : delta.Groups = ∅) :
    is.Combine G h delta = visitEach (InfoStore.combineInfo G) (mapValues delta.Infos) (h, is) := by
  unfold InfoStore.Combine
  exact visitInfos_groups_empty _ _ _ _ hg

theorem Combine_offers (G : GroupOps) (h : Heap) (is : InfoStore) (pre post : List Ptr) (p : Ptr)
    (hnd : (pre ++ p :: post).Nodup) (hlo : minInt64 ≤ is.SeqGen)
    (hhi : is.SeqGen + (pre ++ p :: post).length ≤ maxInt64)
    (hhops : (h p).Hops < maxUint32) :
    ((InfoStore.combineStamp p (visitEach (InfoStore.combineInfo G) pre (h, is)).1).1 p).Seq =
      is.SeqGen + (pre.length + 1) ∧
    ((InfoStore.combineStamp p (visitEach (InfoStore.combineInfo G) pre (h, is)).1).1 p).Hops =
      (h p).Hops + 1 ∧
    sameButSeqHops
      ((InfoStore.combineStamp p (visitEach (InfoStore.combineInfo G) pre (h, is)).1).1 p) (h p) ∧
    ((visitEach (InfoStore.combineInfo G) (pre ++ p :: post) (h, is)).1.1 p).Seq =
      is.SeqGen + (pre.length + 1) := by
  simp only [List.length_append, List.length_cons, Nat.cast_add, Nat.cast_one] at hhi
  have hnd' := List.nodup_append.mp hnd
  have hp_pre : p ∉ pre := fun hm => hnd'.2.2 hm (List.mem_cons_self _ _) 
  have hp_post : p ∉ post := (List.nodup_cons.mp hnd'.2.1).1
  obtain ⟨hsg, hheap⟩ := visitEach_combineInfo G pre (h, is) hlo (by simp only; omega)
  simp only at hsg
  have hpre_p : (visitEach (InfoStore.combineInfo G) pre (h, is)).1.1 p = h p := hheap p hp_pre
  obtain ⟨s1, s2, s3, s4⟩ :=
    combineStamp_self p (visitEach (InfoStore.combineInfo G) pre (h, is)).1
  have hseq : ((InfoStore.combineStamp p
      (visitEach (InfoStore.combineInfo G) pre (h, is)).1).1 p).Seq =
      is.SeqGen + (pre.length + 1) := by
    rw [s1, hsg, wrapInt64_of_range _ (by omega) (by omega)]
    omega
  refine ⟨hseq, ?_, ?_, ?_⟩
  · rw [s2, hpre_p]
    exact wrapUint32_of_le _ hhops
  · rw [← hpre_p]; exact s3
  · rw [visitEach_append_of_no_error _ (combineInfo_error G),
      visitEach_cons_of_no_error _ (combineInfo_error G)]
    have hsg' : (InfoStore.combineInfo G p
        (visitEach (InfoStore.combineInfo G) pre (h, is)).1).1.2.SeqGen =
        is.SeqGen + (pre.length + 1) := by
      rw [combineInfo_seqGen, hsg, wrapInt64_of_range _ (by omega) (by omega)]
      omega
    obtain ⟨_, hrest⟩ := visitEach_combineInfo G post
      (InfoStore.combineInfo G p (visitEach (InfoStore.combineInfo G) pre (h, is)).1).1
      (by rw [hsg']; omega) (by rw [hsg']; omega)
    rw [hrest p hp_post, combineInfo_seq, hseq]

/-- C10 as stated fails at the ends of the counters' ranges: an Info whose
`Hops` is the largest `uint32` is offered to `AddInfo` with `Hops` 0, not one
more; and a receiver whose `SeqGen` is the largest `int64` hands out the
smallest `int64` and is left with it. -/
theorem Combine_counters_wrap :
    (heapFar 0).Hops = 4294967295 ∧ mapValues storeFar.Infos = [0] ∧
    ((InfoStore.combineStamp 0 (heapFar, NewInfoStore)).1 0).Hops = 0 ∧
    storeLast.SeqGen = 9223372036854775807 ∧
    ((storeLast.Combine noGroupOps heapFar storeFar).1.1 0).Seq = -9223372036854775808 ∧
    (storeLast.Combine noGroupOps heapFar storeFar).1.2.SeqGen = -9223372036854775808 := by
  decide

/-- C10 (amended): for every receiver and every delta store with no groups that
holds n distinct Info objects, provided the receiver's `SeqGen` is an `int64`
with `SeqGen + n` at most the largest `int64` and every delta Info's `Hops` is
below the largest `uint32`: `Combine` is the loop of its info visitor over the
delta's Infos and returns no error; it leaves the receiver's `SeqGen` at
`oldSeqGen + n`; and the Info visited as number i+1 (after the i Infos of
`pre`) is offered to `AddInfo` with Seq `oldSeqGen + i + 1`, with `Hops` one
more than it had, and otherwise unchanged, and keeps that Seq to the end. -/
theorem Combine_stamps_each (G : GroupOps) (h : Heap) (is delta : InfoStore)
    (hg : delta.Groups = ∅) (hnd : (mapValues delta.Infos).Nodup)
    (hlo : minInt64 ≤ is.SeqGen)
    (hhi : is.SeqGen + (mapValues delta.Infos).length ≤ maxInt64)
    (hhops : ∀ p ∈ mapValues delta.Infos, (h p).Hops < maxUint32) :
    is.Combine G h delta =
      visitEach (InfoStore.combineInfo G) (mapValues delta.Infos) (h, is) ∧
    (is.Combine G h delta).2 = none ∧
    (is.Combine G h delta).1.2.SeqGen = is.SeqGen + (mapValues delta.Infos).length ∧
    ∀ pre p post, mapValues delta.Infos = pre ++ p :: post →
      ((InfoStore.combineStamp p (visitEach (InfoStore.combineInfo G) pre (h, is)).1).1 p).Seq =
        is.SeqGen + (pre.length + 1) ∧
      ((InfoStore.combineStamp p (visitEach (InfoStore.combineInfo G) pre (h, is)).1).1 p).Hops =
        (h p).Hops + 1 ∧
      sameButSeqHops
        ((InfoStore.combineStamp p (visitEach (InfoStore.combineInfo G) pre (h, is)).1).1 p)
        (h p) ∧
      ((is.Combine G h delta).1.1 p).Seq = is.SeqGen + (pre.length + 1) := by
  have hC := Combine_groups_empty G h is delta hg
  refine ⟨hC, ?_, ?_, fun pre p post hsplit => ?_⟩
  · rw [hC]; exact visitEach_no_error _ (combineInfo_error G) _ _
  · rw [hC]; exact (visitEach_combineInfo G _ (h, is) hlo hhi).1
  · rw [hC, hsplit]
    rw [hsplit] at hnd hhi
    exact Combine_offers G h is pre post p hnd hlo hhi
      (hhops p (by rw [hsplit]; exact List.mem_append_right _ (List.mem_cons_self _ _)))

/-- Combining the store of three Infos into an empty store leaves `SeqGen` 3. -/
theorem Combine_stamps_each_witness :
    storeThree.Groups = ∅ ∧ (mapValues storeThree.Infos).Nodup ∧
    minInt64 ≤ NewInfoStore.SeqGen ∧
    NewInfoStore.SeqGen + (mapValues storeThree.Infos).length ≤ maxInt64 ∧
    (∀ p ∈ mapValues storeThree.Infos, (heapThree p).Hops < maxUint32) ∧
    (NewInfoStore.Combine noGroupOps heapThree storeThree).2 = none ∧
    (NewInfoStore.Combine noGroupOps heapThree storeThree).1.2.SeqGen =
      NewInfoStore.SeqGen + (mapValues storeThree.Infos).length :=
  ⟨rfl, by decide, by decide, by decide, by decide,
    (Combine_stamps_each noGroupOps heapThree NewInfoStore storeThree rfl (by decide) (by decide)
      (by decide) (by decide)).2.1,
    (Combine_stamps_each noGroupOps heapThree NewInfoStore storeThree rfl (by decide) (by decide)
      (by decide) (by decide)).2.2.1⟩

/-! ### Invariant I3 -/

theorem mem_heldPtrs (is : InfoStore) (p : Ptr) :
    p ∈ heldPtrs is ↔
      (∃ g ∈ mapValues is.Groups, p ∈ mapValues g.Infos) ∨ p ∈ mapValues is.Infos := by
  simp [heldPtrs, List.mem_flatMap]

theorem mem_mapValues_insert {β : Type} (m : AList (fun _ : String => β)) (k : String) (v b : β)
    (hb : b ∈ mapValues (m.insert k v)) : b = v ∨ b ∈ mapValues m := by
  obtain ⟨k', hk'⟩ := (mem_mapValues_iff _ _).mp hb
  by_cases hkk : k' = k
  · rw [hkk, AList.lookup_insert] at hk'
    exact Or.inl (Option.some.inj hk').symm
  · rw [AList.lookup_insert_ne hkk] at hk'
    exact Or.inr ((mem_mapValues_iff _ _).mpr ⟨k', hk'⟩)

theorem mem_mapValues_erase {β : Type} (m : AList (fun _ : String => β)) (k : String) (b : β)
    (hb : b ∈ mapValues (m.erase k)) : b ∈ mapValues m := by
  obtain ⟨k', hk'⟩ := (mem_mapValues_iff _ _).mp hb
  by_cases hkk : k' = k
  · rw [hkk, AList.lookup_erase] at hk'
    exact Option.noConfusion hk'
  · rw [AList.lookup_erase_ne hkk] at hk'
    exact (mem_mapValues_iff _ _).mpr ⟨k', hk'⟩

/-- `AddInfo` brings no Info into the store but the one offered, and that one
only when it returns true. -/
theorem AddInfo_held (G : GroupOps) (hG : G.Admits) (h : Heap) (is : InfoStore) (info p : Ptr)
    (hp : p ∈ heldPtrs (is.AddInfo G h info).2.1) :
    p ∈ heldPtrs is ∨ (p = info ∧ (is.AddInfo G h info).2.2 = true) := by
  rw [mem_heldPtrs] at hp
  rcases hp with ⟨g, hg, hpg⟩ | hp
  · cases hb : is.belongsToGroup (h info).Key with
    | none =>
      have hgr : (is.AddInfo G h info).2.1.Groups = is.Groups := by
        unfold InfoStore.AddInfo
        rw [hb]
        cases is.Infos.lookup (h info).Key with
        | none => rfl
        | some e =>
          by_cases ht : (h info).Timestamp ≤ (h e).Timestamp
          · simp [ht]
          · simp [ht]
      rw [hgr] at hg
      exact Or.inl ((mem_heldPtrs is p).mpr (Or.inl ⟨g, hg, hpg⟩))
    | some group =>
      have hmem : group ∈ mapValues is.Groups :=
        (mem_mapValues_iff _ _).mpr ⟨_, hb⟩
      have hgr : (is.AddInfo G h info).2.1.Groups =
          is.Groups.insert (infoPrefix (h info).Key) (G.AddInfo h group info).1 := by
        unfold InfoStore.AddInfo
        rw [hb]
        by_cases hr : (G.AddInfo h group info).2 = true
        · simp [hr]
        · simp [hr]
      have hres : (is.AddInfo G h info).2.2 = (G.AddInfo h group info).2 := by
        unfold InfoStore.AddInfo
        rw [hb]
        by_cases hr : (G.AddInfo h group info).2 = true
        · simp [hr]
        · simp [hr]
      rw [hgr] at hg
      rcases mem_mapValues_insert _ _ _ _ hg with hg | hg
      · rw [hg] at hpg
        rcases hG.addInfo h group info p hpg with hpg | ⟨hpi, hok⟩
        · exact Or.inl ((mem_heldPtrs is p).mpr (Or.inl ⟨group, hmem, hpg⟩))
        · exact Or.inr ⟨hpi, by rw [hres]; exact hok⟩
      · exact Or.inl ((mem_heldPtrs is p).mpr (Or.inl ⟨g, hg, hpg⟩))
  · rcases AddInfo_infos_mem G h is info p hp with hp | hp
    · exact Or.inl ((mem_heldPtrs is p).mpr (Or.inr hp))
    · exact Or.inr hp

theorem AddInfo_maxSeqBounds (G : GroupOps) (hG : G.Admits) (h : Heap) (is : InfoStore)
    (info : Ptr) (hI : MaxSeqBounds h is) :
    MaxSeqBounds (is.AddInfo G h info).1 (is.AddInfo G h info).2.1 := by
  intro p hp
  rw [(AddInfo_heap G h is info p).1.2.2.2.2.1]
  rcases AddInfo_held G hG h is info p hp with hp | ⟨hpi, hr⟩
  · exact le_trans (hI p hp) (AddInfo_maxSeq_le G h is info)
  · rw [AddInfo_maxSeq, hr, hpi]
    simp only [if_true]
    split_ifs <;> omega

theorem RegisterGroup_held (is : InfoStore) (group : Group) (hE : mapValues group.Infos = [])
    (p : Ptr) (hp : p ∈ heldPtrs (is.RegisterGroup group).1) : p ∈ heldPtrs is := by
  unfold InfoStore.RegisterGroup at hp
  cases hl : is.Groups.lookup group.Prefix with
  | some g => rw [hl] at hp; exact hp
  | none =>
    rw [hl] at hp
    rw [mem_heldPtrs] at hp ⊢
    rcases hp with ⟨g, hg, hpg⟩ | hp
    · rcases mem_mapValues_insert _ _ _ _ hg with hg | hg
      · rw [hg, hE] at hpg
        simp at hpg
      · exact Or.inl ⟨g, hg, hpg⟩
    · exact Or.inr hp

theorem RegisterGroup_maxSeq (is : InfoStore) (group : Group) :
    (is.RegisterGroup group).1.MaxSeq = is.MaxSeq := by
  unfold InfoStore.RegisterGroup
  cases is.Groups.lookup group.Prefix <;> rfl

theorem RegisterGroup_maxSeqBounds (h : Heap) (is : InfoStore) (group : Group)
    (hE : mapValues group.Infos = []) (hI : MaxSeqBounds h is) :
    MaxSeqBounds h (is.RegisterGroup group).1 := by
  intro p hp
  rw [RegisterGroup_maxSeq]
  exact hI p (RegisterGroup_held is group hE p hp)

theorem GetInfo_held (G : GroupOps) (hG : G.Admits) (h : Heap) (now : Int) (is : InfoStore)
    (key : String) (p : Ptr) (hp : p ∈ heldPtrs (is.GetInfo G h now key).1) :
    p ∈ heldPtrs is := by
  unfold InfoStore.GetInfo at hp
  cases hb : is.belongsToGroup key with
  | some group =>
    rw [hb] at hp
    have hmem : group ∈ mapValues is.Groups := (mem_mapValues_iff _ _).mpr ⟨_, hb⟩
    rw [mem_heldPtrs] at hp ⊢
    rcases hp with ⟨g, hg, hpg⟩ | hp
    · rcases mem_mapValues_insert _ _ _ _ hg with hg | hg
      · rw [hg] at hpg
        exact Or.inl ⟨group, hmem, hG.getInfo h now group key p hpg⟩
      · exact Or.inl ⟨g, hg, hpg⟩
    · exact Or.inr hp
  | none =>
    rw [hb] at hp
    cases hl : is.Infos.lookup key with
    | none => rw [hl] at hp; exact hp
    | some info =>
      rw [hl] at hp
      by_cases ht : (h info).TTLStamp ≤ now
      · simp only [ht, if_true] at hp
        rw [mem_heldPtrs] at hp ⊢
        rcases hp with hp | hp
        · exact Or.inl hp
        · exact Or.inr (mem_mapValues_erase _ _ _ hp)
      · simp only [ht, if_false] at hp
        exact hp

theorem GetInfo_maxSeq (G : GroupOps) (h : Heap) (now : Int) (is : InfoStore) (key : String) :
    (is.GetInfo G h now key).1.MaxSeq = is.MaxSeq := by
  unfold InfoStore.GetInfo
  cases is.belongsToGroup key with
  | some group => rfl
  | none =>
    cases is.Infos.lookup key with
    | none => rfl
    | some info =>
      by_cases ht : (h info).TTLStamp ≤ now
      · simp [ht]
      · simp [ht]

theorem GetInfo_maxSeqBounds (G : GroupOps) (hG : G.Admits) (h : Heap) (now : Int)
    (is : InfoStore) (key : String) (hI : MaxSeqBounds h is) :
    MaxSeqBounds h (is.GetInfo G h now key).1 := by
  intro p hp
  rw [GetInfo_maxSeq]
  exact hI p (GetInfo_held G hG h now is key p hp)

theorem visitGroupInfos_error {σ : Type} (vg : Group → σ → σ × Option Error)
    (vi : Ptr → σ → σ × Option Error) (g : Group) (st st1 : σ) (err : Error)
    (hv : vg g st = (st1, some err)) :
    visitGroupInfos (some vg) (some vi) g st = (st1, some err) := by
  simp only [visitGroupInfos, hv]

theorem visitGroupInfos_ok {σ : Type} (vg : Group → σ → σ × Option Error)
    (vi : Ptr → σ → σ × Option Error) (g : Group) (st st1 : σ)
    (hv : vg g st = (st1, none)) :
    visitGroupInfos (some vg) (some vi) g st = visitEach vi (mapValues g.Infos) st1 := by
  simp only [visitGroupInfos, hv]

theorem visitEach_cons_error {α σ : Type} (f : α → σ → σ × Option Error) (a : α)
    (rest : List α) (st st1 : σ) (err : Error) (hv : f a st = (st1, some err)) :
    visitEach f (a :: rest) st = (st1, some err) := by
  simp only [visitEach, hv]

theorem visitEach_cons_ok {α σ : Type} (f : α → σ → σ × Option Error) (a : α)
    (rest : List α) (st st1 : σ) (hv : f a st = (st1, none)) :
    visitEach f (a :: rest) st = visitEach f rest st1 := by
  simp only [visitEach, hv]

theorem visitInfos_error {σ : Type} (is : InfoStore) (vg : Group → σ → σ × Option Error)
    (vi : Ptr → σ → σ × Option Error) (st st1 : σ) (err : Error)
    (hv : visitEach (visitGroupInfos (some vg) (some vi)) (mapValues is.Groups) st =
      (st1, some err)) :
    is.visitInfos (some vg) (some vi) st = (st1, some err) := by
  simp only [InfoStore.visitInfos, hv]

theorem visitInfos_ok {σ : Type} (is : InfoStore) (vg : Group → σ → σ × Option Error)
    (vi : Ptr → σ → σ × Option Error) (st st1 : σ)
    (hv : visitEach (visitGroupInfos (some vg) (some vi)) (mapValues is.Groups) st =
      (st1, none)) :
    is.visitInfos (some vg) (some vi) st = visitEach vi (mapValues is.Infos) st1 := by
  simp only [InfoStore.visitInfos, hv]

theorem combineStamp_store (p : Ptr) (st : Heap × InfoStore) :
    heldPtrs (InfoStore.combineStamp p st).2 = heldPtrs st.2 ∧
    (InfoStore.combineStamp p st).2.MaxSeq = st.2.MaxSeq := by
  simp [InfoStore.combineStamp, heldPtrs]

theorem combineInfo_pending (G : GroupOps) (hG : G.Admits) (p : Ptr) (rest : List Ptr)
    (st : Heap × InfoStore) (hJ : Pending (p :: rest) st) :
    Pending rest (InfoStore.combineInfo G p st).1 := by
  obtain ⟨hI, hnd, hnot⟩ := hJ
  have hnd' := List.nodup_cons.mp hnd
  have hp : p ∉ heldPtrs st.2 := hnot p (List.mem_cons_self _ _)
  have hIs : MaxSeqBounds (InfoStore.combineStamp p st).1 (InfoStore.combineStamp p st).2 := by
    intro q hq
    rw [(combineStamp_store p st).1] at hq
    rw [(combineStamp_store p st).2, combineStamp_other p q st (fun hqp => hp (hqp ▸ hq))]
    exact hI q hq
  refine ⟨AddInfo_maxSeqBounds G hG _ _ p hIs, hnd'.2, fun q hq hheld => ?_⟩
  rcases AddInfo_held G hG _ _ p q hheld with hh | ⟨hqp, _⟩
  · rw [(combineStamp_store p st).1] at hh
    exact hnot q (List.mem_cons_of_mem _ hq) hh
  · exact hnd'.1 (hqp ▸ hq)

theorem visitEach_combineInfo_pending (G : GroupOps) (hG : G.Admits) (ps tail : List Ptr) :
    ∀ st : Heap × InfoStore, Pending (ps ++ tail) st →
      Pending tail (visitEach (InfoStore.combineInfo G) ps st).1 := by
  induction ps with
  | nil => intro st hJ; exact hJ
  | cons a rest ih =>
    intro st hJ
    rw [visitEach_cons_of_no_error _ (combineInfo_error G)]
    exact ih _ (combineInfo_pending G hG a (rest ++ tail) st hJ)

theorem combineGroup_pending (G : GroupOps) (hG : G.Admits) (g : Group) (l : List Ptr)
    (st : Heap × InfoStore) (hJ : Pending l st) :
    Pending l (InfoStore.combineGroup G g st).1 := by
  unfold InfoStore.combineGroup
  cases st.2.Groups.lookup g.Prefix with
  | some _ => exact hJ
  | none =>
    cases hn : G.NewGroup g.Prefix g.Limit g.TypeOf with
    | error err => exact hJ
    | ok groupCopy =>
      obtain ⟨hI, hnd, hnot⟩ := hJ
      have hE := hG.newGroup _ _ _ _ hn
      exact ⟨RegisterGroup_maxSeqBounds st.1 st.2 groupCopy hE hI, hnd,
        fun p hp hheld => hnot p hp (RegisterGroup_held st.2 groupCopy hE p hheld)⟩

theorem visitGroupInfos_combine_pending (G : GroupOps) (hG : G.Admits) (g : Group)
    (tail : List Ptr) (st : Heap × InfoStore) (hJ : Pending (mapValues g.Infos ++ tail) st) :
    MaxSeqBounds
        (visitGroupInfos (some (InfoStore.combineGroup G)) (some (InfoStore.combineInfo G)) g
          st).1.1
        (visitGroupInfos (some (InfoStore.combineGroup G)) (some (InfoStore.combineInfo G)) g
          st).1.2 ∧
      ((visitGroupInfos (some (InfoStore.combineGroup G)) (some (InfoStore.combineInfo G)) g
          st).2 = none →
        Pending tail
          (visitGroupInfos (some (InfoStore.combineGroup G)) (some (InfoStore.combineInfo G)) g
            st).1) := by
  have hJ1 := combineGroup_pending G hG g _ st hJ
  cases hc : InfoStore.combineGroup G g st with
  | mk st1 e =>
    rw [hc] at hJ1
    cases e with
    | some err =>
      rw [visitGroupInfos_error _ _ g st st1 err hc]
      exact ⟨hJ1.1, fun hn => Option.noConfusion hn⟩
    | none =>
      rw [visitGroupInfos_ok _ _ g st st1 hc]
      have hJ2 := visitEach_combineInfo_pending G hG (mapValues g.Infos) tail st1 hJ1
      exact ⟨hJ2.1, fun _ => hJ2⟩

theorem visitEach_groups_combine_pending (G : GroupOps) (hG : G.Admits) (tail : List Ptr)
    (gs : List Group) :
    ∀ st : Heap × InfoStore,
      Pending (gs.flatMap (fun g => mapValues g.Infos) ++ tail) st →
      MaxSeqBounds
          (visitEach (visitGroupInfos (some (InfoStore.combineGroup G))
            (some (InfoStore.combineInfo G))) gs st).1.1
          (visitEach (visitGroupInfos (some (InfoStore.combineGroup G))
            (some (InfoStore.combineInfo G))) gs st).1.2 ∧
        ((visitEach (visitGroupInfos (some (InfoStore.combineGroup G))
            (some (InfoStore.combineInfo G))) gs st).2 = none →
          Pending tail
            (visitEach (visitGroupInfos (some (InfoStore.combineGroup G))
              (some (InfoStore.combineInfo G))) gs st).1) := by
  induction gs with
  | nil => intro st hJ; exact ⟨hJ.1, fun _ => hJ⟩
  | cons g rest ih =>
    intro st hJ
    rw [List.flatMap_cons, List.append_assoc] at hJ
    obtain ⟨h1, h2⟩ := visitGroupInfos_combine_pending G hG g _ st hJ
    cases hv : visitGroupInfos (some (InfoStore.combineGroup G))
        (some (InfoStore.combineInfo G)) g st with
    | mk st1 e =>
      rw [hv] at h1 h2
      cases e with
      | some err =>
        rw [visitEach_cons_error _ g rest st st1 err hv]
        exact ⟨h1, fun hn => Option.noConfusion hn⟩
      | none =>
        rw [visitEach_cons_ok _ g rest st st1 hv]
        exact ih st1 (h2 rfl)

theorem Combine_maxSeqBounds (G : GroupOps) (hG : G.Admits) (h : Heap) (is delta : InfoStore)
    (hJ : Pending (heldPtrs delta) (h, is)) :
    MaxSeqBounds (is.Combine G h delta).1.1 (is.Combine G h delta).1.2 := by
  obtain ⟨h1, h2⟩ := visitEach_groups_combine_pending G hG (mapValues delta.Infos)
    (mapValues delta.Groups) (h, is) hJ
  unfold InfoStore.Combine
  cases hv : visitEach (visitGroupInfos (some (InfoStore.combineGroup G))
      (some (InfoStore.combineInfo G))) (mapValues delta.Groups) (h, is) with
  | mk st1 e =>
    rw [hv] at h1 h2
    cases e with
    | some err =>
      rw [visitInfos_error delta _ _ (h, is) st1 err hv]
      exact h1
    | none =>
      rw [visitInfos_ok delta _ _ (h, is) st1 hv]
      have h3 := h2 rfl
      rw [← List.append_nil (mapValues delta.Infos)] at h3
      exact (visitEach_combineInfo_pending G hG _ [] st1 h3).1

theorem visitEach_invariant {α σ : Type} (I : σ → Prop) (f : α → σ → σ × Option Error)
    (hf : ∀ a st, I st → I (f a st).1) (l : List α) :
    ∀ st, I st → I (visitEach f l st).1 := by
  induction l with
  | nil => intro st hI; exact hI
  | cons a rest ih =>
    intro st hI
    have h1 := hf a st hI
    cases hv : f a st with
    | mk st1 e =>
      rw [hv] at h1
      cases e with
      | some err => rw [visitEach_cons_error f a rest st st1 err hv]; exact h1
      | none => rw [visitEach_cons_ok f a rest st st1 hv]; exact ih st1 h1

theorem visitInfos_invariant {σ : Type} (I : σ → Prop) (is : InfoStore)
    (vg : Group → σ → σ × Option Error) (vi : Ptr → σ → σ × Option Error)
    (hvg : ∀ g st, I st → I (vg g st).1) (hvi : ∀ p st, I st → I (vi p st).1)
    (st : σ) (hI : I st) : I (is.visitInfos (some vg) (some vi) st).1 := by
  have hstep : ∀ g st, I st → I (visitGroupInfos (some vg) (some vi) g st).1 := by
    intro g st hI
    have h1 := hvg g st hI
    cases hv : vg g st with
    | mk st1 e =>
      rw [hv] at h1
      cases e with
      | some err => rw [visitGroupInfos_error vg vi g st st1 err hv]; exact h1
      | none =>
        rw [visitGroupInfos_ok vg vi g st st1 hv]
        exact visitEach_invariant I vi hvi _ st1 h1
  have h1 := visitEach_invariant I _ hstep (mapValues is.Groups) st hI
  cases hv : visitEach (visitGroupInfos (some vg) (some vi)) (mapValues is.Groups) st with
  | mk st1 e =>
    rw [hv] at h1
    cases e with
    | some err => rw [visitInfos_error is vg vi st st1 err hv]; exact h1
    | none =>
      rw [visitInfos_ok is vg vi st st1 hv]
      exact visitEach_invariant I vi hvi _ st1 h1

theorem deltaGroup_maxSeqBounds (G : GroupOps) (hG : G.Admits) (g : Group)
    (st : Heap × InfoStore) (hI : MaxSeqBounds st.1 st.2) :
    MaxSeqBounds (InfoStore.deltaGroup G g st).1.1 (InfoStore.deltaGroup G g st).1.2 := by
  unfold InfoStore.deltaGroup
  cases hn : G.NewGroup g.Prefix g.Limit g.TypeOf with
  | error err => exact hI
  | ok dg => exact RegisterGroup_maxSeqBounds st.1 st.2 dg (hG.newGroup _ _ _ _ hn) hI

theorem deltaInfo_maxSeqBounds (G : GroupOps) (hG : G.Admits) (seq : Int) (p : Ptr)
    (st : Heap × InfoStore) (hI : MaxSeqBounds st.1 st.2) :
    MaxSeqBounds (InfoStore.deltaInfo G seq p st).1.1 (InfoStore.deltaInfo G seq p st).1.2 := by
  unfold InfoStore.deltaInfo
  by_cases hs : (st.1 p).Seq > seq
  · simp only [hs, if_true]
    exact AddInfo_maxSeqBounds G hG st.1 st.2 p hI
  · simp only [hs, if_false]
    exact hI

theorem Delta_maxSeqBounds (G : GroupOps) (hG : G.Admits) (h : Heap) (is : InfoStore)
    (seq : Int) (d : InfoStore) (hd : (is.Delta G h seq).2.1 = some d) :
    MaxSeqBounds (is.Delta G h seq).1 d := by
  by_cases hs : seq ≥ is.MaxSeq
  · rw [Delta_no_deltas G h is seq hs] at hd
    exact Option.noConfusion hd
  · have h0 : MaxSeqBounds (h, ({ NewInfoStore with SeqGen := is.SeqGen } : InfoStore)).1
        (h, ({ NewInfoStore with SeqGen := is.SeqGen } : InfoStore)).2 := by
      intro p hp
      simp [heldPtrs, NewInfoStore, mapValues] at hp
    have hv := visitInfos_invariant (fun st : Heap × InfoStore => MaxSeqBounds st.1 st.2) is
      (InfoStore.deltaGroup G) (InfoStore.deltaInfo G seq)
      (deltaGroup_maxSeqBounds G hG) (deltaInfo_maxSeqBounds G hG seq) _ h0
    simp only [InfoStore.Delta, hs, if_false] at hd ⊢
    cases Option.some.inj hd
    exact hv

theorem capGroupOps_admits : capGroupOps.Admits where
  newGroup := by
    intro pre limit typeOf g hg
    simp only [capGroupOps] at hg
    by_cases hl : limit ≤ 0
    · simp [hl] at hg
    · simp only [hl, if_false] at hg
      cases hg
      rfl
  addInfo := by
    intro h g info p hp
    simp only [capGroupOps] at hp ⊢
    by_cases hl : (g.Infos.entries.length : Int) < g.Limit
    · simp only [hl, if_true] at hp ⊢
      rcases mem_mapValues_insert _ _ _ _ hp with hp | hp
      · exact Or.inr ⟨hp, trivial⟩
      · exact Or.inl hp
    · simp only [hl, if_false] at hp
      exact Or.inl hp
  getInfo := by
    intro h now g key p hp
    exact hp

/-- C6 as stated fails in three ways. A store that added three Infos
(`MaxSeq` 3) hands its `Delta(0)` to a peer whose generator stands at 40: the
peer's `Combine` writes the Info objects the store holds, and the store is left
holding Infos of Seq above 40 with `MaxSeq` 3. A store that combines its own
delta (`Delta` hands out the very pointers the store holds) has the Seq of its
Info rewritten to 1 while `AddInfo` rejects the Info as not newer and leaves
`MaxSeq` at 0. And `RegisterGroup` of a group that already holds an Info of
Seq 5 leaves `MaxSeq` at 0. -/
theorem MaxSeq_below_held_seq :
    Reachable noGroupOps heapThree storeThree ∧
    0 ∈ heldPtrs storeThree ∧ storeThree.MaxSeq = 3 ∧
    0 ∈ heldPtrs deltaThree ∧
    storeThree.MaxSeq < ((storeForty.Combine noGroupOps heapThree deltaThree).1.1 0).Seq ∧
    heldPtrs deltaAlias = [0] ∧
    0 ∈ heldPtrs (storeAlias.Combine noGroupOps heapAlias deltaAlias).1.2 ∧
    ((storeAlias.Combine noGroupOps heapAlias deltaAlias).1.1 0).Seq = 1 ∧
    (storeAlias.Combine noGroupOps heapAlias deltaAlias).1.2.MaxSeq = 0 ∧
    1 ∈ heldPtrs (NewInfoStore.RegisterGroup groupSeeded).1 ∧
    (heapAlias 1).Seq = 5 ∧
    (NewInfoStore.RegisterGroup groupSeeded).1.MaxSeq = 0 :=
  ⟨Reachable.addInfo 2 (Reachable.addInfo 1 (Reachable.addInfo 0
      (Reachable.newInfoStore heapThree))),
    by decide, by decide, by decide, by decide, by decide, by decide, by decide, by decide,
    by decide, by decide, by decide⟩

theorem maxSeqBounds_of_reachableAmong (G : GroupOps) (hG : G.Admits) (h : Heap)
    (is : InfoStore) (hr : ReachableAmong G h is) : MaxSeqBounds h is := by
  induction hr with
  | newInfoStore h =>
    intro p hp
    simp [heldPtrs, NewInfoStore, mapValues] at hp
  | addInfo info _ ih => exact AddInfo_maxSeqBounds G hG _ _ info ih
  | registerGroup group hE _ ih => exact RegisterGroup_maxSeqBounds _ _ group hE ih
  | getInfo now key _ ih => exact GetInfo_maxSeqBounds G hG _ now _ key ih
  | combine delta hnd hnot _ ih => exact Combine_maxSeqBounds G hG _ _ delta ⟨ih, hnd, hnot⟩
  | write h1 hw _ ih =>
    intro p hp
    rw [hw p hp]
    exact ih p hp

/-- C6 (amended): for a Group collaborator whose new groups hold no Info and
whose `AddInfo` and `GetInfo` bring no Info into a group but the one offered
and admitted: in every store reached from `NewInfoStore()` by `AddInfo`, by
`RegisterGroup` of a group that holds no Info, by `GetInfo`, and by `Combine`
(as receiver) of a delta that holds each of its Info objects once and none
that the receiver holds, while nothing else in the program writes an Info
object that the store holds (other Info objects may be written at any time),
and in every store that `Delta` returns on such a store, when it is returned,
`MaxSeq` is at least the Seq of every Info held in `Infos` or inside a
registered group. -/
theorem MaxSeq_bounds_reachable (G : GroupOps) (hG : G.Admits) (h : Heap) (is : InfoStore)
    (hr : ReachableAmong G h is) :
    MaxSeqBounds h is ∧
    ∀ seq d, (is.Delta G h seq).2.1 = some d → MaxSeqBounds (is.Delta G h seq).1 d :=
  ⟨maxSeqBounds_of_reachableAmong G hG h is hr,
    fun seq d hd => Delta_maxSeqBounds G hG h is seq d hd⟩

/-- Registering the empty group `node`, adding the Info of key `node.status`,
of Seq 5, and a write by someone else of the Seq of the Info of key `a`, which
the store does not hold: `MaxSeq` is 5 and bounds the Seq of the Info held. -/
theorem MaxSeq_bounds_reachable_witness :
    capGroupOps.Admits ∧
    ReachableAmong capGroupOps
      (setSeq ((NewInfoStore.RegisterGroup groupNode).1.AddInfo capGroupOps heapAlias 1).1 0 99)
      ((NewInfoStore.RegisterGroup groupNode).1.AddInfo capGroupOps heapAlias 1).2.1 ∧
    heldPtrs ((NewInfoStore.RegisterGroup groupNode).1.AddInfo capGroupOps heapAlias 1).2.1 = [1] ∧
    ((NewInfoStore.RegisterGroup groupNode).1.AddInfo capGroupOps heapAlias 1).2.1.MaxSeq = 5 ∧
    MaxSeqBounds
      (setSeq ((NewInfoStore.RegisterGroup groupNode).1.AddInfo capGroupOps heapAlias 1).1 0 99)
      ((NewInfoStore.RegisterGroup groupNode).1.AddInfo capGroupOps heapAlias 1).2.1 :=
  ⟨capGroupOps_admits,
    ReachableAmong.write _ (by decide)
      (ReachableAmong.addInfo 1
        (ReachableAmong.registerGroup groupNode rfl (ReachableAmong.newInfoStore heapAlias))),
    by decide, by decide,
    (MaxSeq_bounds_reachable capGroupOps capGroupOps_admits _ _
      (ReachableAmong.write
        (setSeq ((NewInfoStore.RegisterGroup groupNode).1.AddInfo capGroupOps heapAlias 1).1 0 99)
        (by decide)
        (ReachableAmong.addInfo 1
          (ReachableAmong.registerGroup groupNode rfl
            (ReachableAmong.newInfoStore heapAlias))))).1⟩

/-! ### `GetInfo` -/

theorem GetInfo_ungrouped (G : GroupOps) (h : Heap) (now : Int) (is : InfoStore) (key : String)
    (hg : infoPrefix key ∉ is.Groups) :
    (∀ info, is.Infos.lookup key = some info → (h info).TTLStamp ≤ now →
      (is.GetInfo G h now key).2 = none ∧
      key ∉ (is.GetInfo G h now key).1.Infos ∧
      (∀ k, k ≠ key → (is.GetInfo G h now key).1.Infos.lookup k = is.Infos.lookup k) ∧
      (is.GetInfo G h now key).1.Groups = is.Groups ∧
      (is.GetInfo G h now key).1.MaxSeq = is.MaxSeq ∧
      (is.GetInfo G h now key).1.SeqGen = is.SeqGen) ∧
    (∀ info, is.Infos.lookup key = some info → now < (h info).TTLStamp →
      is.GetInfo G h now key = (is, some info)) ∧
    (key ∉ is.Infos → is.GetInfo G h now key = (is, none)) := by
  have hb : is.belongsToGroup key = none := lookup_groups_none hg
  refine ⟨fun info hl ht => ?_, fun info hl ht => ?_, fun hn => ?_⟩
  · simp only [InfoStore.GetInfo, hb, hl, ht, if_true]
    refine ⟨trivial, ?_, fun k hk => AList.lookup_erase_ne hk, trivial, trivial, trivial⟩
    rw [← AList.lookup_eq_none]
    exact AList.lookup_erase _ _
  · have ht' : ¬ (h info).TTLStamp ≤ now := not_le.mpr ht
    simp only [InfoStore.GetInfo, hb, hl, ht', if_false]
  · simp only [InfoStore.GetInfo, hb, AList.lookup_eq_none.mpr hn]

/-- C13: for a key whose prefix is not a registered group and any clock
reading `now`: if `Infos` holds an Info under the key with `TTLStamp <= now`,
`GetInfo` returns nil and removes the key, leaving every other key, `Groups`,
`MaxSeq` and `SeqGen` as they were; if it holds one with `TTLStamp > now`,
`GetInfo` returns it and leaves the store unchanged; if the key is not in
`Infos`, `GetInfo` returns nil and leaves the store unchanged. -/
theorem GetInfo_expires_on_read (G : GroupOps) (h : Heap) (now : Int) (is : InfoStore)
    (key : String) (hg : infoPrefix key ∉ is.Groups) :
    (∀ info, is.Infos.lookup key = some info → (h info).TTLStamp ≤ now →
      (is.GetInfo G h now key).2 = none ∧
      key ∉ (is.GetInfo G h now key).1.Infos ∧
      (∀ k, k ≠ key → (is.GetInfo G h now key).1.Infos.lookup k = is.Infos.lookup k) ∧
      (is.GetInfo G h now key).1.Groups = is.Groups ∧
      (is.GetInfo G h now key).1.MaxSeq = is.MaxSeq ∧
      (is.GetInfo G h now key).1.SeqGen = is.SeqGen) ∧
    (∀ info, is.Infos.lookup key = some info → now < (h info).TTLStamp →
      is.GetInfo G h now key = (is, some info)) ∧
    (key ∉ is.Infos → is.GetInfo G h now key = (is, none)) :=
  GetInfo_ungrouped G h now is key hg

/-- The store of three Infos with `TTLStamp` 100: read at 100, key `a` is
expired and removed; the key `b` stays. -/
theorem GetInfo_expires_on_read_witness :
    infoPrefix "a" ∉ storeThree.Groups ∧ storeThree.Infos.lookup "a" = some 0 ∧
    (heapThree 0).TTLStamp ≤ 100 ∧
    (storeThree.GetInfo noGroupOps heapThree 100 "a").2 = none ∧
    "a" ∉ (storeThree.GetInfo noGroupOps heapThree 100 "a").1.Infos ∧
    (storeThree.GetInfo noGroupOps heapThree 100 "a").1.Infos.lookup "b" = some 1 :=
  ⟨by decide, by decide, by decide,
    ((GetInfo_expires_on_read noGroupOps heapThree 100 storeThree "a" (by decide)).1 0
      (by decide) (by decide)).1,
    ((GetInfo_expires_on_read noGroupOps heapThree 100 storeThree "a" (by decide)).1 0
      (by decide) (by decide)).2.1,
    by decide⟩

/-! ### `AddInfo` on a key with a group -/

theorem AddInfo_grouped (G : GroupOps) (h : Heap) (is : InfoStore) (info : Ptr) (group : Group)
    (hreg : is.Groups.lookup (infoPrefix (h info).Key) = some group) :
    (is.AddInfo G h info).2.2 = (G.AddInfo h group info).2 ∧
    (is.AddInfo G h info).2.1.Infos = is.Infos ∧
    (is.AddInfo G h info).1 = h ∧
    (is.AddInfo G h info).2.1.Groups =
      is.Groups.insert (infoPrefix (h info).Key) (G.AddInfo h group info).1 ∧
    (is.AddInfo G h info).2.1.SeqGen = is.SeqGen ∧
    ((G.AddInfo h group info).2 = false → (is.AddInfo G h info).2.1.MaxSeq = is.MaxSeq) ∧
    ((G.AddInfo h group info).2 = true →
      (is.AddInfo G h info).2.1.MaxSeq =
        if (h info).Seq > is.MaxSeq then (h info).Seq else is.MaxSeq) := by
  have hb : is.belongsToGroup (h info).Key = some group := hreg
  unfold InfoStore.AddInfo
  rw [hb]
  by_cases hr : (G.AddInfo h group info).2 = true
  · simp [hr]
  · simp [hr]

/-- C16 (group exclusivity): in a store where a group is registered under the
prefix of the Info's key, `AddInfo` returns exactly the group's admission
result, leaves the ungrouped `Infos` map, the heap and `SeqGen` unchanged,
changes no group but that one (which is left as the group's own `AddInfo`
leaves it), and changes `MaxSeq` only if the group admitted the Info, to the
Info's Seq when that is greater. The prefix of `node.status` is `node`. -/
theorem AddInfo_group_only (G : GroupOps) (h : Heap) (is : InfoStore) (info : Ptr)
    (group : Group) (hreg : is.Groups.lookup (infoPrefix (h info).Key) = some group) :
    (is.AddInfo G h info).2.2 = (G.AddInfo h group info).2 ∧
    (is.AddInfo G h info).2.1.Infos = is.Infos ∧
    (is.AddInfo G h info).1 = h ∧
    (is.AddInfo G h info).2.1.Groups.lookup (infoPrefix (h info).Key) =
      some (G.AddInfo h group info).1 ∧
    (∀ pre, pre ≠ infoPrefix (h info).Key →
      (is.AddInfo G h info).2.1.Groups.lookup pre = is.Groups.lookup pre) ∧
    (is.AddInfo G h info).2.1.SeqGen = is.SeqGen ∧
    ((G.AddInfo h group info).2 = false → (is.AddInfo G h info).2.1.MaxSeq = is.MaxSeq) ∧
    ((G.AddInfo h group info).2 = true →
      (is.AddInfo G h info).2.1.MaxSeq =
        if (h info).Seq > is.MaxSeq then (h info).Seq else is.MaxSeq) ∧
    infoPrefix "node.status" = "node" := by
  obtain ⟨h1, h2, h3, h4, h5, h6, h7⟩ := AddInfo_grouped G h is info group hreg
  refine ⟨h1, h2, h3, ?_, fun pre hpre => ?_, h5, h6, h7, by decide⟩
  · rw [h4]; exact AList.lookup_insert _
  · rw [h4]; exact AList.lookup_insert_ne hpre

/-- With the group `node` registered, the Info of key `node.status` goes to
the group and the ungrouped map stays empty. -/
theorem AddInfo_group_only_witness :
    storeNode.Groups.lookup (infoPrefix (heapAlias 1).Key) = some groupNode ∧
    (storeNode.AddInfo capGroupOps heapAlias 1).2.2 = true ∧
    (storeNode.AddInfo capGroupOps heapAlias 1).2.1.Infos = storeNode.Infos ∧
    mapValues (storeNode.AddInfo capGroupOps heapAlias 1).2.1.Infos = [] ∧
    heldPtrs (storeNode.AddInfo capGroupOps heapAlias 1).2.1 = [1] :=
  ⟨rfl, by decide, (AddInfo_group_only capGroupOps heapAlias storeNode 1 groupNode rfl).2.1,
    by decide, by decide⟩

/-! ### Invariant I1 -/

theorem wrapInt64_succ_ne (x : Int) : wrapInt64 (x + 1) ≠ x := by
  unfold wrapInt64
  omega

theorem MonotonicUnixNano_next_ne (lastTime c1 c2 : Int) :
    (MonotonicUnixNano (MonotonicUnixNano lastTime c1).1 c2).2 ≠
      (MonotonicUnixNano lastTime c1).2 := by
  simp only [MonotonicUnixNano]
  by_cases h1 : c1 = lastTime
  · by_cases h2 : c2 = wrapInt64 (lastTime + 1)
    · simp only [h1, h2, if_true]
      exact wrapInt64_succ_ne _
    · simp only [h1, if_true, h2, if_false]
      exact h2
  · by_cases h2 : c2 = c1
    · simp only [h1, if_false, h2, if_true]
      exact wrapInt64_succ_ne _
    · simp only [h1, if_false, h2]
      exact h2

theorem NewInfo_timestamp (lastTime clock : Int) (h : Heap) (is : InfoStore) (key : String)
    (val ttl : Int) (info : Ptr) :
    ((is.NewInfo lastTime clock h key val ttl info).2.1 info).Timestamp =
      (MonotonicUnixNano lastTime clock).2 ∧
    (is.NewInfo lastTime clock h key val ttl info).1 = (MonotonicUnixNano lastTime clock).1 := by
  simp [InfoStore.NewInfo]

/-- C17 (invariant I1): for every state of the timestamp generator and every
pair of clock readings, two immediately successive calls of
`MonotonicUnixNano` return different values; so the Info that `NewInfo`
creates and the Info that the next `NewInfo` creates, on the same or another
store, have different `Timestamp`s. -/
theorem MonotonicUnixNano_successive_distinct (lastTime c1 c2 : Int) :
    (MonotonicUnixNano (MonotonicUnixNano lastTime c1).1 c2).2 ≠
      (MonotonicUnixNano lastTime c1).2 ∧
    ∀ (h : Heap) (is1 is2 : InfoStore) (k1 k2 : String) (v1 t1 v2 t2 : Int) (p1 p2 : Ptr),
      ((is2.NewInfo (is1.NewInfo lastTime c1 h k1 v1 t1 p1).1 c2
          (is1.NewInfo lastTime c1 h k1 v1 t1 p1).2.1 k2 v2 t2 p2).2.1 p2).Timestamp ≠
        ((is1.NewInfo lastTime c1 h k1 v1 t1 p1).2.1 p1).Timestamp := by
  refine ⟨MonotonicUnixNano_next_ne lastTime c1 c2, ?_⟩
  intro h is1 is2 k1 k2 v1 t1 v2 t2 p1 p2
  rw [(NewInfo_timestamp _ c2 _ is2 k2 v2 t2 p2).1, (NewInfo_timestamp lastTime c1 h is1 k1 v1 t1 p1).1,
    (NewInfo_timestamp lastTime c1 h is1 k1 v1 t1 p1).2]
  exact MonotonicUnixNano_next_ne lastTime c1 c2

/-! ### `infoPrefix` -/

theorem lastIndex_eq_none (c : Char) (l : List Char) : lastIndex c l = none ↔ c ∉ l := by
  induction l with
  | nil => simp [lastIndex]
  | cons x xs ih =>
    simp only [lastIndex]
    cases hl : lastIndex c xs with
    | some i =>
      have hin : c ∈ xs := by
        by_contra hn
        rw [ih.mpr hn] at hl
        exact Option.noConfusion hl
      simp [hin]
    | none =>
      have hn : c ∉ xs := ih.mp hl
      by_cases hx : x = c
      · simp [hx]
      · simp [hx, hn, Ne.symm hx]

theorem lastIndex_eq_some (c : Char) (l : List Char) :
    ∀ i, lastIndex c l = some i → ∃ rest, l = l.take i ++ c :: rest ∧ c ∉ rest := by
  induction l with
  | nil => intro i hi; simp [lastIndex] at hi
  | cons x xs ih =>
    intro i hi
    simp only [lastIndex] at hi
    cases hl : lastIndex c xs with
    | some j =>
      rw [hl] at hi
      cases Option.some.inj hi
      obtain ⟨rest, hr, hn⟩ := ih j hl
      refine ⟨rest, ?_, hn⟩
      simp only [List.take_succ_cons, List.cons_append]
      rw [← hr]
    | none =>
      rw [hl] at hi
      by_cases hx : x = c
      · simp only [hx, if_true] at hi
        cases Option.some.inj hi
        exact ⟨xs, by simp [hx], (lastIndex_eq_none c xs).mp hl⟩
      · simp [hx] at hi

/-- C18: `infoPrefix` returns the empty string when the key contains no `.`,
and otherwise the text before the last `.`: the key is the prefix, a `.`, and
a rest that contains no `.`. -/
theorem infoPrefix_spec (key : String) :
    ('.' ∉ key.data → infoPrefix key = "") ∧
    ('.' ∈ key.data →
      ∃ rest : String, key = infoPrefix key ++ "." ++ rest ∧ '.' ∉ rest.data) := by
  constructor
  · intro hn
    simp [infoPrefix, (lastIndex_eq_none '.' key.data).mpr hn]
  · intro hin
    cases hl : lastIndex '.' key.data with
    | none => exact absurd hin ((lastIndex_eq_none '.' key.data).mp hl)
    | some i =>
      obtain ⟨rest, hr, hn⟩ := lastIndex_eq_some '.' key.data i hl
      refine ⟨String.mk rest, ?_, hn⟩
      apply String.ext
      simp only [infoPrefix, hl, String.data_append]
      exact hr.trans (by simp)

/-- The key `a.b.c` has a `.`, and its prefix is `a.b`. -/
theorem infoPrefix_spec_witness :
    '.' ∈ "a.b.c".data ∧ infoPrefix "a.b.c" = "a.b" ∧
    ∃ rest : String, "a.b.c" = infoPrefix "a.b.c" ++ "." ++ rest ∧ '.' ∉ rest.data :=
  ⟨by decide, by decide, (infoPrefix_spec "a.b.c").2 (by decide)⟩

/-! ### Delta independence -/

/-- C12 fails on the code: the store `Delta` returns holds the very `Info`
objects of the source. `Delta(0)` on the store of three Infos (Seq 1, 2, 3 and
`Hops` 0, 4, 7) leaves the source as it was, but once another store, whose
generator stands at 40, has combined that delta, the Infos the source holds
have Seq 41, 42, 43 and `Hops` 1, 5, 8, while the source's `MaxSeq` is still
3. -/
theorem Delta_shares_infos :
    ((storeThree.Delta noGroupOps heapThree 0).2.1).isSome = true ∧
    heldPtrs deltaThree = [0, 1, 2] ∧ heldPtrs storeThree = [2, 1, 0] ∧
    (∀ p ∈ heldPtrs storeThree, (storeThree.Delta noGroupOps heapThree 0).1 p = heapThree p) ∧
    ((heapThree 0).Seq = 1 ∧ (heapThree 1).Seq = 2 ∧ (heapThree 2).Seq = 3) ∧
    ((heapThree 0).Hops = 0 ∧ (heapThree 1).Hops = 4 ∧ (heapThree 2).Hops = 7) ∧
    (((storeForty.Combine noGroupOps heapThree deltaThree).1.1 0).Seq = 41 ∧
      ((storeForty.Combine noGroupOps heapThree deltaThree).1.1 1).Seq = 42 ∧
      ((storeForty.Combine noGroupOps heapThree deltaThree).1.1 2).Seq = 43) ∧
    (((storeForty.Combine noGroupOps heapThree deltaThree).1.1 0).Hops = 1 ∧
      ((storeForty.Combine noGroupOps heapThree deltaThree).1.1 1).Hops = 5 ∧
      ((storeForty.Combine noGroupOps heapThree deltaThree).1.1 2).Hops = 8) ∧
    storeThree.MaxSeq = 3 := by
  decide

/-! ### TTL expiry on read -/

theorem wrapInt64_range (x : Int) : minInt64 ≤ wrapInt64 x ∧ wrapInt64 x ≤ maxInt64 := by
  unfold wrapInt64 minInt64 maxInt64
  omega

theorem MonotonicUnixNano_range (lastTime clock : Int) (hlo : minInt64 ≤ clock)
    (hhi : clock ≤ maxInt64) :
    minInt64 ≤ (MonotonicUnixNano lastTime clock).2 ∧
      (MonotonicUnixNano lastTime clock).2 ≤ maxInt64 := by
  simp only [MonotonicUnixNano]
  by_cases hc : clock = lastTime
  · simp only [hc, if_true]
    exact wrapInt64_range _
  · simp only [hc, if_false]
    exact ⟨hlo, hhi⟩

theorem AddInfo_ungrouped_groups (G : GroupOps) (h : Heap) (is : InfoStore) (info : Ptr)
    (hb : is.belongsToGroup (h info).Key = none) :
    (is.AddInfo G h info).2.1.Groups = is.Groups := by
  unfold InfoStore.AddInfo
  rw [hb]
  cases is.Infos.lookup (h info).Key with
  | none => rfl
  | some e =>
    by_cases ht : (h info).Timestamp ≤ (h e).Timestamp
    · simp [ht]
    · simp [ht]

theorem NewInfo_object (lastTime clock : Int) (h : Heap) (is : InfoStore) (key : String)
    (val ttl : Int) (info : Ptr) :
    (is.NewInfo lastTime clock h key val ttl info).2.1 info =
      ⟨key, val, (MonotonicUnixNano lastTime clock).2,
        wrapInt64 ((MonotonicUnixNano lastTime clock).2 + ttl), wrapInt64 (is.SeqGen + 1),
        "localhost", 0⟩ ∧
    (∀ q, q ≠ info → (is.NewInfo lastTime clock h key val ttl info).2.1 q = h q) ∧
    (is.NewInfo lastTime clock h key val ttl info).2.2 =
      { is with SeqGen := wrapInt64 (is.SeqGen + 1) } := by
  refine ⟨by simp [InfoStore.NewInfo], fun q hq => ?_, rfl⟩
  simp [InfoStore.NewInfo, Function.update_noteq hq]

theorem NewInfo_AddInfo_GetInfo (G : GroupOps) (lastTime c1 c2 : Int) (h : Heap)
    (is : InfoStore) (key : String) (val : Int) (info : Ptr)
    (hg : infoPrefix key ∉ is.Groups) (hlo : minInt64 ≤ c1) (hhi : c1 ≤ maxInt64)
    (hnow : (MonotonicUnixNano lastTime c1).2 ≤ c2)
    (hacc : ∀ q, is.Infos.lookup key = some q →
      q ≠ info ∧ (h q).Timestamp < (MonotonicUnixNano lastTime c1).2) :
    ((is.NewInfo lastTime c1 h key val 0 info).2.2.AddInfo G
        (is.NewInfo lastTime c1 h key val 0 info).2.1 info).2.2 = true ∧
    (((is.NewInfo lastTime c1 h key val 0 info).2.2.AddInfo G
        (is.NewInfo lastTime c1 h key val 0 info).2.1 info).2.1.GetInfo G
      ((is.NewInfo lastTime c1 h key val 0 info).2.2.AddInfo G
        (is.NewInfo lastTime c1 h key val 0 info).2.1 info).1 c2 key).2 = none ∧
    key ∉ (((is.NewInfo lastTime c1 h key val 0 info).2.2.AddInfo G
        (is.NewInfo lastTime c1 h key val 0 info).2.1 info).2.1.GetInfo G
      ((is.NewInfo lastTime c1 h key val 0 info).2.2.AddInfo G
        (is.NewInfo lastTime c1 h key val 0 info).2.1 info).1 c2 key).1.Infos ∧
    ∀ k, k ≠ key →
      (((is.NewInfo lastTime c1 h key val 0 info).2.2.AddInfo G
          (is.NewInfo lastTime c1 h key val 0 info).2.1 info).2.1.GetInfo G
        ((is.NewInfo lastTime c1 h key val 0 info).2.2.AddInfo G
          (is.NewInfo lastTime c1 h key val 0 info).2.1 info).1 c2 key).1.Infos.lookup k =
        is.Infos.lookup k := by
  obtain ⟨hobj, hother, hstore⟩ := NewInfo_object lastTime c1 h is key val 0 info
  generalize (is.NewInfo lastTime c1 h key val 0 info).2.1 = h1 at hobj hother ⊢
  generalize (is.NewInfo lastTime c1 h key val 0 info).2.2 = is1 at hstore ⊢
  have hkey : (h1 info).Key = key := by rw [hobj]
  have hts : (h1 info).Timestamp = (MonotonicUnixNano lastTime c1).2 := by rw [hobj]
  have httl : (h1 info).TTLStamp = (MonotonicUnixNano lastTime c1).2 := by
    rw [hobj]
    simp only [add_zero]
    exact wrapInt64_of_range _ (MonotonicUnixNano_range lastTime c1 hlo hhi).1
      (MonotonicUnixNano_range lastTime c1 hlo hhi).2
  have hinfos : is1.Infos = is.Infos := by rw [hstore]
  have hgroups : is1.Groups = is.Groups := by rw [hstore]
  have hg1 : infoPrefix (h1 info).Key ∉ is1.Groups := by rw [hkey, hgroups]; exact hg
  obtain ⟨hiff, htrue, _⟩ := AddInfo_ungrouped G h1 is1 info hg1
  have hres : (is1.AddInfo G h1 info).2.2 = true := by
    rw [hiff, hkey, hinfos]
    cases hl : is.Infos.lookup key with
    | none => exact Or.inl (AList.lookup_eq_none.mp hl)
    | some q =>
      obtain ⟨hq, hlt⟩ := hacc q hl
      exact Or.inr ⟨q, rfl, by rw [hother q hq, hts]; exact hlt⟩
  obtain ⟨hlook, hkeep, hsame⟩ := htrue hres
  rw [hkey] at hlook hkeep
  have hg2 : infoPrefix key ∉ (is1.AddInfo G h1 info).2.1.Groups := by
    rw [AddInfo_ungrouped_groups G h1 is1 info (lookup_groups_none hg1), hgroups]
    exact hg
  have hexp : ((is1.AddInfo G h1 info).1 info).TTLStamp ≤ c2 := by
    rw [hsame.2.2.2.1, httl]
    exact hnow
  obtain ⟨hget, _, _⟩ := GetInfo_ungrouped G (is1.AddInfo G h1 info).1 c2
    (is1.AddInfo G h1 info).2.1 key hg2
  obtain ⟨g1, g2, g3, _⟩ := hget info hlook hexp
  refine ⟨hres, g1, g2, fun k hk => ?_⟩
  rw [g3 k hk, hkeep k hk, hinfos]

/-- C14 as stated fails. When the clock reads 5 and `lastTime` is 5 already,
`NewInfo` takes `MonotonicUnixNano`'s bumped value 6 as `Timestamp` and, with
ttl 0, as `TTLStamp`; `GetInfo`, reading the raw clock at 5 still, finds
`6 <= 5` false, returns the Info and keeps the key. And in a store that holds
a newer Info under the key, `AddInfo` rejects the new Info and `GetInfo`
returns the incumbent. -/
theorem NewInfo_ttl_zero_not_expired :
    (addNewThenGet noGroupOps 5 5 5 heapHops NewInfoStore "k" 0 0 0).1 = true ∧
    (addNewThenGet noGroupOps 5 5 5 heapHops NewInfoStore "k" 0 0 0).2.2 = some 0 ∧
    "k" ∈ (addNewThenGet noGroupOps 5 5 5 heapHops NewInfoStore "k" 0 0 0).2.1.Infos ∧
    (addNewThenGet noGroupOps 0 6 8 heapWriters storeNewer "k" 0 0 0).1 = false ∧
    (addNewThenGet noGroupOps 0 6 8 heapWriters storeNewer "k" 0 0 0).2.2 = some 2 := by
  decide

/-- C14 (amended): for a store with no group matching the key, an Info created
by `NewInfo` with ttl 0 (a fresh object, its clock reading an `int64`) and
offered to `AddInfo` is accepted when the store holds no Info under the key or
an older one; if moreover the clock reading of the `GetInfo` that follows is
not below the value `MonotonicUnixNano` gave `NewInfo`, that `GetInfo` returns
nil and removes the key from `Infos`, leaving the other keys as they were. -/
theorem NewInfo_ttl_zero_expires (G : GroupOps) (lastTime c1 c2 : Int) (h : Heap)
    (is : InfoStore) (key : String) (val : Int) (info : Ptr)
    (hg : infoPrefix key ∉ is.Groups) (hlo : minInt64 ≤ c1) (hhi : c1 ≤ maxInt64)
    (hnow : (MonotonicUnixNano lastTime c1).2 ≤ c2)
    (hacc : ∀ q, is.Infos.lookup key = some q →
      q ≠ info ∧ (h q).Timestamp < (MonotonicUnixNano lastTime c1).2) :
    (addNewThenGet G lastTime c1 c2 h is key val 0 info).1 = true ∧
    (addNewThenGet G lastTime c1 c2 h is key val 0 info).2.2 = none ∧
    key ∉ (addNewThenGet G lastTime c1 c2 h is key val 0 info).2.1.Infos ∧
    ∀ k, k ≠ key →
      (addNewThenGet G lastTime c1 c2 h is key val 0 info).2.1.Infos.lookup k =
        is.Infos.lookup k :=
  NewInfo_AddInfo_GetInfo G lastTime c1 c2 h is key val info hg hlo hhi hnow hacc

/-- With `lastTime` 0 and the clock at 5 in both calls, the Info of ttl 0 is
gone at once. -/
theorem NewInfo_ttl_zero_expires_witness :
    infoPrefix "k" ∉ NewInfoStore.Groups ∧ minInt64 ≤ (5 : Int) ∧ (5 : Int) ≤ maxInt64 ∧
    (MonotonicUnixNano 0 5).2 ≤ 5 ∧
    (addNewThenGet noGroupOps 0 5 5 heapHops NewInfoStore "k" 0 0 0).1 = true ∧
    (addNewThenGet noGroupOps 0 5 5 heapHops NewInfoStore "k" 0 0 0).2.2 = none ∧
    "k" ∉ (addNewThenGet noGroupOps 0 5 5 heapHops NewInfoStore "k" 0 0 0).2.1.Infos :=
  ⟨by decide, by decide, by decide, by decide,
    (NewInfo_ttl_zero_expires noGroupOps 0 5 5 heapHops NewInfoStore "k" 0 0 (by decide)
      (by decide) (by decide) (by decide)
      (fun q hq => absurd hq (by simp [NewInfoStore]))).1,
    (NewInfo_ttl_zero_expires noGroupOps 0 5 5 heapHops NewInfoStore "k" 0 0 (by decide)
      (by decide) (by decide) (by decide)
      (fun q hq => absurd hq (by simp [NewInfoStore]))).2.1,
    (NewInfo_ttl_zero_expires noGroupOps 0 5 5 heapHops NewInfoStore "k" 0 0 (by decide)
      (by decide) (by decide) (by decide)
      (fun q hq => absurd hq (by simp [NewInfoStore]))).2.2.1⟩

/-! ### Filters -/

theorem visitGroupInfos_none {σ : Type} (vi : Ptr → σ → σ × Option Error) (g : Group) (st : σ) :
    visitGroupInfos none (some vi) g st = visitEach vi (mapValues g.Infos) st := by
  simp only [visitGroupInfos]

theorem visitEach_groups_of_no_error {σ : Type} (vi : Ptr → σ → σ × Option Error)
    (hvi : ∀ p st, (vi p st).2 = none) (gs : List Group) :
    ∀ st, visitEach (visitGroupInfos none (some vi)) gs st =
      visitEach vi (gs.flatMap (fun g => mapValues g.Infos)) st := by
  have hg : ∀ g st, (visitGroupInfos none (some vi) g st).2 = none := by
    intro g st
    rw [visitGroupInfos_none]
    exact visitEach_no_error vi hvi _ st
  induction gs with
  | nil => intro st; rfl
  | cons g rest ih =>
    intro st
    rw [visitEach_cons_of_no_error _ hg, List.flatMap_cons,
      visitEach_append_of_no_error vi hvi, ih, visitGroupInfos_none]

/-- A visit with an info visitor that returns no error and no group visitor
runs the info visitor over the Infos held, in order. -/
theorem visitInfos_of_no_error {σ : Type} (is : InfoStore) (vi : Ptr → σ → σ × Option Error)
    (hvi : ∀ p st, (vi p st).2 = none) (st : σ) :
    is.visitInfos none (some vi) st = visitEach vi (heldPtrs is) st := by
  have h1 := visitEach_groups_of_no_error vi hvi (mapValues is.Groups) st
  have h2 : (visitEach vi ((mapValues is.Groups).flatMap (fun g => mapValues g.Infos)) st).2 =
      none := visitEach_no_error vi hvi _ st
  unfold InfoStore.visitInfos heldPtrs
  rw [h1, visitEach_append_of_no_error vi hvi]
  cases hv : visitEach vi ((mapValues is.Groups).flatMap (fun g => mapValues g.Infos)) st with
  | mk st1 e =>
    rw [hv] at h2
    simp only at h2
    rw [h2]

theorem visitEach_buildFilterInfo (h : Heap) (maxHops : Nat) (ps : List Ptr) :
    ∀ f : Filter, visitEach (InfoStore.buildFilterInfo h maxHops) ps f =
      (⟨(((ps.filter (fun p => (h p).Hops ≤ maxHops)).map (fun p => (h p).Key)).reverse ++
        f.keys)⟩, none) := by
  induction ps with
  | nil => intro f; simp [visitEach]
  | cons a rest ih =>
    intro f
    rw [visitEach_cons_of_no_error _ (fun _ _ => rfl), ih]
    by_cases ha : (h a).Hops ≤ maxHops
    · simp [InfoStore.buildFilterInfo, ha, Filter.AddKey]
    · simp [InfoStore.buildFilterInfo, ha]

theorem visitEach_diffFilterInfo (h : Heap) (maxHops : Nat) (ps : List Ptr) :
    ∀ f : Filter, visitEach (InfoStore.diffFilterInfo h maxHops) ps f =
      (⟨((ps.filter (fun p => (h p).Hops ≤ maxHops)).map (fun p => (h p).Key)).foldl
        List.erase f.keys⟩, none) := by
  induction ps with
  | nil => intro f; simp [visitEach]
  | cons a rest ih =>
    intro f
    rw [visitEach_cons_of_no_error _ (fun _ _ => rfl), ih]
    by_cases ha : (h a).Hops ≤ maxHops
    · simp [InfoStore.diffFilterInfo, ha, Filter.RemoveKey]
    · simp [InfoStore.diffFilterInfo, ha]

theorem foldl_erase_of_perm (l : List String) :
    ∀ m : List String, m.Perm l → l.foldl List.erase m = [] := by
  induction l with
  | nil => intro m hm; simpa using hm.eq_nil
  | cons a rest ih =>
    intro m hm
    simp only [List.foldl_cons]
    apply ih
    have := hm.erase a
    simpa using this

theorem InfoCount_eq (is : InfoStore) : is.InfoCount = wrapUint32 (heldPtrs is).length := by
  have hfold : ∀ (gs : List Group) (n : Nat),
      gs.foldl (fun count group => wrapUint32 (count + wrapUint32 (mapValues group.Infos).length))
        (wrapUint32 n) =
      wrapUint32 (n + (gs.flatMap (fun g => mapValues g.Infos)).length) := by
    intro gs
    induction gs with
    | nil => intro n; simp
    | cons g rest ih =>
      intro n
      simp only [List.foldl_cons, List.flatMap_cons, List.length_append]
      have : wrapUint32 (wrapUint32 n + wrapUint32 (mapValues g.Infos).length) =
          wrapUint32 (n + (mapValues g.Infos).length) := by
        unfold wrapUint32; omega
      rw [this, ih]
      congr 1
      omega
  unfold InfoStore.InfoCount heldPtrs
  rw [hfold, List.length_append]
  congr 1
  omega

theorem BuildFilter_keys (NewFilter : Nat → Nat → Except Error Filter)
    (hnew : ∀ n b f, NewFilter n b = Except.ok f → f.keys = []) (h : Heap) (is : InfoStore)
    (maxHops : Nat) (f : Filter) (hf : (is.BuildFilter NewFilter h maxHops).1 = some f) :
    f.keys = (keysWithin h is maxHops).reverse ∧ (is.BuildFilter NewFilter h maxHops).2 = none := by
  unfold InfoStore.BuildFilter at hf ⊢
  cases hn : NewFilter is.InfoCount FilterBits with
  | error err => rw [hn] at hf; exact Option.noConfusion hf
  | ok f0 =>
    rw [hn] at hf
    simp only at hf ⊢
    rw [visitInfos_of_no_error _ _ (fun _ _ => rfl), visitEach_buildFilterInfo] at hf ⊢
    simp only [Option.some.injEq] at hf
    rw [← hf, hnew _ _ _ hn]
    simp [keysWithin]

theorem DiffFilter_count (h : Heap) (is : InfoStore) (f : Filter) (maxHops : Nat) :
    is.DiffFilter h f maxHops =
      (⟨(keysWithin h is maxHops).foldl List.erase f.keys⟩,
        wrapUint32 ((keysWithin h is maxHops).foldl List.erase f.keys).length, none) := by
  unfold InfoStore.DiffFilter
  rw [visitInfos_of_no_error _ _ (fun _ _ => rfl), visitEach_diffFilterInfo]
  rfl

/-- C19 as stated fails in its second half: over the store of three Infos with
`Hops` 0, 4 and 7, `BuildFilter(3)` adds only the key of the Info within 3
hops, so diffing that filter against an empty store returns 1, while
`InfoCount()` is 3. -/
theorem DiffFilter_empty_not_InfoCount :
    ((storeThree.BuildFilter newFilterAny heapThree 3).1).isSome = true ∧
    filterThree.keys = ["a"] ∧
    (NewInfoStore.DiffFilter heapThree filterThree 3).2.1 = 1 ∧
    storeThree.InfoCount = 3 := by
  decide

/-- C19 (amended), with the filter an exact multiset of keys whose constructor
returns an empty filter: when `BuildFilter(maxHops)` returns a filter, it
returns no error; `DiffFilter` of that filter on the same store returns 0 and
no error; and `DiffFilter` of it on an empty store returns the number of the
store's Infos whose `Hops` is at most `maxHops` (as a `uint32`), which is the
store's `InfoCount()` when every Info it holds is within `maxHops`. -/
theorem DiffFilter_of_BuildFilter (NewFilter : Nat → Nat → Except Error Filter)
    (hnew : ∀ n b f, NewFilter n b = Except.ok f → f.keys = []) (h : Heap) (is : InfoStore)
    (maxHops : Nat) (f : Filter) (hf : (is.BuildFilter NewFilter h maxHops).1 = some f) :
    (is.BuildFilter NewFilter h maxHops).2 = none ∧
    (is.DiffFilter h f maxHops).2.1 = 0 ∧ (is.DiffFilter h f maxHops).2.2 = none ∧
    (NewInfoStore.DiffFilter h f maxHops).2.1 =
      wrapUint32 ((heldPtrs is).filter (fun p => (h p).Hops ≤ maxHops)).length ∧
    ((∀ p ∈ heldPtrs is, (h p).Hops ≤ maxHops) →
      (NewInfoStore.DiffFilter h f maxHops).2.1 = is.InfoCount) := by
  obtain ⟨hk, he⟩ := BuildFilter_keys NewFilter hnew h is maxHops f hf
  have hempty : (NewInfoStore.DiffFilter h f maxHops).2.1 =
      wrapUint32 ((heldPtrs is).filter (fun p => (h p).Hops ≤ maxHops)).length := by
    have hk0 : keysWithin h NewInfoStore maxHops = [] := rfl
    rw [DiffFilter_count, hk0]
    simp only [List.foldl_nil, hk, List.length_reverse, keysWithin, List.length_map]
  refine ⟨he, ?_, ?_, hempty, fun hall => ?_⟩
  · rw [DiffFilter_count, hk,
      foldl_erase_of_perm _ _ (List.reverse_perm (keysWithin h is maxHops))]
    rfl
  · rw [DiffFilter_count]
  · rw [hempty, InfoCount_eq]
    congr 2
    exact List.filter_eq_self.mpr (fun p hp => by simpa using hall p hp)

/-- Over the store of three Infos with `Hops` 0, 4 and 7 and `maxHops` 7, the
filter diffed against the store itself gives 0 and against an empty store
gives 3, the `InfoCount()`. -/
theorem DiffFilter_of_BuildFilter_witness :
    (∀ n b f, newFilterAny n b = Except.ok f → f.keys = []) ∧
    (storeThree.BuildFilter newFilterAny heapThree 7).1 =
      some (((storeThree.BuildFilter newFilterAny heapThree 7).1).getD ⟨[]⟩) ∧
    (storeThree.DiffFilter heapThree
      (((storeThree.BuildFilter newFilterAny heapThree 7).1).getD ⟨[]⟩) 7).2.1 = 0 ∧
    (NewInfoStore.DiffFilter heapThree
      (((storeThree.BuildFilter newFilterAny heapThree 7).1).getD ⟨[]⟩) 7).2.1 = 3 ∧
    storeThree.InfoCount = 3 :=
  ⟨fun _ _ _ hf => by cases hf; rfl, rfl,
    (DiffFilter_of_BuildFilter newFilterAny (fun _ _ _ hf => by cases hf; rfl) heapThree
      storeThree 7 _ rfl).2.1,
    by decide, by decide⟩

/-! ### Invariant I2 -/

theorem AddInfo_exclusive (G : GroupOps) (hG : G.Files) (h : Heap) (is : InfoStore)
    (info : Ptr) (hE : Exclusive is) : Exclusive (is.AddInfo G h info).2.1 := by
  obtain ⟨hE1, hE2⟩ := hE
  cases hb : is.Groups.lookup (infoPrefix (h info).Key) with
  | some group =>
    obtain ⟨_, hinf, _, hgr, _⟩ := AddInfo_grouped G h is info group hb
    have hpm : infoPrefix (h info).Key ∈ is.Groups := by
      rw [← AList.lookup_isSome, hb]; rfl
    constructor
    · intro k hk
      rw [hinf] at hk
      rw [hgr, AList.mem_insert]
      rintro (hp | hp)
      · exact hE1 k hk (hp ▸ hpm)
      · exact hE1 k hk hp
    · intro pre g hl k hk
      rw [hgr] at hl
      by_cases hpre : pre = infoPrefix (h info).Key
      · rw [hpre, AList.lookup_insert] at hl
        cases Option.some.inj hl
        rcases hG.addInfo h group info k hk with hk | hk
        · rw [hpre]; exact hE2 _ group hb k hk
        · rw [hpre, hk]
      · rw [AList.lookup_insert_ne hpre] at hl
        exact hE2 pre g hl k hk
  | none =>
    have hb' : is.belongsToGroup (h info).Key = none := hb
    have hnm : infoPrefix (h info).Key ∉ is.Groups := AList.lookup_eq_none.mp hb
    have hgr := AddInfo_ungrouped_groups G h is info hb'
    obtain ⟨_, htrue, hfalse⟩ := AddInfo_ungrouped G h is info hnm
    constructor
    · intro k hk
      rw [hgr]
      by_cases hr : (is.AddInfo G h info).2.2 = true
      · obtain ⟨_, hkeep, _⟩ := htrue hr
        by_cases hkk : k = (h info).Key
        · rw [hkk]; exact hnm
        · apply hE1 k
          rw [← AList.lookup_isSome, ← hkeep k hkk, AList.lookup_isSome]
          exact hk
      · have hr' : (is.AddInfo G h info).2.2 = false := by simpa using hr
        rw [(hfalse hr').1] at hk
        exact hE1 k hk
    · intro pre g hl k hk
      rw [hgr] at hl
      exact hE2 pre g hl k hk

theorem AddInfo_groups_mem (G : GroupOps) (h : Heap) (is : InfoStore) (info : Ptr)
    (pre : String) : pre ∈ (is.AddInfo G h info).2.1.Groups ↔ pre ∈ is.Groups := by
  cases hb : is.Groups.lookup (infoPrefix (h info).Key) with
  | some group =>
    obtain ⟨_, _, _, hgr, _⟩ := AddInfo_grouped G h is info group hb
    have hpm : infoPrefix (h info).Key ∈ is.Groups := by
      rw [← AList.lookup_isSome, hb]; rfl
    rw [hgr, AList.mem_insert]
    constructor
    · rintro (hp | hp)
      · exact hp ▸ hpm
      · exact hp
    · exact fun hp => Or.inr hp
  | none => rw [AddInfo_ungrouped_groups G h is info hb]

theorem GetInfo_exclusive (G : GroupOps) (hG : G.Files) (h : Heap) (now : Int)
    (is : InfoStore) (key : String) (hE : Exclusive is) :
    Exclusive (is.GetInfo G h now key).1 := by
  obtain ⟨hE1, hE2⟩ := hE
  unfold InfoStore.GetInfo
  cases hb : is.belongsToGroup key with
  | some group =>
    have hb' : is.Groups.lookup (infoPrefix key) = some group := hb
    have hpm : infoPrefix key ∈ is.Groups := by
      rw [← AList.lookup_isSome, hb']; rfl
    constructor
    · intro k hk
      simp only at hk ⊢
      rw [AList.mem_insert]
      rintro (hp | hp)
      · exact hE1 k hk (hp ▸ hpm)
      · exact hE1 k hk hp
    · intro pre g hl k hk
      simp only at hl
      by_cases hpre : pre = infoPrefix key
      · rw [hpre, AList.lookup_insert] at hl
        cases Option.some.inj hl
        rw [hpre]
        exact hE2 _ group hb' k (hG.getInfo h now group key k hk)
      · rw [AList.lookup_insert_ne hpre] at hl
        exact hE2 pre g hl k hk
  | none =>
    cases hl : is.Infos.lookup key with
    | none => exact ⟨hE1, hE2⟩
    | some info =>
      by_cases ht : (h info).TTLStamp ≤ now
      · simp only [ht, if_true]
        exact ⟨fun k hk => hE1 k ((AList.mem_erase.mp hk).2), hE2⟩
      · simp only [ht, if_false]
        exact ⟨hE1, hE2⟩

theorem RegisterGroup_exclusive (is : InfoStore) (group : Group)
    (hkeys : ∀ k, k ∈ group.Infos → infoPrefix k = group.Prefix)
    (hfree : ∀ k, k ∈ is.Infos → infoPrefix k ≠ group.Prefix) (hE : Exclusive is) :
    Exclusive (is.RegisterGroup group).1 := by
  obtain ⟨hE1, hE2⟩ := hE
  unfold InfoStore.RegisterGroup
  cases hl : is.Groups.lookup group.Prefix with
  | some g => exact ⟨hE1, hE2⟩
  | none =>
    constructor
    · intro k hk
      simp only at hk ⊢
      rw [AList.mem_insert]
      rintro (hp | hp)
      · exact hfree k hk hp
      · exact hE1 k hk hp
    · intro pre g hlg k hk
      simp only at hlg
      by_cases hpre : pre = group.Prefix
      · rw [hpre, AList.lookup_insert] at hlg
        cases Option.some.inj hlg
        rw [hpre]; exact hkeys k hk
      · rw [AList.lookup_insert_ne hpre] at hlg
        exact hE2 pre g hlg k hk

theorem visitEach_invariant_mem {α σ : Type} (I : σ → Prop) (f : α → σ → σ × Option Error)
    (l : List α) (hf : ∀ a ∈ l, ∀ st, I st → I (f a st).1) :
    ∀ st, I st → I (visitEach f l st).1 := by
  induction l with
  | nil => intro st hI; exact hI
  | cons a rest ih =>
    intro st hI
    have h1 := hf a (List.mem_cons_self _ _) st hI
    cases hv : f a st with
    | mk st1 e =>
      rw [hv] at h1
      cases e with
      | some err => rw [visitEach_cons_error f a rest st st1 err hv]; exact h1
      | none =>
        rw [visitEach_cons_ok f a rest st st1 hv]
        exact ih (fun b hb => hf b (List.mem_cons_of_mem _ hb)) st1 h1

theorem combineStamp_key (p q : Ptr) (st : Heap × InfoStore) :
    ((InfoStore.combineStamp p st).1 q).Key = (st.1 q).Key := by
  by_cases hq : q = p
  · rw [hq]; exact (combineStamp_self p st).2.2.1.1
  · rw [combineStamp_other p q st hq]

theorem combineStamp_maps (p : Ptr) (st : Heap × InfoStore) :
    (InfoStore.combineStamp p st).2.Infos = st.2.Infos ∧
    (InfoStore.combineStamp p st).2.Groups = st.2.Groups := by
  simp [InfoStore.combineStamp]

theorem combineInfo_key (G : GroupOps) (p q : Ptr) (st : Heap × InfoStore) :
    ((InfoStore.combineInfo G p st).1.1 q).Key = (st.1 q).Key := by
  simp only [InfoStore.combineInfo]
  rw [(AddInfo_heap G _ _ p q).1.1]
  exact combineStamp_key p q st

theorem combineInfo_exclusive (G : GroupOps) (hG : G.Files) (p : Ptr) (st : Heap × InfoStore)
    (hE : Exclusive st.2) : Exclusive (InfoStore.combineInfo G p st).1.2 := by
  simp only [InfoStore.combineInfo]
  apply AddInfo_exclusive G hG
  obtain ⟨hi, hg⟩ := combineStamp_maps p st
  unfold Exclusive
  rw [hi, hg]
  exact hE

theorem combineGroup_groupPhase (G : GroupOps) (hG : G.Files) (h : Heap) (is : InfoStore)
    (g : Group) (hfree : g.Prefix ∉ is.Groups → ∀ k, k ∈ is.Infos → infoPrefix k ≠ g.Prefix)
    (st : Heap × InfoStore) (hJ : GroupPhase h is st) :
    GroupPhase h is (InfoStore.combineGroup G g st).1 ∧
    ((InfoStore.combineGroup G g st).2 = none → g.Prefix ∈ (InfoStore.combineGroup G g st).1.2.Groups) := by
  obtain ⟨hE, hI, hM, hK⟩ := hJ
  unfold InfoStore.combineGroup
  cases hl : st.2.Groups.lookup g.Prefix with
  | some g0 =>
    refine ⟨⟨hE, hI, hM, hK⟩, fun _ => ?_⟩
    simp only
    rw [← AList.lookup_isSome, hl]; rfl
  | none =>
    have hnm : g.Prefix ∉ st.2.Groups := AList.lookup_eq_none.mp hl
    cases hn : G.NewGroup g.Prefix g.Limit g.TypeOf with
    | error err =>
      refine ⟨⟨hE, hI, hM, hK⟩, fun hc => ?_⟩
      simp at hc
    | ok groupCopy =>
      obtain ⟨hpre, hemp⟩ := hG.newGroup _ _ _ _ hn
      have hreg : (st.2.RegisterGroup groupCopy).1 =
          { st.2 with Groups := st.2.Groups.insert groupCopy.Prefix groupCopy } := by
        unfold InfoStore.RegisterGroup
        rw [hpre, hl]
      simp only
      refine ⟨⟨?_, ?_, fun pre hp => ?_, hK⟩, fun _ => ?_⟩
      · apply RegisterGroup_exclusive st.2 groupCopy (fun k hk => absurd hk (hemp k)) ?_ hE
        intro k hk
        rw [hpre]
        rw [hI] at hk
        exact hfree (fun hc => hnm (hM _ hc)) k hk
      · rw [hreg]; exact hI
      · rw [hreg]
        simp only [AList.mem_insert]
        exact Or.inr (hM pre hp)
      · rw [hreg, hpre]
        simp only [AList.mem_insert]
        exact Or.inl trivial

theorem combineInfo_groupPhase (G : GroupOps) (hG : G.Files) (h : Heap) (is : InfoStore)
    (pre : String) (p : Ptr) (hp : infoPrefix (h p).Key = pre) (st : Heap × InfoStore)
    (hJ : GroupPhase h is st ∧ pre ∈ st.2.Groups) :
    GroupPhase h is (InfoStore.combineInfo G p st).1 ∧
      pre ∈ (InfoStore.combineInfo G p st).1.2.Groups := by
  obtain ⟨⟨hE, hI, hM, hK⟩, hreg⟩ := hJ
  obtain ⟨hsi, hsg⟩ := combineStamp_maps p st
  have hmem : ∀ q, q ∈ (InfoStore.combineInfo G p st).1.2.Groups ↔ q ∈ st.2.Groups := by
    intro q
    simp only [InfoStore.combineInfo]
    rw [AddInfo_groups_mem, hsg]
  refine ⟨⟨combineInfo_exclusive G hG p st hE, ?_, fun q hq => (hmem q).mpr (hM q hq),
    fun q => by rw [combineInfo_key, hK]⟩, (hmem pre).mpr hreg⟩
  simp only [InfoStore.combineInfo]
  have hkey : infoPrefix ((InfoStore.combineStamp p st).1 p).Key ∈
      (InfoStore.combineStamp p st).2.Groups := by
    rw [combineStamp_key, hK, hp, hsg]; exact hreg
  obtain ⟨g0, hg0⟩ := Option.isSome_iff_exists.mp (AList.lookup_isSome.mpr hkey)
  rw [(AddInfo_grouped G _ _ p g0 hg0).2.1, hsi, hI]

theorem visitGroupInfos_combine_groupPhase (G : GroupOps) (hG : G.Files) (h : Heap)
    (is : InfoStore) (g : Group)
    (hkeys : ∀ p ∈ mapValues g.Infos, infoPrefix (h p).Key = g.Prefix)
    (hfree : g.Prefix ∉ is.Groups → ∀ k, k ∈ is.Infos → infoPrefix k ≠ g.Prefix)
    (st : Heap × InfoStore) (hJ : GroupPhase h is st) :
    GroupPhase h is
      (visitGroupInfos (some (InfoStore.combineGroup G)) (some (InfoStore.combineInfo G)) g
        st).1 := by
  obtain ⟨h1, h2⟩ := combineGroup_groupPhase G hG h is g hfree st hJ
  cases hv : InfoStore.combineGroup G g st with
  | mk st1 e =>
    rw [hv] at h1 h2
    cases e with
    | some err => rw [visitGroupInfos_error _ _ g st st1 err hv]; exact h1
    | none =>
      rw [visitGroupInfos_ok _ _ g st st1 hv]
      exact (visitEach_invariant_mem (fun s => GroupPhase h is s ∧ g.Prefix ∈ s.2.Groups)
        (InfoStore.combineInfo G) (mapValues g.Infos)
        (fun p hp s hs => combineInfo_groupPhase G hG h is g.Prefix p (hkeys p hp) s hs)
        st1 ⟨h1, h2 rfl⟩).1

theorem Combine_exclusive (G : GroupOps) (hG : G.Files) (h : Heap) (is delta : InfoStore)
    (hkeys : ∀ g ∈ mapValues delta.Groups, ∀ p ∈ mapValues g.Infos,
      infoPrefix (h p).Key = g.Prefix)
    (hfree : ∀ g ∈ mapValues delta.Groups, g.Prefix ∉ is.Groups →
      ∀ k, k ∈ is.Infos → infoPrefix k ≠ g.Prefix)
    (hE : Exclusive is) : Exclusive (is.Combine G h delta).1.2 := by
  have h1 := visitEach_invariant_mem (GroupPhase h is)
    (visitGroupInfos (some (InfoStore.combineGroup G)) (some (InfoStore.combineInfo G)))
    (mapValues delta.Groups)
    (fun g hg s hs => visitGroupInfos_combine_groupPhase G hG h is g (hkeys g hg) (hfree g hg) s hs)
    (h, is) ⟨hE, rfl, fun _ hp => hp, fun _ => rfl⟩
  unfold InfoStore.Combine
  cases hv : visitEach
      (visitGroupInfos (some (InfoStore.combineGroup G)) (some (InfoStore.combineInfo G)))
      (mapValues delta.Groups) (h, is) with
  | mk st1 e =>
    rw [hv] at h1
    cases e with
    | some err => rw [visitInfos_error _ _ _ _ st1 err hv]; exact h1.1
    | none =>
      rw [visitInfos_ok _ _ _ _ st1 hv]
      exact visitEach_invariant (fun s => Exclusive s.2) (InfoStore.combineInfo G)
        (fun p s hs => combineInfo_exclusive G hG p s hs) _ st1 h1.1

theorem exclusive_newInfoStore : Exclusive NewInfoStore := by
  constructor
  · intro k hk; exact absurd hk (AList.not_mem_empty _)
  · intro pre g hl
    simp [NewInfoStore] at hl

theorem exclusive_of_reachableInOrder (G : GroupOps) (hG : G.Files) (is : InfoStore)
    (hr : ReachableInOrder G is) : Exclusive is := by
  induction hr with
  | newInfoStore => exact exclusive_newInfoStore
  | addInfo h info _ ih => exact AddInfo_exclusive G hG h _ info ih
  | getInfo h now key _ ih => exact GetInfo_exclusive G hG h now _ key ih
  | registerGroup group hk hf _ ih => exact RegisterGroup_exclusive _ group hk hf ih
  | combine h delta hk hf _ ih => exact Combine_exclusive G hG h _ delta hk hf ih

theorem exclusive_spec (is : InfoStore) (hE : Exclusive is) :
    (∀ k, k ∈ is.Infos → ∀ pre g, is.Groups.lookup pre = some g → k ∉ g.Infos) ∧
    (∀ k, k ∈ is.Infos → infoPrefix k ∉ is.Groups) ∧
    (∀ pre g, is.Groups.lookup pre = some g → ∀ k, k ∈ g.Infos → infoPrefix k = pre) := by
  refine ⟨fun k hk pre g hl hkg => ?_, hE.1, hE.2⟩
  apply hE.1 k hk
  rw [hE.2 pre g hl k hkg, ← AList.lookup_isSome, hl]
  rfl

theorem capGroupOps_files : capGroupOps.Files where
  newGroup := by
    intro pre limit typeOf g hg
    simp only [capGroupOps] at hg
    by_cases hl : limit ≤ 0
    · simp [hl] at hg
    · simp only [hl, if_false] at hg
      cases hg
      exact ⟨rfl, fun k => AList.not_mem_empty _⟩
  addInfo := by
    intro h g info k hk
    simp only [capGroupOps] at hk
    by_cases hl : (g.Infos.entries.length : Int) < g.Limit
    · simp only [hl, if_true, AList.mem_insert] at hk
      rcases hk with hk | hk
      · exact Or.inr hk
      · exact Or.inl hk
    · simp only [hl, if_false] at hk
      exact Or.inl hk
  getInfo := by
    intro h now g key k hk
    exact hk

/-- C15 (as stated, refuted): the store reached from `NewInfoStore()` by
`AddInfo` of an Info of key `node.status` and then `RegisterGroup` of the empty
group `node` holds the key `node.status` in its ungrouped map while the prefix
`node` is registered; and after one more `AddInfo` of the same Info, with a
group that admits it, the key is held both in the ungrouped map and in the
group. -/
theorem AddInfo_before_RegisterGroup_overlaps :
    Reachable noGroupOps heapAlias storeEarly ∧
    storeEarly.Infos.lookup "node.status" = some 1 ∧
    (storeEarly.Groups.lookup (infoPrefix "node.status")).isSome = true ∧
    Reachable capGroupOps heapAlias storeLate ∧
    storeLate.Infos.lookup "node.status" = some 1 ∧
    ((storeLate.Groups.lookup "node").map (fun g => g.Infos.lookup "node.status")) =
      some (some 1) :=
  ⟨Reachable.registerGroup groupNode rfl
      (Reachable.addInfo 1 (Reachable.newInfoStore heapAlias)),
    by decide, by decide,
    Reachable.addInfo 1 (Reachable.registerGroup groupNode rfl
      (Reachable.addInfo 1 (Reachable.newInfoStore heapAlias))),
    by decide, by decide⟩

/-- C15 (amended), invariant I2: let the Group collaborator file under a
group no key but that of the Info offered to it. In every store reached from
`NewInfoStore()` by `AddInfo`, `GetInfo`, `RegisterGroup` of a group whose keys
have its prefix while no key of the ungrouped map has that prefix, and
`Combine` of a delta whose grouped Infos have their group's prefix and whose
groups, where new to the receiver, have a prefix that no key of the receiver's
ungrouped map has: no key is held both in the ungrouped map and in a registered
group, no key of the ungrouped map has a registered prefix, and every key of a
registered group has that group's prefix. -/
theorem Exclusive_of_ordered (G : GroupOps) (hG : G.Files) (is : InfoStore)
    (hr : ReachableInOrder G is) :
    (∀ k, k ∈ is.Infos → ∀ pre g, is.Groups.lookup pre = some g → k ∉ g.Infos) ∧
    (∀ k, k ∈ is.Infos → infoPrefix k ∉ is.Groups) ∧
    (∀ pre g, is.Groups.lookup pre = some g → ∀ k, k ∈ g.Infos → infoPrefix k = pre) :=
  exclusive_spec is (exclusive_of_reachableInOrder G hG is hr)

/-- On the store that registered the group `node` before it added the Infos
of keys `node.status` and `a`: the key `a` is in the ungrouped map, the key
`node.status` is in the group, and I2 holds. -/
theorem Exclusive_of_ordered_witness :
    capGroupOps.Files ∧ ReachableInOrder capGroupOps storeOrdered ∧
    storeOrdered.Infos.lookup "a" = some 0 ∧
    ((storeOrdered.Groups.lookup "node").map (fun g => g.Infos.lookup "node.status")) =
      some (some 1) ∧
    ((∀ k, k ∈ storeOrdered.Infos →
        ∀ pre g, storeOrdered.Groups.lookup pre = some g → k ∉ g.Infos) ∧
      (∀ k, k ∈ storeOrdered.Infos → infoPrefix k ∉ storeOrdered.Groups) ∧
      (∀ pre g, storeOrdered.Groups.lookup pre = some g →
        ∀ k, k ∈ g.Infos → infoPrefix k = pre)) :=
  ⟨capGroupOps_files,
    ReachableInOrder.addInfo heapAlias 0 (ReachableInOrder.addInfo heapAlias 1
      (ReachableInOrder.registerGroup groupNode (fun k hk => absurd hk (AList.not_mem_empty _))
        (fun k hk => absurd hk (AList.not_mem_empty _)) ReachableInOrder.newInfoStore)),
    by decide, by decide,
    Exclusive_of_ordered capGroupOps capGroupOps_files storeOrdered
      (ReachableInOrder.addInfo heapAlias 0 (ReachableInOrder.addInfo heapAlias 1
        (ReachableInOrder.registerGroup groupNode (fun k hk => absurd hk (AList.not_mem_empty _))
          (fun k hk => absurd hk (AList.not_mem_empty _)) ReachableInOrder.newInfoStore)))⟩

/-! ### The generator bounds every sequence number -/

theorem visitEach_budget {σ : Type} (J : List Ptr → σ → Prop) (vi : Ptr → σ → σ × Option Error)
    (hvi : ∀ p l st, J (p :: l) st → J l (vi p st).1) (ps tail : List Ptr) :
    ∀ st, J (ps ++ tail) st →
      (∃ l, J l (visitEach vi ps st).1) ∧
        ((visitEach vi ps st).2 = none → J tail (visitEach vi ps st).1) := by
  induction ps with
  | nil => intro st hJ; exact ⟨⟨_, hJ⟩, fun _ => hJ⟩
  | cons a rest ih =>
    intro st hJ
    have h1 := hvi a (rest ++ tail) st hJ
    cases hv : vi a st with
    | mk st1 e =>
      rw [hv] at h1
      cases e with
      | some err =>
        rw [visitEach_cons_error vi a rest st st1 err hv]
        exact ⟨⟨_, h1⟩, fun hn => Option.noConfusion hn⟩
      | none =>
        rw [visitEach_cons_ok vi a rest st st1 hv]
        exact ih st1 h1

theorem visitGroupInfos_budget {σ : Type} (J : List Ptr → σ → Prop)
    (vg : Group → σ → σ × Option Error) (vi : Ptr → σ → σ × Option Error)
    (hvg : ∀ g l st, J l st → J l (vg g st).1)
    (hvi : ∀ p l st, J (p :: l) st → J l (vi p st).1) (g : Group) (tail : List Ptr) (st : σ)
    (hJ : J (mapValues g.Infos ++ tail) st) :
    (∃ l, J l (visitGroupInfos (some vg) (some vi) g st).1) ∧
      ((visitGroupInfos (some vg) (some vi) g st).2 = none →
        J tail (visitGroupInfos (some vg) (some vi) g st).1) := by
  have h1 := hvg g _ st hJ
  cases hc : vg g st with
  | mk st1 e =>
    rw [hc] at h1
    cases e with
    | some err =>
      rw [visitGroupInfos_error _ _ g st st1 err hc]
      exact ⟨⟨_, h1⟩, fun hn => Option.noConfusion hn⟩
    | none =>
      rw [visitGroupInfos_ok _ _ g st st1 hc]
      exact visitEach_budget J vi hvi (mapValues g.Infos) tail st1 h1

theorem visitEach_groups_budget {σ : Type} (J : List Ptr → σ → Prop)
    (vg : Group → σ → σ × Option Error) (vi : Ptr → σ → σ × Option Error)
    (hvg : ∀ g l st, J l st → J l (vg g st).1)
    (hvi : ∀ p l st, J (p :: l) st → J l (vi p st).1) (tail : List Ptr) (gs : List Group) :
    ∀ st, J (gs.flatMap (fun g => mapValues g.Infos) ++ tail) st →
      (∃ l, J l (visitEach (visitGroupInfos (some vg) (some vi)) gs st).1) ∧
        ((visitEach (visitGroupInfos (some vg) (some vi)) gs st).2 = none →
          J tail (visitEach (visitGroupInfos (some vg) (some vi)) gs st).1) := by
  induction gs with
  | nil => intro st hJ; exact ⟨⟨_, hJ⟩, fun _ => hJ⟩
  | cons g rest ih =>
    intro st hJ
    rw [List.flatMap_cons, List.append_assoc] at hJ
    obtain ⟨h1, h2⟩ := visitGroupInfos_budget J vg vi hvg hvi g _ st hJ
    cases hv : visitGroupInfos (some vg) (some vi) g st with
    | mk st1 e =>
      rw [hv] at h1 h2
      cases e with
      | some err =>
        rw [visitEach_cons_error _ g rest st st1 err hv]
        exact ⟨h1, fun hn => Option.noConfusion hn⟩
      | none =>
        rw [visitEach_cons_ok _ g rest st st1 hv]
        exact ih st1 (h2 rfl)

theorem visitInfos_budget {σ : Type} (J : List Ptr → σ → Prop) (is : InfoStore)
    (vg : Group → σ → σ × Option Error) (vi : Ptr → σ → σ × Option Error)
    (hvg : ∀ g l st, J l st → J l (vg g st).1)
    (hvi : ∀ p l st, J (p :: l) st → J l (vi p st).1) (st : σ) (hJ : J (heldPtrs is) st) :
    ∃ l, J l (is.visitInfos (some vg) (some vi) st).1 := by
  obtain ⟨h1, h2⟩ := visitEach_groups_budget J vg vi hvg hvi (mapValues is.Infos)
    (mapValues is.Groups) st hJ
  cases hv : visitEach (visitGroupInfos (some vg) (some vi)) (mapValues is.Groups) st with
  | mk st1 e =>
    rw [hv] at h1 h2
    cases e with
    | some err =>
      rw [visitInfos_error is _ _ st st1 err hv]
      exact h1
    | none =>
      rw [visitInfos_ok is _ _ st st1 hv]
      have h3 := h2 rfl
      rw [← List.append_nil (mapValues is.Infos)] at h3
      exact (visitEach_budget J vi hvi _ [] st1 h3).1

theorem visitInfos_invariant_mem {σ : Type} (I : σ → Prop) (is : InfoStore)
    (vg : Group → σ → σ × Option Error) (vi : Ptr → σ → σ × Option Error)
    (hvg : ∀ g st, I st → I (vg g st).1)
    (hvi : ∀ p ∈ heldPtrs is, ∀ st, I st → I (vi p st).1)
    (st : σ) (hI : I st) : I (is.visitInfos (some vg) (some vi) st).1 := by
  have hstep : ∀ g ∈ mapValues is.Groups, ∀ st,
      I st → I (visitGroupInfos (some vg) (some vi) g st).1 := by
    intro g hg st hI
    have h1 := hvg g st hI
    cases hv : vg g st with
    | mk st1 e =>
      rw [hv] at h1
      cases e with
      | some err => rw [visitGroupInfos_error vg vi g st st1 err hv]; exact h1
      | none =>
        rw [visitGroupInfos_ok vg vi g st st1 hv]
        exact visitEach_invariant_mem I vi _
          (fun p hp => hvi p ((mem_heldPtrs is p).mpr (Or.inl ⟨g, hg, hp⟩))) st1 h1
  have h1 := visitEach_invariant_mem I (visitGroupInfos (some vg) (some vi))
    (mapValues is.Groups) hstep st hI
  cases hv : visitEach (visitGroupInfos (some vg) (some vi)) (mapValues is.Groups) st with
  | mk st1 e =>
    rw [hv] at h1
    cases e with
    | some err => rw [visitInfos_error is _ _ st st1 err hv]; exact h1
    | none =>
      rw [visitInfos_ok is _ _ st st1 hv]
      exact visitEach_invariant_mem I vi _
        (fun p hp => hvi p ((mem_heldPtrs is p).mpr (Or.inr hp))) st1 h1

theorem RegisterGroup_seqGen (is : InfoStore) (group : Group) :
    (is.RegisterGroup group).1.SeqGen = is.SeqGen := by
  unfold InfoStore.RegisterGroup
  cases is.Groups.lookup group.Prefix <;> rfl

theorem GetInfo_seqGen (G : GroupOps) (h : Heap) (now : Int) (is : InfoStore) (key : String) :
    (is.GetInfo G h now key).1.SeqGen = is.SeqGen := by
  unfold InfoStore.GetInfo
  cases is.belongsToGroup key with
  | some group => rfl
  | none =>
    cases is.Infos.lookup key with
    | none => rfl
    | some info =>
      by_cases ht : (h info).TTLStamp ≤ now
      · simp [ht]
      · simp [ht]

theorem AddInfo_issued (G : GroupOps) (hG : G.Admits) (h : Heap) (is : InfoStore)
    (c : List Ptr) (info : Ptr) (hinfo : (h info).Seq ≤ is.SeqGen) (hI : Issued h is c) :
    Issued (is.AddInfo G h info).1 (is.AddInfo G h info).2.1 c := by
  obtain ⟨h0, hm, hc, hh⟩ := hI
  have hseq : ∀ q, ((is.AddInfo G h info).1 q).Seq = (h q).Seq :=
    fun q => (AddInfo_heap G h is info q).1.2.2.2.2.1
  refine ⟨?_, ?_, fun p hp => ?_, fun p hp => ?_⟩
  · rw [AddInfo_seqGen]; exact h0
  · rw [AddInfo_seqGen, AddInfo_maxSeq]
    split_ifs <;> omega
  · rw [AddInfo_seqGen, hseq]; exact hc p hp
  · rw [AddInfo_seqGen, hseq]
    rcases AddInfo_held G hG h is info p hp with hp | ⟨hpi, _⟩
    · exact hh p hp
    · rw [hpi]; exact hinfo

theorem RegisterGroup_issued (h : Heap) (is : InfoStore) (c : List Ptr) (group : Group)
    (hE : mapValues group.Infos = []) (hI : Issued h is c) :
    Issued h (is.RegisterGroup group).1 c := by
  obtain ⟨h0, hm, hc, hh⟩ := hI
  refine ⟨?_, ?_, fun p hp => ?_, fun p hp => ?_⟩
  · rw [RegisterGroup_seqGen]; exact h0
  · rw [RegisterGroup_seqGen, RegisterGroup_maxSeq]; exact hm
  · rw [RegisterGroup_seqGen]; exact hc p hp
  · rw [RegisterGroup_seqGen]; exact hh p (RegisterGroup_held is group hE p hp)

theorem GetInfo_issued (G : GroupOps) (hG : G.Admits) (h : Heap) (now : Int) (is : InfoStore)
    (c : List Ptr) (key : String) (hI : Issued h is c) :
    Issued h (is.GetInfo G h now key).1 c := by
  obtain ⟨h0, hm, hc, hh⟩ := hI
  refine ⟨?_, ?_, fun p hp => ?_, fun p hp => ?_⟩
  · rw [GetInfo_seqGen]; exact h0
  · rw [GetInfo_seqGen, GetInfo_maxSeq]; exact hm
  · rw [GetInfo_seqGen]; exact hc p hp
  · rw [GetInfo_seqGen]; exact hh p (GetInfo_held G hG h now is key p hp)

theorem NewInfo_issued (lastTime clock : Int) (h : Heap) (is : InfoStore) (c : List Ptr)
    (key : String) (val ttl : Int) (info : Ptr) (hlt : is.SeqGen < maxInt64)
    (hI : Issued h is c) :
    Issued (is.NewInfo lastTime clock h key val ttl info).2.1
      (is.NewInfo lastTime clock h key val ttl info).2.2 (info :: c) ∧
    (is.NewInfo lastTime clock h key val ttl info).2.2.SeqGen = is.SeqGen + 1 := by
  obtain ⟨h0, hm, hc, hh⟩ := hI
  obtain ⟨hobj, hoth, hst⟩ := NewInfo_object lastTime clock h is key val ttl info
  have hw : wrapInt64 (is.SeqGen + 1) = is.SeqGen + 1 :=
    wrapInt64_of_range _ (by unfold minInt64; omega) (by omega)
  have hseq : ∀ q, ((is.NewInfo lastTime clock h key val ttl info).2.1 q).Seq ≤ is.SeqGen + 1 ∨
      (is.NewInfo lastTime clock h key val ttl info).2.1 q = h q := by
    intro q
    by_cases hq : q = info
    · left; rw [hq, hobj, hw]
    · right; exact hoth q hq
  have hle : ∀ q, (h q).Seq ≤ is.SeqGen →
      ((is.NewInfo lastTime clock h key val ttl info).2.1 q).Seq ≤ is.SeqGen + 1 := by
    intro q hq
    rcases hseq q with hs | hs
    · exact hs
    · rw [hs]; omega
  have hsg : (is.NewInfo lastTime clock h key val ttl info).2.2.SeqGen = is.SeqGen + 1 := by
    rw [hst]; exact hw
  have hms : (is.NewInfo lastTime clock h key val ttl info).2.2.MaxSeq = is.MaxSeq := by
    rw [hst]
  have hhp : heldPtrs (is.NewInfo lastTime clock h key val ttl info).2.2 = heldPtrs is := by
    rw [hst]; rfl
  refine ⟨⟨by rw [hsg]; omega, by rw [hsg, hms]; omega, fun p hp => ?_, fun p hp => ?_⟩, hsg⟩
  · rw [hsg]
    rcases List.mem_cons.mp hp with hp | hp
    · rw [hp, hobj, hw]
    · exact hle p (hc p hp)
  · rw [hsg]
    rw [hhp] at hp
    exact hle p (hh p hp)

theorem combineInfo_budget (G : GroupOps) (hG : G.Admits) (b : Int) (c : List Ptr) (p : Ptr)
    (l : List Ptr) (st : Heap × InfoStore) (hJ : Budget b c (p :: l) st) :
    Budget b c l (InfoStore.combineInfo G p st).1 := by
  obtain ⟨⟨h0, hm, hc, hh⟩, hb, hbm⟩ := hJ
  have hlen : (0 : Int) ≤ (l.length : Int) := Int.natCast_nonneg _
  simp only [List.length_cons, Nat.cast_add, Nat.cast_one] at hb
  have hw : wrapInt64 (st.2.SeqGen + 1) = st.2.SeqGen + 1 :=
    wrapInt64_of_range _ (by unfold minInt64; omega) (by omega)
  obtain ⟨hs1, _, _, hs4⟩ := combineStamp_self p st
  rw [hw] at hs1 hs4
  obtain ⟨hheld, hmax⟩ := combineStamp_store p st
  have hle : ∀ q, (st.1 q).Seq ≤ st.2.SeqGen →
      ((InfoStore.combineStamp p st).1 q).Seq ≤ st.2.SeqGen + 1 := by
    intro q hq
    by_cases hqp : q = p
    · rw [hqp, hs1]
    · rw [combineStamp_other p q st hqp]; omega
  have hI1 : Issued (InfoStore.combineStamp p st).1 (InfoStore.combineStamp p st).2 c := by
    refine ⟨by rw [hs4]; omega, by rw [hs4, hmax]; omega, fun q hq => ?_, fun q hq => ?_⟩
    · rw [hs4]; exact hle q (hc q hq)
    · rw [hs4]; rw [hheld] at hq; exact hle q (hh q hq)
  have hI2 := AddInfo_issued G hG _ _ c p (by rw [hs1, hs4]) hI1
  refine ⟨hI2, ?_, hbm⟩
  rw [combineInfo_seqGen, hw]
  omega

theorem combineGroup_budget (G : GroupOps) (hG : G.Admits) (b : Int) (c : List Ptr) (g : Group)
    (l : List Ptr) (st : Heap × InfoStore) (hJ : Budget b c l st) :
    Budget b c l (InfoStore.combineGroup G g st).1 := by
  unfold InfoStore.combineGroup
  cases st.2.Groups.lookup g.Prefix with
  | some _ => exact hJ
  | none =>
    cases hn : G.NewGroup g.Prefix g.Limit g.TypeOf with
    | error err => exact hJ
    | ok groupCopy =>
      obtain ⟨hI, hb, hbm⟩ := hJ
      refine ⟨RegisterGroup_issued st.1 st.2 c groupCopy (hG.newGroup _ _ _ _ hn) hI, ?_, hbm⟩
      simp only
      rw [RegisterGroup_seqGen]
      exact hb

theorem Combine_issued (G : GroupOps) (hG : G.Admits) (h : Heap) (is delta : InfoStore)
    (b : Int) (c : List Ptr) (hI : Issued h is c)
    (hb : is.SeqGen + (heldPtrs delta).length ≤ b) (hbm : b ≤ maxInt64) :
    Issued (is.Combine G h delta).1.1 (is.Combine G h delta).1.2 c ∧
    (is.Combine G h delta).1.2.SeqGen ≤ b := by
  obtain ⟨l, hJ, hl, _⟩ := visitInfos_budget (Budget b c) delta (InfoStore.combineGroup G)
    (InfoStore.combineInfo G) (fun g l st hJ => combineGroup_budget G hG b c g l st hJ)
    (fun p l st hJ => combineInfo_budget G hG b c p l st hJ) (h, is) ⟨hI, hb, hbm⟩
  refine ⟨hJ, ?_⟩
  have : (0 : Int) ≤ (l.length : Int) := Int.natCast_nonneg _
  unfold InfoStore.Combine
  omega

theorem deltaGroup_seqGen (G : GroupOps) (g : Group) (st : Heap × InfoStore) :
    (InfoStore.deltaGroup G g st).1.2.SeqGen = st.2.SeqGen ∧
    (InfoStore.deltaGroup G g st).1.1 = st.1 := by
  unfold InfoStore.deltaGroup
  cases hn : G.NewGroup g.Prefix g.Limit g.TypeOf with
  | error err => exact ⟨rfl, rfl⟩
  | ok dg => exact ⟨RegisterGroup_seqGen _ _, rfl⟩

theorem Delta_issued (G : GroupOps) (hG : G.Admits) (h : Heap) (is : InfoStore)
    (c : List Ptr) (hI : Issued h is c) (seq : Int) (d : InfoStore)
    (hd : (is.Delta G h seq).2.1 = some d) :
    d.MaxSeq ≤ d.SeqGen ∧ ∀ p ∈ heldPtrs d, ((is.Delta G h seq).1 p).Seq ≤ d.SeqGen := by
  obtain ⟨h0, hm, hc, hh⟩ := hI
  by_cases hs : seq ≥ is.MaxSeq
  · rw [Delta_no_deltas G h is seq hs] at hd
    exact Option.noConfusion hd
  · have hstart : DeltaIssued h is (h, ({ NewInfoStore with SeqGen := is.SeqGen } : InfoStore)) := by
      refine ⟨rfl, ⟨h0, h0, fun p hp => absurd hp (List.not_mem_nil _), fun p hp => ?_⟩,
        fun q => rfl⟩
      simp [heldPtrs, NewInfoStore, mapValues] at hp
    have hv := visitInfos_invariant_mem (DeltaIssued h is) is (InfoStore.deltaGroup G)
      (InfoStore.deltaInfo G seq)
      (fun g st hK => by
        obtain ⟨hsg, hIs, hq⟩ := hK
        obtain ⟨e1, e2⟩ := deltaGroup_seqGen G g st
        refine ⟨by rw [e1]; exact hsg, ?_, fun q => by rw [e2]; exact hq q⟩
        unfold InfoStore.deltaGroup
        cases hn : G.NewGroup g.Prefix g.Limit g.TypeOf with
        | error err => exact hIs
        | ok dg => exact RegisterGroup_issued st.1 st.2 [] dg (hG.newGroup _ _ _ _ hn) hIs)
      (fun p hp st hK => by
        obtain ⟨hsg, hIs, hq⟩ := hK
        unfold InfoStore.deltaInfo
        by_cases hgt : (st.1 p).Seq > seq
        · simp only [hgt, if_true]
          refine ⟨by rw [AddInfo_seqGen]; exact hsg,
            AddInfo_issued G hG st.1 st.2 [] p (by rw [hq, hsg]; exact hh p hp) hIs,
            fun q => by rw [(AddInfo_heap G st.1 st.2 p q).1.2.2.2.2.1]; exact hq q⟩
        · simp only [hgt, if_false]
          exact ⟨hsg, hIs, hq⟩)
      (h, { NewInfoStore with SeqGen := is.SeqGen }) hstart
    have hs' : ¬ seq ≥ is.MaxSeq := hs
    simp only [InfoStore.Delta, hs', if_false] at hd ⊢
    cases Option.some.inj hd
    exact ⟨hv.2.1.2.1, hv.2.1.2.2.2⟩

theorem issued_of_reachableOwn (G : GroupOps) (hG : G.Admits) (h : Heap) (is : InfoStore)
    (c : List Ptr) (n : Nat) (hr : ReachableOwn G h is c n) :
    (n : Int) ≤ maxInt64 → Issued h is c ∧ is.SeqGen ≤ n := by
  induction hr with
  | newInfoStore h =>
    intro _
    refine ⟨⟨le_refl _, le_refl _, fun p hp => absurd hp (List.not_mem_nil _), fun p hp => ?_⟩,
      le_refl _⟩
    simp [heldPtrs, NewInfoStore, mapValues] at hp
  | newInfo lastTime clock key val ttl info _ _ _ ih =>
    intro hn
    simp only [Nat.cast_add, Nat.cast_one] at hn ⊢
    obtain ⟨hI, hle⟩ := ih (by omega)
    obtain ⟨h1, h2⟩ := NewInfo_issued lastTime clock _ _ _ key val ttl info (by omega) hI
    exact ⟨h1, by rw [h2]; omega⟩
  | addInfo info hmem _ ih =>
    intro hn
    obtain ⟨hI, hle⟩ := ih hn
    exact ⟨AddInfo_issued G hG _ _ _ info (hI.2.2.1 info hmem) hI, by rw [AddInfo_seqGen]; exact hle⟩
  | registerGroup group hE _ ih =>
    intro hn
    obtain ⟨hI, hle⟩ := ih hn
    exact ⟨RegisterGroup_issued _ _ _ group hE hI, by rw [RegisterGroup_seqGen]; exact hle⟩
  | getInfo now key _ ih =>
    intro hn
    obtain ⟨hI, hle⟩ := ih hn
    exact ⟨GetInfo_issued G hG _ now _ _ key hI, by rw [GetInfo_seqGen]; exact hle⟩
  | combine delta _ ih =>
    intro hn
    simp only [Nat.cast_add] at hn ⊢
    have hpos : (0 : Int) ≤ ((heldPtrs delta).length : Int) := Int.natCast_nonneg _
    obtain ⟨hI, hle⟩ := ih (by omega)
    exact Combine_issued G hG _ _ delta _ _ hI (by omega) hn
  | write h1 hc hh _ ih =>
    intro hn
    obtain ⟨⟨h0, hm, hIc, hIh⟩, hle⟩ := ih hn
    exact ⟨⟨h0, hm, fun p hp => by rw [hc p hp]; exact hIc p hp,
      fun p hp => by rw [hh p hp]; exact hIh p hp⟩, hle⟩

theorem wrapInt64_succ (x : Int) : wrapInt64 (wrapInt64 x + 1) = wrapInt64 (x + 1) := by
  unfold wrapInt64
  omega

theorem createRun_store (n : Nat) :
    (createRun n).2.2 = { NewInfoStore with SeqGen := wrapInt64 n } := by
  induction n with
  | zero => rfl
  | succ n ih =>
    simp only [createRun]
    rw [(NewInfo_object _ _ _ _ _ _ _ _).2.2, ih]
    simp only [Nat.cast_add, Nat.cast_one, wrapInt64_succ]

theorem createRun_last (n : Nat) :
    (createRun (n + 1)).2.1 n =
      ⟨"k", 0, (MonotonicUnixNano (createRun n).1 (n + 1)).2,
        wrapInt64 ((MonotonicUnixNano (createRun n).1 (n + 1)).2 + 0), wrapInt64 (n + 1),
        "localhost", 0⟩ := by
  simp only [createRun]
  rw [(NewInfo_object _ _ _ _ _ _ _ _).1, createRun_store n]
  simp only [wrapInt64_succ]

theorem createdBy_lt (n : Nat) : ∀ p ∈ createdBy n, p < n := by
  induction n with
  | zero => intro p hp; exact absurd hp (List.not_mem_nil _)
  | succ n ih =>
    intro p hp
    rcases List.mem_cons.mp hp with hp | hp
    · rw [hp]; exact Nat.lt_succ_self n
    · exact Nat.lt_succ_of_lt (ih p hp)

theorem createRun_reachable (G : GroupOps) (n : Nat) :
    ReachableOwn G (createRun n).2.1 (createRun n).2.2 (createdBy n) n := by
  induction n with
  | zero => exact ReachableOwn.newInfoStore _
  | succ n ih =>
    refine ReachableOwn.newInfo (createRun n).1 (n + 1) "k" 0 0 n
      (fun hp => absurd (createdBy_lt n n hp) (lt_irrefl n)) ?_ ih
    rw [createRun_store n]
    simp [heldPtrs, NewInfoStore, mapValues]

theorem wrapRun_spec (n : Nat) (hpos : 0 < wrapInt64 (n + 1)) :
    ReachableOwn noGroupOps (wrapRun n).2.1 (wrapRun n).2.2 ((n + 1) :: createdBy (n + 1))
      (n + 1 + 1) ∧
    (wrapRun n).2.2.MaxSeq = wrapInt64 (n + 1) ∧
    (wrapRun n).2.2.SeqGen = wrapInt64 (n + 1 + 1) ∧
    heldPtrs (wrapRun n).2.2 = [n] ∧
    ((wrapRun n).2.1 n).Seq = wrapInt64 (n + 1) := by
  have hst := createRun_store (n + 1)
  have hlast := createRun_last n
  have hkey : ((createRun (n + 1)).2.1 n).Key = "k" := by rw [hlast]
  have hseq : ((createRun (n + 1)).2.1 n).Seq = wrapInt64 (n + 1) := by rw [hlast]
  have hgr : (createRun (n + 1)).2.2.Groups = ∅ := by rw [hst]; rfl
  have hinf : (createRun (n + 1)).2.2.Infos = ∅ := by rw [hst]; rfl
  have hms : (createRun (n + 1)).2.2.MaxSeq = 0 := by rw [hst]; rfl
  have hsg : (createRun (n + 1)).2.2.SeqGen = wrapInt64 (n + 1) := by
    rw [hst]; simp only [Nat.cast_add, Nat.cast_one]
  have hb : (createRun (n + 1)).2.2.belongsToGroup ((createRun (n + 1)).2.1 n).Key = none := by
    unfold InfoStore.belongsToGroup
    rw [hgr]; rfl
  have hl : (createRun (n + 1)).2.2.Infos.lookup ((createRun (n + 1)).2.1 n).Key = none := by
    rw [hinf]; rfl
  have hadd := AddInfo_absent noGroupOps (createRun (n + 1)).2.1 (createRun (n + 1)).2.2 n hb hl
  have hgt : ((createRun (n + 1)).2.1 n).Seq > (createRun (n + 1)).2.2.MaxSeq := by
    rw [hseq, hms]; exact hpos
  rw [if_pos hgt, hkey, hinf, hseq] at hadd
  have hheld : heldPtrs ((createRun (n + 1)).2.2.AddInfo noGroupOps (createRun (n + 1)).2.1 n).2.1 =
      [n] := by
    rw [hadd]
    simp only [heldPtrs, hgr]
    rfl
  have hreach : ReachableOwn noGroupOps (wrapRun n).2.1 (wrapRun n).2.2
      ((n + 1) :: createdBy (n + 1)) (n + 1 + 1) := by
    refine ReachableOwn.newInfo _ 0 "k" 0 0 (n + 1)
      (fun hp => absurd (createdBy_lt (n + 1) (n + 1) hp) (lt_irrefl _)) ?_
      (ReachableOwn.addInfo n (List.mem_cons_self _ _) (createRun_reachable noGroupOps (n + 1)))
    rw [hheld]
    simp
  obtain ⟨_, hoth, hnew⟩ := NewInfo_object (createRun (n + 1)).1 0
    ((createRun (n + 1)).2.2.AddInfo noGroupOps (createRun (n + 1)).2.1 n).1
    ((createRun (n + 1)).2.2.AddInfo noGroupOps (createRun (n + 1)).2.1 n).2.1 "k" 0 0 (n + 1)
  have hw : (wrapRun n).2.2 =
      { ((createRun (n + 1)).2.2.AddInfo noGroupOps (createRun (n + 1)).2.1 n).2.1 with
        SeqGen := wrapInt64
          (((createRun (n + 1)).2.2.AddInfo noGroupOps (createRun (n + 1)).2.1 n).2.1.SeqGen +
            1) } := hnew
  refine ⟨hreach, ?_, ?_, ?_, ?_⟩
  · rw [hw, hadd]
  · rw [hw, hadd]
    simp only [hsg, wrapInt64_succ, Nat.cast_add, Nat.cast_one]
  · rw [hw]
    exact hheld
  · have hne : n ≠ n + 1 := by omega
    have h1 : (wrapRun n).2.1 n =
        ((createRun (n + 1)).2.2.AddInfo noGroupOps (createRun (n + 1)).2.1 n).1 n :=
      hoth n hne
    rw [h1, hadd]
    exact hseq

theorem reachableOwn_bounds (G : GroupOps) (hG : G.Admits) (h : Heap) (is : InfoStore)
    (c : List Ptr) (n : Nat) (hr : ReachableOwn G h is c n) (hn : (n : Int) ≤ maxInt64) :
    is.MaxSeq ≤ is.SeqGen ∧ (∀ p ∈ heldPtrs is, (h p).Seq ≤ is.SeqGen) ∧
    ∀ seq d, (is.Delta G h seq).2.1 = some d →
      d.MaxSeq ≤ d.SeqGen ∧ ∀ p ∈ heldPtrs d, ((is.Delta G h seq).1 p).Seq ≤ d.SeqGen := by
  obtain ⟨hI, _⟩ := issued_of_reachableOwn G hG h is c n hr hn
  exact ⟨hI.2.1, hI.2.2.2, fun seq d hd => Delta_issued G hG h is c hI seq d hd⟩

/-- C20 as stated fails in two ways. A store that created and added two
Infos (`SeqGen` 2) hands its `Delta(0)` to a peer whose generator stands at
40: the peer's `Combine` writes the Info objects the store holds, and the store
is left holding an Info of Seq 41 with `SeqGen` 2. And the generator wraps: a
new store that creates 2^63 - 1 Infos, adds the last one (Seq 2^63 - 1, which
becomes `MaxSeq`) and creates one more Info is left with `SeqGen` at the
smallest `int64`, below `MaxSeq` and below the Seq of the Info it holds. -/
theorem SeqGen_wraps_below_MaxSeq :
    ReachableOwn capGroupOps ownTwo.2.1 ownTwo.2.2 [1, 0] 2 ∧
    heldPtrs ownTwo.2.2 = [1, 0] ∧ ownTwo.2.2.SeqGen = 2 ∧
    ((roundTrip capGroupOps ownTwo.2.1 storeForty ownTwo.2.2 50 "a").1 0).Seq = 41 ∧
    ReachableOwn noGroupOps (wrapRun 9223372036854775806).2.1
      (wrapRun 9223372036854775806).2.2
      ((9223372036854775806 + 1) :: createdBy (9223372036854775806 + 1))
      (9223372036854775806 + 1 + 1) ∧
    (wrapRun 9223372036854775806).2.2.MaxSeq = 9223372036854775807 ∧
    (wrapRun 9223372036854775806).2.2.SeqGen = -9223372036854775808 ∧
    heldPtrs (wrapRun 9223372036854775806).2.2 = [9223372036854775806] ∧
    ((wrapRun 9223372036854775806).2.1 9223372036854775806).Seq = 9223372036854775807 := by
  have h1 : wrapInt64 (((9223372036854775806 : Nat) : Int) + 1) = 9223372036854775807 := by
    unfold wrapInt64; omega
  have h2 : wrapInt64 (((9223372036854775806 : Nat) : Int) + 1 + 1) = -9223372036854775808 := by
    unfold wrapInt64; omega
  obtain ⟨hr, hm, hs, hh, hq⟩ := wrapRun_spec 9223372036854775806 (by rw [h1]; omega)
  rw [h1] at hm hq
  rw [h2] at hs
  exact ⟨ReachableOwn.addInfo 1 (List.mem_cons_self _ _)
      (ReachableOwn.newInfo 0 6 "b" 11 100 1 (by decide) (by decide)
        (ReachableOwn.addInfo 0 (List.mem_cons_self _ _)
          (ReachableOwn.newInfo 0 5 "a" 10 100 0 (by decide) (by decide)
            (ReachableOwn.newInfoStore _)))),
    by decide, by decide, by decide, hr, hm, hs, hh, hq⟩

/-- C20 (amended): for a Group collaborator whose new groups hold no Info and
whose `AddInfo` and `GetInfo` bring no Info into a group but the one offered
and admitted: in every store reached from `NewInfoStore()` by `NewInfo`, by
`AddInfo` of Infos that the store's own `NewInfo` created, by `RegisterGroup`
of groups that hold no Info, by `GetInfo` and by `Combine` of any delta, while
nothing else in the program writes an Info object that the store created or
holds (other Info objects may be written at any time), and as long as the
number of `NewInfo` calls plus the number of Infos in the combined deltas is at
most the largest `int64` (the generator has not wrapped), `MaxSeq <= SeqGen`
and every held Info has `Seq <= SeqGen`; and every store that `Delta` returns
on such a store satisfies the same bound when it is returned. -/
theorem SeqGen_bounds_own (G : GroupOps) (hG : G.Admits) (h : Heap) (is : InfoStore)
    (c : List Ptr) (n : Nat) (hr : ReachableOwn G h is c n) (hn : (n : Int) ≤ maxInt64) :
    is.MaxSeq ≤ is.SeqGen ∧ (∀ p ∈ heldPtrs is, (h p).Seq ≤ is.SeqGen) ∧
    ∀ seq d, (is.Delta G h seq).2.1 = some d →
      d.MaxSeq ≤ d.SeqGen ∧ ∀ p ∈ heldPtrs d, ((is.Delta G h seq).1 p).Seq ≤ d.SeqGen :=
  reachableOwn_bounds G hG h is c n hr hn

/-- On the store that created and added the Infos of keys `a` and `b`: it
holds both, `MaxSeq` and `SeqGen` are 2, and the bound holds for the store and
for its deltas. -/
theorem SeqGen_bounds_own_witness :
    capGroupOps.Admits ∧ ReachableOwn capGroupOps ownTwo.2.1 ownTwo.2.2 [1, 0] 2 ∧
    ((2 : Nat) : Int) ≤ maxInt64 ∧
    heldPtrs ownTwo.2.2 = [1, 0] ∧ ownTwo.2.2.MaxSeq = 2 ∧ ownTwo.2.2.SeqGen = 2 ∧
    (ownTwo.2.2.MaxSeq ≤ ownTwo.2.2.SeqGen ∧
      (∀ p ∈ heldPtrs ownTwo.2.2, (ownTwo.2.1 p).Seq ≤ ownTwo.2.2.SeqGen) ∧
      ∀ seq d, (ownTwo.2.2.Delta capGroupOps ownTwo.2.1 seq).2.1 = some d →
        d.MaxSeq ≤ d.SeqGen ∧
          ∀ p ∈ heldPtrs d,
            ((ownTwo.2.2.Delta capGroupOps ownTwo.2.1 seq).1 p).Seq ≤ d.SeqGen) :=
  ⟨capGroupOps_admits,
    ReachableOwn.addInfo 1 (List.mem_cons_self _ _)
      (ReachableOwn.newInfo 0 6 "b" 11 100 1 (by decide) (by decide)
        (ReachableOwn.addInfo 0 (List.mem_cons_self _ _)
          (ReachableOwn.newInfo 0 5 "a" 10 100 0 (by decide) (by decide)
            (ReachableOwn.newInfoStore _)))),
    by decide, by decide, by decide, by decide,
    SeqGen_bounds_own capGroupOps capGroupOps_admits ownTwo.2.1 ownTwo.2.2 [1, 0] 2
      (ReachableOwn.addInfo 1 (List.mem_cons_self _ _)
        (ReachableOwn.newInfo 0 6 "b" 11 100 1 (by decide) (by decide)
          (ReachableOwn.addInfo 0 (List.mem_cons_self _ _)
            (ReachableOwn.newInfo 0 5 "a" 10 100 0 (by decide) (by decide)
              (ReachableOwn.newInfoStore _)))))
      (by decide)⟩

/-! ### `Delta` and `Combine` in a row -/

theorem AddInfo_lookup_other (G : GroupOps) (h : Heap) (is : InfoStore) (info : Ptr)
    (k : String) (hk : k ≠ (h info).Key) :
    (is.AddInfo G h info).2.1.Infos.lookup k = is.Infos.lookup k := by
  unfold InfoStore.AddInfo
  cases is.belongsToGroup (h info).Key with
  | some group =>
    by_cases hb : (G.AddInfo h group info).2 = true
    · simp [hb]
    · simp [hb]
  | none =>
    cases is.Infos.lookup (h info).Key with
    | none => simp [AList.lookup_insert_ne hk]
    | some e =>
      by_cases ht : (h info).Timestamp ≤ (h e).Timestamp
      · simp [ht]
      · by_cases hh : (h e).Hops < (h info).Hops
        · simp [ht, hh, setHops_self, AList.lookup_insert_ne hk]
        · simp [ht, hh, AList.lookup_insert_ne hk]

theorem combineInfo_kept (G : GroupOps) (k : String) (v : Option Ptr) (ps : List Ptr)
    (h0 : Heap) (q : Ptr) (hq : (h0 q).Key ≠ k) (hps : q ∉ ps) (st : Heap × InfoStore)
    (hK : Kept k v ps h0 st) : Kept k v ps h0 (InfoStore.combineInfo G q st).1 := by
  obtain ⟨hl, hg, hp, hkey⟩ := hK
  obtain ⟨hsi, hsg⟩ := combineStamp_maps q st
  refine ⟨?_, ?_, fun r hr => ?_, fun r => by rw [combineInfo_key, hkey]⟩
  · simp only [InfoStore.combineInfo]
    rw [AddInfo_lookup_other, hsi, hl]
    rw [combineStamp_key, hkey]
    exact fun hc => hq hc.symm
  · simp only [InfoStore.combineInfo]
    rw [AddInfo_groups_mem, hsg]
    exact hg
  · rw [combineInfo_other G q r st (fun hrq => hps (hrq ▸ hr))]
    exact hp r hr

theorem visitEach_combineInfo_kept (G : GroupOps) (k : String) (v : Option Ptr)
    (ps : List Ptr) (h0 : Heap) (qs : List Ptr) (hq : ∀ q ∈ qs, (h0 q).Key ≠ k ∧ q ∉ ps)
    (st : Heap × InfoStore) (hK : Kept k v ps h0 st) :
    Kept k v ps h0 (visitEach (InfoStore.combineInfo G) qs st).1 :=
  visitEach_invariant_mem (Kept k v ps h0) (InfoStore.combineInfo G) qs
    (fun q hqm s hs => combineInfo_kept G k v ps h0 q (hq q hqm).1 (hq q hqm).2 s hs) st hK

theorem combineInfo_delivers (G : GroupOps) (h : Heap) (p : Ptr) (v : Option Ptr)
    (st : Heap × InfoStore)
    (hK : Kept (h p).Key v (p :: v.toList) h st)
    (hinc : ∀ e, v = some e → (h e).Timestamp < (h p).Timestamp ∧
      (h p).Hops + 1 ≤ (h e).Hops ∧ e ≠ p)
    (hhops : (h p).Hops < maxUint32) :
    (InfoStore.combineInfo G p st).1.2.Infos.lookup (h p).Key = some p ∧
    infoPrefix (h p).Key ∉ (InfoStore.combineInfo G p st).1.2.Groups ∧
    (InfoStore.combineInfo G p st).1.1 p = (InfoStore.combineStamp p st).1 p := by
  obtain ⟨hl, hg, hp, hkey⟩ := hK
  obtain ⟨hsi, hsg⟩ := combineStamp_maps p st
  obtain ⟨_, hsh, hsame, _⟩ := combineStamp_self p st
  have hpp : st.1 p = h p := hp p (List.mem_cons_self _ _)
  have hk1 : ((InfoStore.combineStamp p st).1 p).Key = (h p).Key := by
    rw [combineStamp_key, hkey]
  have hh1 : ((InfoStore.combineStamp p st).1 p).Hops = (h p).Hops + 1 := by
    rw [hsh, hpp]
    exact wrapUint32_of_le _ (by omega)
  have ht1 : ((InfoStore.combineStamp p st).1 p).Timestamp = (h p).Timestamp := by
    rw [hsame.2.2.1, hpp]
  have hb : (InfoStore.combineStamp p st).2.belongsToGroup
      ((InfoStore.combineStamp p st).1 p).Key = none := by
    apply lookup_groups_none
    rw [hk1, hsg]
    exact hg
  have hgm : infoPrefix (h p).Key ∉ (InfoStore.combineInfo G p st).1.2.Groups := by
    simp only [InfoStore.combineInfo]
    rw [AddInfo_groups_mem, hsg]
    exact hg
  refine ⟨?_, hgm, ?_⟩
  · simp only [InfoStore.combineInfo]
    cases hv : v with
    | none =>
      have hn : (InfoStore.combineStamp p st).2.Infos.lookup
          ((InfoStore.combineStamp p st).1 p).Key = none := by
        rw [hk1, hsi, hl, hv]
      rw [AddInfo_absent G _ _ p hb hn, hk1]
      exact AList.lookup_insert _
    | some e =>
      obtain ⟨hte, hhe, hep⟩ := hinc e hv
      have hee : (InfoStore.combineStamp p st).1 e = h e := by
        rw [combineStamp_other p e st hep]
        exact hp e (List.mem_cons_of_mem _ (by rw [hv]; simp))
      have he : (InfoStore.combineStamp p st).2.Infos.lookup
          ((InfoStore.combineStamp p st).1 p).Key = some e := by
        rw [hk1, hsi, hl, hv]
      have ht : ((InfoStore.combineStamp p st).1 e).Timestamp <
          ((InfoStore.combineStamp p st).1 p).Timestamp := by
        rw [hee, ht1]; exact hte
      rw [AddInfo_newer G _ _ p e hb he ht, hk1]
      exact AList.lookup_insert _
  · simp only [InfoStore.combineInfo]
    cases hv : v with
    | none =>
      have hn : (InfoStore.combineStamp p st).2.Infos.lookup
          ((InfoStore.combineStamp p st).1 p).Key = none := by
        rw [hk1, hsi, hl, hv]
      rw [AddInfo_absent G _ _ p hb hn]
    | some e =>
      obtain ⟨hte, hhe, hep⟩ := hinc e hv
      have hee : (InfoStore.combineStamp p st).1 e = h e := by
        rw [combineStamp_other p e st hep]
        exact hp e (List.mem_cons_of_mem _ (by rw [hv]; simp))
      have he : (InfoStore.combineStamp p st).2.Infos.lookup
          ((InfoStore.combineStamp p st).1 p).Key = some e := by
        rw [hk1, hsi, hl, hv]
      have ht : ((InfoStore.combineStamp p st).1 e).Timestamp <
          ((InfoStore.combineStamp p st).1 p).Timestamp := by
        rw [hee, ht1]; exact hte
      rw [AddInfo_newer G _ _ p e hb he ht]
      simp only
      rw [setHops_self, hee, hh1, min_eq_right hhe, ← hh1]

theorem Combine_delivers (G : GroupOps) (h : Heap) (A d : InfoStore) (pre post : List Ptr)
    (p : Ptr) (hdg : d.Groups = ∅) (hsplit : mapValues d.Infos = pre ++ p :: post)
    (hnd : (pre ++ p :: post).Nodup)
    (hkeys : ∀ q, q ∈ pre ∨ q ∈ post → (h q).Key ≠ (h p).Key)
    (hgA : infoPrefix (h p).Key ∉ A.Groups)
    (hinc : ∀ e, A.Infos.lookup (h p).Key = some e → (h e).Timestamp < (h p).Timestamp ∧
      (h p).Hops + 1 ≤ (h e).Hops ∧ e ∉ pre ++ p :: post)
    (hlo : minInt64 ≤ A.SeqGen) (hhi : A.SeqGen + (pre ++ p :: post).length ≤ maxInt64)
    (hhops : (h p).Hops < maxUint32) :
    (A.Combine G h d).2 = none ∧
    (A.Combine G h d).1.2.Infos.lookup (h p).Key = some p ∧
    infoPrefix (h p).Key ∉ (A.Combine G h d).1.2.Groups ∧
    sameButSeqHops ((A.Combine G h d).1.1 p) (h p) ∧
    ((A.Combine G h d).1.1 p).Hops = (h p).Hops + 1 ∧
    ((A.Combine G h d).1.1 p).Seq = A.SeqGen + (pre.length + 1) := by
  obtain ⟨_, ho2, ho3, ho4⟩ := Combine_offers G h A pre post p hnd hlo hhi hhops
  have hp_pre : p ∉ pre := fun hm =>
    (List.nodup_append.mp hnd).2.2 hm (List.mem_cons_self _ _)
  have hp_post : p ∉ post := (List.nodup_cons.mp (List.nodup_append.mp hnd).2.1).1
  have hK1 : Kept (h p).Key (A.Infos.lookup (h p).Key) (p :: (A.Infos.lookup (h p).Key).toList) h
      (visitEach (InfoStore.combineInfo G) pre (h, A)).1 := by
    apply visitEach_combineInfo_kept G _ _ _ h pre _ (h, A)
      ⟨rfl, hgA, fun _ _ => rfl, fun _ => rfl⟩
    intro q hq
    refine ⟨hkeys q (Or.inl hq), fun hm => ?_⟩
    rcases List.mem_cons.mp hm with hm | hm
    · exact hp_pre (hm ▸ hq)
    · have he : A.Infos.lookup (h p).Key = some q := by
        cases hv : A.Infos.lookup (h p).Key with
        | none => rw [hv] at hm; simp at hm
        | some e => rw [hv] at hm; simp at hm; rw [hm]
      exact (hinc q he).2.2 (List.mem_append_left _ hq)
  have hinc1 : ∀ e, A.Infos.lookup (h p).Key = some e → (h e).Timestamp < (h p).Timestamp ∧
      (h p).Hops + 1 ≤ (h e).Hops ∧ e ≠ p := by
    intro e he
    obtain ⟨h1, h2, h3⟩ := hinc e he
    exact ⟨h1, h2, fun hep => h3 (hep ▸ List.mem_append_right _ (List.mem_cons_self _ _))⟩
  obtain ⟨hd1, hd2, hd3⟩ := combineInfo_delivers G h p _ _ hK1 hinc1 hhops
  have hK2 : Kept (h p).Key (some p) [p]
      (InfoStore.combineInfo G p (visitEach (InfoStore.combineInfo G) pre (h, A)).1).1.1
      (visitEach (InfoStore.combineInfo G) post
        (InfoStore.combineInfo G p (visitEach (InfoStore.combineInfo G) pre (h, A)).1).1).1 := by
    apply visitEach_combineInfo_kept G _ _ _ _ post _ _
      ⟨hd1, hd2, fun _ _ => rfl, fun _ => rfl⟩
    intro q hq
    refine ⟨?_, fun hm => ?_⟩
    · rw [combineInfo_key, hK1.2.2.2]
      exact hkeys q (Or.inr hq)
    · rw [List.mem_singleton] at hm
      exact hp_post (hm ▸ hq)
  have hfin : A.Combine G h d =
      visitEach (InfoStore.combineInfo G) post
        (InfoStore.combineInfo G p (visitEach (InfoStore.combineInfo G) pre (h, A)).1).1 := by
    rw [Combine_groups_empty G h A d hdg, hsplit,
      visitEach_append_of_no_error _ (combineInfo_error G),
      visitEach_cons_of_no_error _ (combineInfo_error G)]
  have hpfin : (A.Combine G h d).1.1 p =
      (InfoStore.combineStamp p (visitEach (InfoStore.combineInfo G) pre (h, A)).1).1 p := by
    rw [hfin, hK2.2.2.1 p (List.mem_singleton_self p), hd3]
  refine ⟨?_, ?_, ?_, ?_, ?_, ?_⟩
  · rw [hfin]
    exact visitEach_no_error _ (combineInfo_error G) _ _
  · rw [hfin]; exact hK2.1
  · rw [hfin]; exact hK2.2.1
  · rw [hpfin]; exact ho3
  · rw [hpfin]; exact ho2
  · rw [Combine_groups_empty G h A d hdg, hsplit]; exact ho4

theorem Combine_of_delta_delivers (G : GroupOps) (h : Heap) (A B d : InfoStore)
    (hl : ∀ k p, d.Infos.lookup k = some p ↔
      (p ∈ mapValues B.Infos ∧ (h p).Key = k ∧ 0 < (h p).Seq))
    (hdg : d.Groups = ∅) (hwk : WellKeyed h B.Infos)
    (hpos : ∀ q ∈ mapValues B.Infos, 0 < (h q).Seq)
    (hlo : minInt64 ≤ A.SeqGen) (hhi : A.SeqGen + (mapValues B.Infos).length ≤ maxInt64)
    (k : String) (p : Ptr) (hk : B.Infos.lookup k = some p)
    (hgA : infoPrefix k ∉ A.Groups)
    (hinc : ∀ e, A.Infos.lookup k = some e → (h e).Timestamp < (h p).Timestamp ∧
      (h p).Hops + 1 ≤ (h e).Hops ∧ e ∉ mapValues B.Infos)
    (hhops : (h p).Hops < maxUint32) :
    (∀ now, now < (h p).TTLStamp →
      ((A.Combine G h d).1.2.GetInfo G (A.Combine G h d).1.1 now k).2 = some p) ∧
    ((A.Combine G h d).1.1 p).Key = (h p).Key ∧
    ((A.Combine G h d).1.1 p).Val = (h p).Val ∧
    ((A.Combine G h d).1.1 p).Timestamp = (h p).Timestamp ∧
    ((A.Combine G h d).1.1 p).TTLStamp = (h p).TTLStamp ∧
    ((A.Combine G h d).1.1 p).Hops = (h p).Hops + 1 ∧
    ∃ pre post, mapValues d.Infos = pre ++ p :: post ∧
      ((A.Combine G h d).1.1 p).Seq = A.SeqGen + (pre.length + 1) := by
  have hpm : p ∈ mapValues B.Infos := (mem_mapValues_iff _ _).mpr ⟨k, hk⟩
  have hkp : (h p).Key = k := hwk k p hk
  have hdw : WellKeyed h d.Infos := fun k' q hq => ((hl k' q).mp hq).2.1
  have hsub : ∀ q ∈ mapValues d.Infos, q ∈ mapValues B.Infos := by
    intro q hq
    obtain ⟨k', hk'⟩ := (mem_mapValues_iff _ _).mp hq
    exact ((hl k' q).mp hk').1
  have hkn := keys_nodup_of_wellKeyed h _ hdw
  have hnd : (mapValues d.Infos).Nodup := List.Nodup.of_map _ hkn
  have hpd : p ∈ mapValues d.Infos :=
    (mem_mapValues_iff _ _).mpr ⟨k, (hl k p).mpr ⟨hpm, hkp, hpos p hpm⟩⟩
  obtain ⟨pre, post, hsplit⟩ := List.append_of_mem hpd
  have hlen : (mapValues d.Infos).length ≤ (mapValues B.Infos).length :=
    (hnd.subperm hsub).length_le
  have hlen' : ((mapValues d.Infos).length : Int) ≤ ((mapValues B.Infos).length : Int) :=
    Int.ofNat_le.mpr hlen
  rw [hsplit] at hkn hnd hlen'
  have hkeys : ∀ q, q ∈ pre ∨ q ∈ post → (h q).Key ≠ (h p).Key := by
    intro q hq hc
    rw [List.map_append, List.map_cons] at hkn
    obtain ⟨_, hn2, hdisj⟩ := List.nodup_append.mp hkn
    rcases hq with hq | hq
    · exact hdisj (List.mem_map.mpr ⟨q, hq, rfl⟩) (hc ▸ List.mem_cons_self _ _)
    · exact (List.nodup_cons.mp hn2).1 (hc ▸ List.mem_map.mpr ⟨q, hq, rfl⟩)
  have hinc' : ∀ e, A.Infos.lookup (h p).Key = some e → (h e).Timestamp < (h p).Timestamp ∧
      (h p).Hops + 1 ≤ (h e).Hops ∧ e ∉ pre ++ p :: post := by
    intro e he
    rw [hkp] at he
    obtain ⟨h1, h2, h3⟩ := hinc e he
    exact ⟨h1, h2, fun hm => h3 (hsub e (hsplit ▸ hm))⟩
  obtain ⟨_, hc2, hc3, hc4, hc5, hc6⟩ := Combine_delivers G h A d pre post p hdg hsplit hnd hkeys
    (hkp ▸ hgA) hinc' hlo (by omega) hhops
  rw [hkp] at hc2 hc3
  refine ⟨fun now hnow => ?_, hc4.1, hc4.2.1, hc4.2.2.1, hc4.2.2.2.1, hc5, pre, post, hsplit,
    hc6⟩
  rw [((GetInfo_ungrouped G _ now _ k hc3).2.1 p hc2 (by rw [hc4.2.2.2.1]; exact hnow))]

theorem Delta_Combine_delivers (G : GroupOps) (h : Heap) (A B : InfoStore)
    (hg : B.Groups = ∅) (hwk : WellKeyed h B.Infos)
    (hpos : ∀ q ∈ mapValues B.Infos, 0 < (h q).Seq)
    (hmax : ∀ q ∈ mapValues B.Infos, (h q).Seq ≤ B.MaxSeq)
    (hne : mapValues B.Infos ≠ [])
    (hlo : minInt64 ≤ A.SeqGen) (hhi : A.SeqGen + (mapValues B.Infos).length ≤ maxInt64) :
    ∃ d, B.Delta G h 0 = (h, some d, none) ∧
      (A.Combine G h d).2 = none ∧
      ∀ k p, B.Infos.lookup k = some p → infoPrefix k ∉ A.Groups →
        (∀ e, A.Infos.lookup k = some e → (h e).Timestamp < (h p).Timestamp ∧
          (h p).Hops + 1 ≤ (h e).Hops ∧ e ∉ mapValues B.Infos) →
        (h p).Hops < maxUint32 →
        (∀ now, now < (h p).TTLStamp →
          ((A.Combine G h d).1.2.GetInfo G (A.Combine G h d).1.1 now k).2 = some p) ∧
        ((A.Combine G h d).1.1 p).Key = (h p).Key ∧
        ((A.Combine G h d).1.1 p).Val = (h p).Val ∧
        ((A.Combine G h d).1.1 p).Timestamp = (h p).Timestamp ∧
        ((A.Combine G h d).1.1 p).TTLStamp = (h p).TTLStamp ∧
        ((A.Combine G h d).1.1 p).Hops = (h p).Hops + 1 ∧
        ∃ pre post, mapValues d.Infos = pre ++ p :: post ∧
          ((A.Combine G h d).1.1 p).Seq = A.SeqGen + (pre.length + 1) := by
  obtain ⟨p0, hp0⟩ := List.exists_mem_of_ne_nil _ hne
  have hseq : (0 : Int) < B.MaxSeq := lt_of_lt_of_le (hpos p0 hp0) (hmax p0 hp0)
  obtain ⟨d, hd, hl, hdg, _⟩ := Delta_contents G h B 0 hg (keys_nodup_of_wellKeyed h _ hwk) hseq
  refine ⟨d, hd, ?_, fun k p hk hgA hinc hhops =>
    Combine_of_delta_delivers G h A B d hl hdg hwk hpos hlo hhi k p hk hgA hinc hhops⟩
  rw [Combine_groups_empty G h A d hdg]
  exact visitEach_no_error _ (combineInfo_error G) _ _

theorem ownTwo_wellKeyed : WellKeyed ownTwo.2.1 ownTwo.2.2.Infos := by
  intro k p hp
  have hm := AList.mem_lookup_iff.mp hp
  have he : ownTwo.2.2.Infos.entries = [⟨"b", 1⟩, ⟨"a", 0⟩] := by decide
  rw [he] at hm
  simp only [List.mem_cons, List.mem_singleton, Sigma.mk.inj_iff, heq_eq_eq, List.mem_nil_iff,
    or_false] at hm
  rcases hm with ⟨hk, hq⟩ | ⟨hk, hq⟩
  · rw [hk, hq]; decide
  · rw [hk, hq]; decide

/-- C11 as stated fails for a receiver that already holds the key. When A
holds a newer Info under key `a` (value 99, timestamp 9) than B's (value 10,
timestamp 5), after `A.Combine(B.Delta(0))` A's `GetInfo` still returns A's own
Info, with value 99 and timestamp 9. When A holds an older Info under the key
that it created itself (Hops 0), `GetInfo` returns B's Info with `Hops` 0, not
B's `Hops` plus 1. In both cases B is a store without groups whose Info was
created by `B.NewInfo` and added by `B.AddInfo`. -/
theorem Delta_Combine_keeps_incumbent :
    tripNewer.2.2.2.Infos.lookup "a" = some 0 ∧
    (tripNewer.1.2.1 0).Val = 10 ∧ (tripNewer.1.2.1 0).Timestamp = 5 ∧
    (roundTrip noGroupOps tripNewer.1.2.1 tripNewer.1.2.2 tripNewer.2.2.2 50 "a").2 = some 1 ∧
    ((roundTrip noGroupOps tripNewer.1.2.1 tripNewer.1.2.2 tripNewer.2.2.2 50 "a").1 1).Val = 99 ∧
    ((roundTrip noGroupOps tripNewer.1.2.1 tripNewer.1.2.2 tripNewer.2.2.2 50 "a").1
      1).Timestamp = 9 ∧
    tripOlder.2.2.2.Infos.lookup "a" = some 0 ∧
    (tripOlder.2.2.1 0).Hops = 0 ∧
    (roundTrip noGroupOps tripOlder.2.2.1 tripOlder.1.2.2 tripOlder.2.2.2 50 "a").2 = some 0 ∧
    ((roundTrip noGroupOps tripOlder.2.2.1 tripOlder.1.2.2 tripOlder.2.2.2 50 "a").1 0).Hops =
      0 := by
  decide

/-- C11 (amended), Delta round-trip: let B be a store with no groups that
holds at least one Info and holds each Info under the Info's own key, with Seq
above 0 and at most B's `MaxSeq`, and let A be a store whose `SeqGen` is an
`int64` with room for B's Infos below the largest `int64`. Then `B.Delta(0)`
returns a delta `d` and no error and writes no Info, and `A.Combine(d)`
returns no error. And for every key `k` that B holds, with Info `p` whose
`Hops` before the calls is below the largest `uint32`: if no group of A has the
prefix of `k`, and A holds under `k` either nothing or an Info that is older
than `p`, has at least `p`'s `Hops` plus 1 hops and is not held by B, then A's
`GetInfo(k)` at every time before `p`'s `TTLStamp` returns `p`, with `Key`,
`Val`, `Timestamp` and `TTLStamp` as B had them, with `Hops` one more than `p`
had before the calls, and with Seq the value A's generator handed out for it:
A's old `SeqGen` plus the position of `p` among the Infos of `d`. -/
theorem Delta_Combine_round_trip (G : GroupOps) (h : Heap) (A B : InfoStore)
    (hg : B.Groups = ∅) (hwk : WellKeyed h B.Infos)
    (hpos : ∀ q ∈ mapValues B.Infos, 0 < (h q).Seq)
    (hmax : ∀ q ∈ mapValues B.Infos, (h q).Seq ≤ B.MaxSeq)
    (hne : mapValues B.Infos ≠ [])
    (hlo : minInt64 ≤ A.SeqGen) (hhi : A.SeqGen + (mapValues B.Infos).length ≤ maxInt64) :
    ∃ d, B.Delta G h 0 = (h, some d, none) ∧
      (A.Combine G h d).2 = none ∧
      ∀ k p, B.Infos.lookup k = some p → infoPrefix k ∉ A.Groups →
        (∀ e, A.Infos.lookup k = some e → (h e).Timestamp < (h p).Timestamp ∧
          (h p).Hops + 1 ≤ (h e).Hops ∧ e ∉ mapValues B.Infos) →
        (h p).Hops < maxUint32 →
        (∀ now, now < (h p).TTLStamp →
          ((A.Combine G h d).1.2.GetInfo G (A.Combine G h d).1.1 now k).2 = some p) ∧
        ((A.Combine G h d).1.1 p).Key = (h p).Key ∧
        ((A.Combine G h d).1.1 p).Val = (h p).Val ∧
        ((A.Combine G h d).1.1 p).Timestamp = (h p).Timestamp ∧
        ((A.Combine G h d).1.1 p).TTLStamp = (h p).TTLStamp ∧
        ((A.Combine G h d).1.1 p).Hops = (h p).Hops + 1 ∧
        ∃ pre post, mapValues d.Infos = pre ++ p :: post ∧
          ((A.Combine G h d).1.1 p).Seq = A.SeqGen + (pre.length + 1) :=
  Delta_Combine_delivers G h A B hg hwk hpos hmax hne hlo hhi

/-- With B the store that created and added the Infos of keys `a` and `b`,
and A an empty store whose generator stands at 40: after
`A.Combine(B.Delta(0))`, A's `GetInfo` of key `a` at time 50 returns B's Info,
with value 10, timestamp 5, `TTLStamp` 105, `Hops` 1 and Seq 41, and `GetInfo`
of key `b` returns B's other Info, with Seq 42. -/
theorem Delta_Combine_round_trip_witness :
    ownTwo.2.2.Groups = ∅ ∧ mapValues ownTwo.2.2.Infos = [1, 0] ∧
    ownTwo.2.2.Infos.lookup "a" = some 0 ∧ (50 : Int) < (ownTwo.2.1 0).TTLStamp ∧
    (roundTrip capGroupOps ownTwo.2.1 storeForty ownTwo.2.2 50 "a").2 = some 0 ∧
    (roundTrip capGroupOps ownTwo.2.1 storeForty ownTwo.2.2 50 "a").1 0 =
      ⟨"a", 10, 5, 105, 41, "localhost", 1⟩ ∧
    (roundTrip capGroupOps ownTwo.2.1 storeForty ownTwo.2.2 50 "b").2 = some 1 ∧
    ((roundTrip capGroupOps ownTwo.2.1 storeForty ownTwo.2.2 50 "b").1 1).Seq = 42 ∧
    (∃ d, ownTwo.2.2.Delta capGroupOps ownTwo.2.1 0 = (ownTwo.2.1, some d, none) ∧
      (storeForty.Combine capGroupOps ownTwo.2.1 d).2 = none ∧
      ((storeForty.Combine capGroupOps ownTwo.2.1 d).1.2.GetInfo capGroupOps
        (storeForty.Combine capGroupOps ownTwo.2.1 d).1.1 50 "a").2 = some 0 ∧
      ((storeForty.Combine capGroupOps ownTwo.2.1 d).1.1 0).Hops = (ownTwo.2.1 0).Hops + 1) :=
  ⟨rfl, by decide, by decide, by decide, by decide, by decide, by decide, by decide,
    (Delta_Combine_round_trip capGroupOps ownTwo.2.1 storeForty ownTwo.2.2 rfl ownTwo_wellKeyed
      (by decide) (by decide) (by decide) (by decide) (by decide)).imp
      (fun _ hd => ⟨hd.1, hd.2.1,
        ((hd.2.2 "a" 0 (by decide) (AList.not_mem_empty _)
          (fun e he => by simp [storeForty, NewInfoStore] at he) (by decide)).1 50 (by decide)),
        (hd.2.2 "a" 0 (by decide) (AList.not_mem_empty _)
          (fun e he => by simp [storeForty, NewInfoStore] at he) (by decide)).2.2.2.2.2.1⟩)⟩

/-! ### `Delta` on the stores the package builds -/

theorem GetInfo_wellKeyed (G : GroupOps) (h : Heap) (now : Int) (is : InfoStore) (key : String)
    (hg : is.Groups = ∅) (hw : WellKeyed h is.Infos) :
    (is.GetInfo G h now key).1.Groups = ∅ ∧ WellKeyed h (is.GetInfo G h now key).1.Infos := by
  have hb : is.belongsToGroup key = none := by
    simp [InfoStore.belongsToGroup, hg]
  unfold InfoStore.GetInfo
  rw [hb]
  cases hl : is.Infos.lookup key with
  | none => exact ⟨hg, hw⟩
  | some info =>
    by_cases ht : (h info).TTLStamp ≤ now
    · simp only [ht, if_true]
      refine ⟨hg, fun k p hp => ?_⟩
      by_cases hk : k = key
      · rw [hk, AList.lookup_erase] at hp
        exact Option.noConfusion hp
      · rw [AList.lookup_erase_ne hk] at hp
        exact hw k p hp
    · simp only [ht, if_false]
      exact ⟨hg, hw⟩

theorem combineInfo_wellKeyed (G : GroupOps) (p : Ptr) (st : Heap × InfoStore)
    (hI : st.2.Groups = ∅ ∧ WellKeyed st.1 st.2.Infos) :
    (InfoStore.combineInfo G p st).1.2.Groups = ∅ ∧
      WellKeyed (InfoStore.combineInfo G p st).1.1 (InfoStore.combineInfo G p st).1.2.Infos := by
  obtain ⟨hg, hw⟩ := hI
  obtain ⟨hsi, hsg⟩ := combineStamp_maps p st
  have hg1 : (InfoStore.combineStamp p st).2.Groups = ∅ := by rw [hsg]; exact hg
  have hw1 : WellKeyed (InfoStore.combineStamp p st).1 (InfoStore.combineStamp p st).2.Infos := by
    intro k q hq
    rw [hsi] at hq
    rw [combineStamp_key]
    exact hw k q hq
  simp only [InfoStore.combineInfo]
  exact ⟨AddInfo_groups_empty G _ _ p hg1, wellKeyed_AddInfo G _ _ p hg1 hw1⟩

theorem wellKeyed_of_reachableUngrouped (G : GroupOps) (h : Heap) (is : InfoStore)
    (hr : ReachableUngrouped G h is) : is.Groups = ∅ ∧ WellKeyed h is.Infos := by
  induction hr with
  | newInfoStore h => exact ⟨rfl, wellKeyed_empty h⟩
  | addInfo info _ ih =>
    exact ⟨AddInfo_groups_empty G _ _ info ih.1, wellKeyed_AddInfo G _ _ info ih.1 ih.2⟩
  | getInfo now key _ ih => exact GetInfo_wellKeyed G _ now _ key ih.1 ih.2
  | combine delta hd _ ih =>
    rw [Combine_groups_empty G _ _ delta hd]
    exact visitEach_invariant
      (fun st : Heap × InfoStore => st.2.Groups = ∅ ∧ WellKeyed st.1 st.2.Infos)
      (InfoStore.combineInfo G) (fun p st hI => combineInfo_wellKeyed G p st hI) _ _ ih
  | write h1 hk _ ih =>
    refine ⟨ih.1, fun k p hp => ?_⟩
    rw [hk p ((mem_heldPtrs _ p).mpr (Or.inr ((mem_mapValues_iff _ p).mpr ⟨k, hp⟩)))]
    exact ih.2 k p hp

/-- C9: for every store with no registered groups that the package builds
(from `NewInfoStore()` by `AddInfo`, `GetInfo` and `Combine` of deltas without
groups, whatever else is written to the Infos' Seq and Hops in between) and
that satisfies `MaxSeq >=` every held Seq, and for every `seq < MaxSeq`,
`Delta(seq)` returns a store and no error and writes no Info (the heap is
unchanged, so every Info keeps its fields); the store returned holds, each
under its own `Key`, exactly the source's Infos whose Seq exceeds `seq`; it has
no groups and the source's `SeqGen`. `Delta(MaxSeq - 1)` holds exactly the
Infos with Seq equal to `MaxSeq`. -/
theorem Delta_holds_newer (G : GroupOps) (h : Heap) (is : InfoStore) (seq : Int)
    (hr : ReachableUngrouped G h is)
    (hmax : ∀ p ∈ heldPtrs is, (h p).Seq ≤ is.MaxSeq) (hseq : seq < is.MaxSeq) :
    is.Groups = ∅ ∧
    ∃ d, is.Delta G h seq = (h, some d, none) ∧
      (∀ k p, d.Infos.lookup k = some p ↔
        (p ∈ mapValues is.Infos ∧ (h p).Key = k ∧ seq < (h p).Seq)) ∧
      d.Groups = ∅ ∧ d.SeqGen = is.SeqGen ∧
      (seq = is.MaxSeq - 1 →
        ∀ k p, d.Infos.lookup k = some p ↔
          (p ∈ mapValues is.Infos ∧ (h p).Key = k ∧ (h p).Seq = is.MaxSeq)) :=
  ⟨(wellKeyed_of_reachableUngrouped G h is hr).1,
    Delta_newer_of_distinct_keys G h is seq (wellKeyed_of_reachableUngrouped G h is hr).1
      (keys_nodup_of_wellKeyed h _ (wellKeyed_of_reachableUngrouped G h is hr).2) hmax hseq⟩

/-- On the store that added three Infos with Seq 1, 2, 3 (`MaxSeq` 3),
`Delta(2)` holds exactly the Info with Seq 3, under its key `c`. -/
theorem Delta_holds_newer_witness :
    ReachableUngrouped noGroupOps heapThree storeThree ∧
    (∀ p ∈ heldPtrs storeThree, (heapThree p).Seq ≤ storeThree.MaxSeq) ∧
    (2 : Int) < storeThree.MaxSeq ∧
    mapValues (((storeThree.Delta noGroupOps heapThree 2).2.1).getD NewInfoStore).Infos = [2] ∧
    (((storeThree.Delta noGroupOps heapThree 2).2.1).getD NewInfoStore).Infos.lookup "c" =
      some 2 ∧
    ∃ d, storeThree.Delta noGroupOps heapThree 2 = (heapThree, some d, none) ∧
      ∀ k p, d.Infos.lookup k = some p ↔
        (p ∈ mapValues storeThree.Infos ∧ (heapThree p).Key = k ∧
          (heapThree p).Seq = storeThree.MaxSeq) :=
  ⟨ReachableUngrouped.addInfo 2 (ReachableUngrouped.addInfo 1 (ReachableUngrouped.addInfo 0
      (ReachableUngrouped.newInfoStore heapThree))),
    by decide, by decide, by decide, by decide,
    (Delta_holds_newer noGroupOps heapThree storeThree 2
      (ReachableUngrouped.addInfo 2 (ReachableUngrouped.addInfo 1 (ReachableUngrouped.addInfo 0
        (ReachableUngrouped.newInfoStore heapThree))))
      (by decide) (by decide)).2.imp (fun _ hd => ⟨hd.1, hd.2.2.2.2 (by decide)⟩)⟩

end Gossip
